import Mathlib

/-!
# Robust geometric predicates (`trunk/cg2012.1/lib/geometry.cpp`)

A shallow embedding of the hybrid fast/exact predicates `left_turn`, `intersect`,
`farther_than` and `compare_distance`.

## Number model

A finite `double` is modelled by the rational number it denotes.  Every floating-point
operation of the source is the exact rational operation followed by `fl`, rounding to
nearest (ties to even) in binary64: 53 significant bits, gradual underflow on the grid
of multiples of `2^-1074`.  The exponent range of `fl` is unbounded above, so `fl`
coincides with IEEE-754 arithmetic exactly as long as no operation overflows; overflow,
infinities and NaN are outside the contract of the library and outside this model.
Negation, `std::abs`, `std::min`, `std::max` and comparisons are exact on doubles and
carry no rounding.
-/

namespace Geometry

/-! ## Binary64 rounding -/

/-- The rational `2^e`, computed with natural-number powers. -/
def pow2 (e : Int) : ℚ :=
  if 0 ≤ e then ((2 ^ e.toNat : Nat) : ℚ) else 1 / ((2 ^ (-e).toNat : Nat) : ℚ)

/-- Floor of the binary logarithm of a natural number (`0` for `n < 2`), by structural
recursion on a fuel argument; `log2F n n` is the floor of `log₂ n` for `n ≥ 1`. -/
def log2F : Nat → Nat → Nat
  | 0, _ => 0
  | fuel + 1, n => if n < 2 then 0 else log2F fuel (n / 2) + 1

/-- Floor of the binary logarithm of `|q|` for a nonzero rational `q`. -/
def ilog2 (q : ℚ) : Int :=
  let k : Int := (log2F q.num.natAbs q.num.natAbs : Int) - (log2F q.den q.den : Int)
  if pow2 k ≤ |q| then k else k - 1

/-- Nearest integer, ties to the even one. -/
def roundEven (y : ℚ) : Int :=
  let f := ⌊y⌋
  let r := y - f
  if r < 1 / 2 then f
  else if 1 / 2 < r then f + 1
  else if f % 2 = 0 then f else f + 1

/-- Exponent of the unit in the last place used when rounding `x` to binary64:
53 significant bits, never below the subnormal grid `2^-1074`. -/
def ulpExp (x : ℚ) : Int := max (ilog2 x - 52) (-1074)

/-- Rounding to nearest-even in binary64 (unbounded above). -/
def fl (x : ℚ) : ℚ :=
  if x = 0 then 0 else (roundEven (x / pow2 (ulpExp x)) : ℚ) * pow2 (ulpExp x)

/-- The constant `DBL_EPSILON` of `<cfloat>`: `2^-52`. -/
def DBL_EPSILON : ℚ := pow2 (-52)

/-- The constant `DBL_MIN` of `<cfloat>`: the smallest positive normal double, `2^-1022`. -/
def DBL_MIN : ℚ := pow2 (-1022)

/-- The constant `DBL_MAX` of `<cfloat>`: the largest finite double, `(2^53 - 1) * 2^971`. -/
def DBL_MAX : ℚ := (2 ^ 53 - 1) * pow2 971

/-- The rational `x` is the value of a finite `double`. -/
def IsDouble (x : ℚ) : Prop := fl x = x ∧ |x| ≤ DBL_MAX

instance (x : ℚ) : Decidable (IsDouble x) := by unfold IsDouble; infer_instance

/-- The exact value `p` of an operation does not underflow: it is zero or its
magnitude is at least `DBL_MIN` (so its rounding is a normal double or zero). -/
def NoUnderflow (p : ℚ) : Prop := p = 0 ∨ DBL_MIN ≤ |p|

instance (p : ℚ) : Decidable (NoUnderflow p) := by unfold NoUnderflow; infer_instance

/-- Sign of a rational as the `int` in `{-1, 0, 1}` returned by the predicates. -/
def sgn (x : ℚ) : Int := if 0 < x then 1 else if x < 0 then -1 else 0

/-! ## Data model -/

/-- The source's `geometry::point`: a pair of `double` coordinates. -/
structure point where
  x : ℚ
  y : ℚ
deriving DecidableEq

/-- All coordinates of the point are finite doubles. -/
def point.IsDouble (p : point) : Prop := Geometry.IsDouble p.x ∧ Geometry.IsDouble p.y

instance (p : point) : Decidable p.IsDouble := by unfold point.IsDouble; infer_instance

/-- A scratch array `double result[N]`: the component stored at each index. -/
abbrev Buf := Nat → ℚ

/-- The scratch array before anything is written to it. -/
def Buf.empty : Buf := fun _ => 0

/-- Store `v` at index `i`. -/
def Buf.set (r : Buf) (i : Nat) (v : ℚ) : Buf := fun j => if j = i then v else r j

/-- Store the two outputs of an error-free product at indices `i` and `j`: the effect
of the reference parameters in `two_product(a, b, result[i], result[j])`. -/
def Buf.set2 (r : Buf) (i j : Nat) (pe : ℚ × ℚ) : Buf := (r.set i pe.1).set j pe.2

/-- Exact sum of the `len` components starting at index `off`. -/
def Buf.sum (r : Buf) (off : Nat) : Nat → ℚ
  | 0 => 0
  | len + 1 => Buf.sum r off len + r (off + len)

/-- Modelled from the spec: the header `robust_arithmetic.h` (namespace
`adaptive_arithmetic`) with `two_product`, `expansion_sum<m, n>` and `sign<k>` is not
part of the sources.  The three operations are taken as parameters together with the
contract the specification gives them:
* `two_product(a, b, p, e)` yields `p + e = a * b` exactly;
* `expansion_sum<m, n>(e, f)` with `f = e + m` replaces the `m + n` components
  starting at `e` by an expansion with the same exact sum and touches nothing else;
* `sign<k>(e)` is the sign of the exact sum of the `k` components starting at `e`.

The contract is idealised: it is stated for all arguments and the components are
rationals, whereas the source stores them in `double result[N]`.  Helpers that return
doubles can meet `p + e = a * b` at a call exactly when the rounding error of the product
is itself a finite double (`TwoProductExact` below), which fails for products with bits
below `2^-1074`.  Statements about the value an exact path returns on given points
therefore carry that condition on the products of the call (`RobustTurnExact`,
`RobustFartherExact`, `RobustDistanceExact`) unless they state the contract as their
assumption or compare two calls that receive the same products. -/
structure ExactArith where
  /-- Error-free product: the pair `(p, e)`. -/
  two_product : ℚ → ℚ → ℚ × ℚ
  /-- In-place summation `expansion_sum<m, n>(result + e, result + f)`. -/
  expansion_sum : (m n : Nat) → Buf → (e f : Nat) → Buf
  /-- Sign extraction `sign<k>(result)`. -/
  sign : (k : Nat) → Buf → Int
  two_product_exact : ∀ a b, (two_product a b).1 + (two_product a b).2 = a * b
  expansion_sum_exact : ∀ m n r e,
    Buf.sum (expansion_sum m n r e (e + m)) e (m + n) = Buf.sum r e (m + n)
  expansion_sum_frame : ∀ m n r e j, (j < e ∨ e + (m + n) ≤ j) →
    expansion_sum m n r e (e + m) j = r j
  sign_exact : ∀ k r, sign k r = sgn (Buf.sum r 0 k)

/-- Modelled from the spec: one implementation of the missing `robust_arithmetic.h`
that meets the contract.  The product is split into its correctly rounded value and
the rounding error; the summation leaves the total in the last of the `m + n`
components and zeroes below it; the sign is read off the exact sum.  The two components
of a product are finite doubles exactly when `TwoProductExact` holds for its factors; on
other inputs this instance is an idealisation that double arithmetic does not realise. -/
def refArith : ExactArith where
  two_product a b := (fl (a * b), a * b - fl (a * b))
  expansion_sum m n r e _ := fun j =>
    if e ≤ j ∧ j < e + (m + n) then (if j + 1 = e + (m + n) then Buf.sum r e (m + n) else 0)
    else r j
  sign k r := sgn (Buf.sum r 0 k)
  two_product_exact a b := by ring
  expansion_sum_exact m n r e := by
    have key : ∀ (t : ℚ) (len N : Nat), len ≤ N →
        Buf.sum (fun j => if e ≤ j ∧ j < e + N then (if j + 1 = e + N then t else 0)
          else r j) e len = if len = N ∧ 0 < N then t else 0 := by
      intro t len N
      induction len with
      | zero =>
        intro _
        have h0 : ¬ (0 = N ∧ 0 < N) := by omega
        rw [if_neg h0]
        rfl
      | succ k ih =>
        intro hk
        rw [Buf.sum, ih (by omega)]
        have h1 : ¬ (k = N ∧ 0 < N) := by omega
        have h2 : e ≤ e + k ∧ e + k < e + N := by omega
        rw [if_neg h1, if_pos h2, zero_add]
        by_cases h3 : k + 1 = N
        · rw [if_pos (by omega), if_pos ⟨h3, by omega⟩]
        · rw [if_neg (by omega), if_neg (by omega)]
    rw [key _ _ _ le_rfl]
    by_cases h : 0 < m + n
    · rw [if_pos ⟨rfl, h⟩]
    · have h0 : m + n = 0 := by omega
      rw [if_neg (by omega), h0]
      rfl
  expansion_sum_frame m n r e j hj := by
    have h : ¬ (e ≤ j ∧ j < e + (m + n)) := by omega
    simp only [if_neg h]
  sign_exact _ _ := rfl

/-! ## The predicates of `geometry.cpp` -/

/-- Source `robust_turn` (lines 13-35): sign of
`a2.x * b.y - a2.x * a1.y - a1.x * b.y - a2.y * b.x + a2.y * a1.x + a1.y * b.x`
through six error-free products and five expansion sums on `double result[12]`. -/
def robust_turn (A : ExactArith) (a1 a2 b : point) : Int :=
  let result : Buf := Buf.empty
  let result := result.set2 0 1 (A.two_product a2.x b.y)
  let result := result.set2 2 3 (A.two_product (-a2.x) a1.y)
  let result := result.set2 4 5 (A.two_product (-a1.x) b.y)
  let result := result.set2 6 7 (A.two_product (-a2.y) b.x)
  let result := result.set2 8 9 (A.two_product a2.y a1.x)
  let result := result.set2 10 11 (A.two_product a1.y b.x)
  let result := A.expansion_sum 2 2 result 0 2
  let result := A.expansion_sum 2 2 result 4 6
  let result := A.expansion_sum 2 2 result 8 10
  let result := A.expansion_sum 4 4 result 0 4
  let result := A.expansion_sum 8 4 result 0 8
  A.sign 12 result

/-- Source `fast_turn` (lines 37-46): the determinant in double arithmetic with the
threshold `4 * DBL_EPSILON * (|t1| + |t2|)`; `0` means inconclusive. -/
def fast_turn (a1 a2 b : point) : Int :=
  let t1 := fl (fl (a2.x - a1.x) * fl (b.y - a1.y))
  let t2 := fl (fl (a2.y - a1.y) * fl (b.x - a1.x))
  if |fl (t1 - t2)| > fl (fl (4 * DBL_EPSILON) * fl (|t1| + |t2|)) then
    (if t1 > t2 then 1 else -1)
  else 0

/-- Source `check_bounding_box` (lines 48-64). -/
def check_bounding_box (a1 a2 b1 b2 : point) : Bool :=
  let min_x1 := min a1.x a2.x
  let min_y1 := min a1.y a2.y
  let min_x2 := min b1.x b2.x
  let min_y2 := min b1.y b2.y
  let max_x1 := max a1.x a2.x
  let max_y1 := max a1.y a2.y
  let max_x2 := max b1.x b2.x
  let max_y2 := max b1.y b2.y
  (!(decide (max_x2 < min_x1) || decide (max_x1 < min_x2)))
    && (!(decide (max_y2 < min_y1) || decide (max_y1 < min_y2)))

/-- Source `robust_farther_than` (lines 66-94): whether
`a2.x * b.y - a2.x * c.y - a1.x * b.y + a1.x * c.y - a2.y * b.x + a2.y * c.x
  + a1.y * b.x - a1.y * c.x > 0`, on `double result[16]`. -/
def robust_farther_than (A : ExactArith) (a1 a2 b c : point) : Bool :=
  let result : Buf := Buf.empty
  let result := result.set2 0 1 (A.two_product a2.x b.y)
  let result := result.set2 2 3 (A.two_product (-a2.x) c.y)
  let result := result.set2 4 5 (A.two_product (-a1.x) b.y)
  let result := result.set2 6 7 (A.two_product a1.x c.y)
  let result := result.set2 8 9 (A.two_product (-a2.y) b.x)
  let result := result.set2 10 11 (A.two_product a2.y c.x)
  let result := result.set2 12 13 (A.two_product a1.y b.x)
  let result := result.set2 14 15 (A.two_product (-a1.y) c.x)
  let result := A.expansion_sum 2 2 result 0 2
  let result := A.expansion_sum 2 2 result 4 6
  let result := A.expansion_sum 2 2 result 8 10
  let result := A.expansion_sum 2 2 result 12 14
  let result := A.expansion_sum 4 4 result 0 4
  let result := A.expansion_sum 4 4 result 8 12
  let result := A.expansion_sum 8 8 result 0 8
  A.sign 16 result == 1

/-- Source `fast_farther_than` (lines 96-106): returns the `int` conversion of
`true`/`false` (`1`/`0`) when certified and `-1` when inconclusive. -/
def fast_farther_than (a1 a2 b c : point) : Int :=
  let t1 := fl (fl (a2.x - a1.x) * fl (b.y - c.y))
  let t2 := fl (fl (a2.y - a1.y) * fl (b.x - c.x))
  if |fl (t1 - t2)| > fl (fl (4 * DBL_EPSILON) * fl (|t1| + |t2|)) then
    (if t1 > t2 then 1 else 0)
  else -1

/-- Source `fast_compare_distance` (lines 108-122). -/
def fast_compare_distance (a1 a2 b1 b2 : point) : Int :=
  let ax2 := fl (fl (a2.x - a1.x) * fl (a2.x - a1.x))
  let ay2 := fl (fl (a2.y - a1.y) * fl (a2.y - a1.y))
  let bx2 := fl (fl (b2.x - b1.x) * fl (b2.x - b1.x))
  let by2 := fl (fl (b2.y - b1.y) * fl (b2.y - b1.y))
  let a := fl (ax2 + ay2)
  let b := fl (bx2 + by2)
  if |fl (a - b)| > fl (fl (4 * DBL_EPSILON) * fl (a + b)) then
    (if a > b then 1 else -1)
  else 0

/-- Source `robust_compare_distance` (lines 124-157), on `double result[24]`. -/
def robust_compare_distance (A : ExactArith) (a1 a2 b1 b2 : point) : Int :=
  let result : Buf := Buf.empty
  let result := result.set2 0 1 (A.two_product a2.x a2.x)
  let result := result.set2 2 3 (A.two_product (fl (-2 * a2.x)) a1.x)
  let result := result.set2 4 5 (A.two_product a1.x a1.x)
  let result := result.set2 6 7 (A.two_product a2.y a2.y)
  let result := result.set2 8 9 (A.two_product (fl (-2 * a2.y)) a1.y)
  let result := result.set2 10 11 (A.two_product a1.y a1.y)
  let result := result.set2 12 13 (A.two_product (-b2.x) b2.x)
  let result := result.set2 14 15 (A.two_product (fl (2 * b2.x)) b1.x)
  let result := result.set2 16 17 (A.two_product (-b1.x) b1.x)
  let result := result.set2 18 19 (A.two_product (-b2.y) b2.y)
  let result := result.set2 20 21 (A.two_product (fl (2 * b2.y)) b1.y)
  let result := result.set2 22 23 (A.two_product (-b1.y) b1.y)
  let result := A.expansion_sum 2 2 result 0 2
  let result := A.expansion_sum 2 2 result 4 6
  let result := A.expansion_sum 2 2 result 8 10
  let result := A.expansion_sum 2 2 result 12 14
  let result := A.expansion_sum 2 2 result 16 18
  let result := A.expansion_sum 2 2 result 20 22
  let result := A.expansion_sum 4 4 result 0 4
  let result := A.expansion_sum 4 4 result 8 12
  let result := A.expansion_sum 4 4 result 16 20
  let result := A.expansion_sum 8 8 result 0 8
  let result := A.expansion_sum 16 8 result 0 16
  A.sign 24 result

/-- Source `geometry::left_turn` (lines 161-170). -/
def left_turn (A : ExactArith) (a1 a2 b : point) : Int :=
  let res := fast_turn a1 a2 b
  if res = 0 then robust_turn A a1 a2 b else res

/-- Source `geometry::intersect` (lines 172-185). -/
def intersect (A : ExactArith) (a1 a2 b1 b2 : point) : Bool :=
  if check_bounding_box a1 a2 b1 b2
      && decide (left_turn A a1 a2 b1 * left_turn A a1 a2 b2 ≤ 0)
      && decide (left_turn A b1 b2 a1 * left_turn A b1 b2 a2 ≤ 0) then
    true
  else
    false

/-- Source `geometry::farther_than` (lines 187-196): the `int` result of the fast path,
replaced by the `bool` of the exact path when it is `-1`, converted to `bool` on return. -/
def farther_than (A : ExactArith) (a1 a2 b c : point) : Bool :=
  let res := fast_farther_than a1 a2 b c
  let res := if res = -1 then (if robust_farther_than A a1 a2 b c then 1 else 0) else res
  decide (res ≠ 0)

/-- Source `geometry::compare_distance` (lines 198-207). -/
def compare_distance (A : ExactArith) (a1 a2 b1 b2 : point) : Int :=
  let res := fast_compare_distance a1 a2 b1 b2
  if res = 0 then robust_compare_distance A a1 a2 b1 b2 else res

/-! ## The exact quantities of the specification -/

/-- The orientation determinant
`(a2.x - a1.x) * (b.y - a1.y) - (a2.y - a1.y) * (b.x - a1.x)`. -/
def det (a1 a2 b : point) : ℚ :=
  (a2.x - a1.x) * (b.y - a1.y) - (a2.y - a1.y) * (b.x - a1.x)

/-- The cross expression `(a2.x - a1.x) * (b.y - c.y) - (a2.y - a1.y) * (b.x - c.x)`
of `farther_than`. -/
def cross (a1 a2 b c : point) : ℚ :=
  (a2.x - a1.x) * (b.y - c.y) - (a2.y - a1.y) * (b.x - c.x)

/-- Squared length of the segment `p q`. -/
def dist2 (p q : point) : ℚ := (q.x - p.x) ^ 2 + (q.y - p.y) ^ 2

/-- The closed segments `[a1, a2]` and `[b1, b2]` have a common point: there are real
parameters `s, t` in `[0, 1]` with `a1 + s * (a2 - a1) = b1 + t * (b2 - b1)`. -/
def SegmentsMeet (a1 a2 b1 b2 : point) : Prop :=
  ∃ s t : ℝ, 0 ≤ s ∧ s ≤ 1 ∧ 0 ≤ t ∧ t ≤ 1 ∧
    (a1.x : ℝ) + s * ((a2.x : ℝ) - a1.x) = (b1.x : ℝ) + t * ((b2.x : ℝ) - b1.x) ∧
    (a1.y : ℝ) + s * ((a2.y : ℝ) - a1.y) = (b1.y : ℝ) + t * ((b2.y : ℝ) - b1.y)

/-- Neither of the two products `t1`, `t2` of `fast_turn a1 a2 b` underflows. -/
def TurnNoUnderflow (a1 a2 b : point) : Prop :=
  NoUnderflow (fl (a2.x - a1.x) * fl (b.y - a1.y)) ∧
    NoUnderflow (fl (a2.y - a1.y) * fl (b.x - a1.x))

instance (a1 a2 b : point) : Decidable (TurnNoUnderflow a1 a2 b) := by
  unfold TurnNoUnderflow; infer_instance

/-- Neither of the two products `t1`, `t2` of `fast_farther_than a1 a2 b c` underflows. -/
def FartherNoUnderflow (a1 a2 b c : point) : Prop :=
  NoUnderflow (fl (a2.x - a1.x) * fl (b.y - c.y)) ∧
    NoUnderflow (fl (a2.y - a1.y) * fl (b.x - c.x))

instance (a1 a2 b c : point) : Decidable (FartherNoUnderflow a1 a2 b c) := by
  unfold FartherNoUnderflow; infer_instance

/-- None of the four squares of `fast_compare_distance a1 a2 b1 b2` underflows. -/
def DistanceNoUnderflow (a1 a2 b1 b2 : point) : Prop :=
  NoUnderflow (fl (a2.x - a1.x) * fl (a2.x - a1.x)) ∧
    NoUnderflow (fl (a2.y - a1.y) * fl (a2.y - a1.y)) ∧
    NoUnderflow (fl (b2.x - b1.x) * fl (b2.x - b1.x)) ∧
    NoUnderflow (fl (b2.y - b1.y) * fl (b2.y - b1.y))

instance (a1 a2 b1 b2 : point) : Decidable (DistanceNoUnderflow a1 a2 b1 b2) := by
  unfold DistanceNoUnderflow; infer_instance

/-- No operation of `fast_turn a1 a2 b` overflows: every rounded intermediate value is
a finite double, so the model agrees with IEEE-754 arithmetic on this input. -/
def TurnFinite (a1 a2 b : point) : Prop :=
  let t1 := fl (fl (a2.x - a1.x) * fl (b.y - a1.y))
  let t2 := fl (fl (a2.y - a1.y) * fl (b.x - a1.x))
  IsDouble (fl (a2.x - a1.x)) ∧ IsDouble (fl (b.y - a1.y)) ∧ IsDouble (fl (a2.y - a1.y)) ∧
    IsDouble (fl (b.x - a1.x)) ∧ IsDouble t1 ∧ IsDouble t2 ∧ IsDouble (fl (t1 - t2)) ∧
    IsDouble (fl (|t1| + |t2|)) ∧ IsDouble (fl (fl (4 * DBL_EPSILON) * fl (|t1| + |t2|)))

instance (a1 a2 b : point) : Decidable (TurnFinite a1 a2 b) := by
  unfold TurnFinite; infer_instance

/-- No operation of `fast_farther_than a1 a2 b c` overflows. -/
def FartherFinite (a1 a2 b c : point) : Prop :=
  let t1 := fl (fl (a2.x - a1.x) * fl (b.y - c.y))
  let t2 := fl (fl (a2.y - a1.y) * fl (b.x - c.x))
  IsDouble (fl (a2.x - a1.x)) ∧ IsDouble (fl (b.y - c.y)) ∧ IsDouble (fl (a2.y - a1.y)) ∧
    IsDouble (fl (b.x - c.x)) ∧ IsDouble t1 ∧ IsDouble t2 ∧ IsDouble (fl (t1 - t2)) ∧
    IsDouble (fl (|t1| + |t2|)) ∧ IsDouble (fl (fl (4 * DBL_EPSILON) * fl (|t1| + |t2|)))

instance (a1 a2 b c : point) : Decidable (FartherFinite a1 a2 b c) := by
  unfold FartherFinite; infer_instance

/-- No operation of `fast_compare_distance a1 a2 b1 b2` overflows. -/
def DistanceFinite (a1 a2 b1 b2 : point) : Prop :=
  let ax2 := fl (fl (a2.x - a1.x) * fl (a2.x - a1.x))
  let ay2 := fl (fl (a2.y - a1.y) * fl (a2.y - a1.y))
  let bx2 := fl (fl (b2.x - b1.x) * fl (b2.x - b1.x))
  let by2 := fl (fl (b2.y - b1.y) * fl (b2.y - b1.y))
  let a := fl (ax2 + ay2)
  let b := fl (bx2 + by2)
  IsDouble (fl (a2.x - a1.x)) ∧ IsDouble (fl (a2.y - a1.y)) ∧ IsDouble (fl (b2.x - b1.x)) ∧
    IsDouble (fl (b2.y - b1.y)) ∧ IsDouble ax2 ∧ IsDouble ay2 ∧ IsDouble bx2 ∧ IsDouble by2 ∧
    IsDouble a ∧ IsDouble b ∧ IsDouble (fl (a - b)) ∧ IsDouble (fl (a + b)) ∧
    IsDouble (fl (fl (4 * DBL_EPSILON) * fl (a + b)))

instance (a1 a2 b1 b2 : point) : Decidable (DistanceFinite a1 a2 b1 b2) := by
  unfold DistanceFinite; infer_instance

/-- The error-free product of `x` and `y` exists in double arithmetic: the correctly
rounded product and its rounding error are both finite doubles.  Exactly then a
`two_product` that stores two doubles can return `p + e = x * y`; the condition fails
when the product overflows or has bits below the subnormal grid `2^-1074`. -/
def TwoProductExact (x y : ℚ) : Prop :=
  IsDouble (fl (x * y)) ∧ IsDouble (x * y - fl (x * y))

instance (x y : ℚ) : Decidable (TwoProductExact x y) := by
  unfold TwoProductExact; infer_instance

/-- The exact path `robust_turn a1 a2 b` can be carried out in double arithmetic: each
of its six error-free products (source lines 20-25) exists in double arithmetic, and the
magnitudes of the six products sum to at most `DBL_MAX`, so that every partial sum formed
by `expansion_sum` is within the range of finite doubles. -/
def RobustTurnExact (a1 a2 b : point) : Prop :=
  (TwoProductExact a2.x b.y ∧ TwoProductExact (-a2.x) a1.y ∧ TwoProductExact (-a1.x) b.y ∧
    TwoProductExact (-a2.y) b.x ∧ TwoProductExact a2.y a1.x ∧ TwoProductExact a1.y b.x) ∧
  |a2.x * b.y| + |-a2.x * a1.y| + |-a1.x * b.y| + |-a2.y * b.x| + |a2.y * a1.x|
    + |a1.y * b.x| ≤ DBL_MAX

instance (a1 a2 b : point) : Decidable (RobustTurnExact a1 a2 b) := by
  unfold RobustTurnExact; infer_instance

/-- The exact path `robust_farther_than a1 a2 b c` can be carried out in double
arithmetic: each of its eight error-free products (source lines 75-82) exists in double
arithmetic, and the magnitudes of the eight products sum to at most `DBL_MAX`, so that
every partial sum formed by `expansion_sum` is within the range of finite doubles. -/
def RobustFartherExact (a1 a2 b c : point) : Prop :=
  (TwoProductExact a2.x b.y ∧ TwoProductExact (-a2.x) c.y ∧ TwoProductExact (-a1.x) b.y ∧
    TwoProductExact a1.x c.y ∧ TwoProductExact (-a2.y) b.x ∧ TwoProductExact a2.y c.x ∧
    TwoProductExact a1.y b.x ∧ TwoProductExact (-a1.y) c.x) ∧
  |a2.x * b.y| + |-a2.x * c.y| + |-a1.x * b.y| + |a1.x * c.y| + |-a2.y * b.x|
    + |a2.y * c.x| + |a1.y * b.x| + |-a1.y * c.x| ≤ DBL_MAX

instance (a1 a2 b c : point) : Decidable (RobustFartherExact a1 a2 b c) := by
  unfold RobustFartherExact; infer_instance

/-- The exact path `robust_compare_distance a1 a2 b1 b2` can be carried out in double
arithmetic: the four doublings `-2 * a2.x`, `-2 * a2.y`, `2 * b2.x`, `2 * b2.y` do not
overflow, each of its twelve error-free products (source lines 129-140) exists in double
arithmetic, and the magnitudes of the twelve products sum to at most `DBL_MAX`, so that
every partial sum formed by `expansion_sum` is within the range of finite doubles. -/
def RobustDistanceExact (a1 a2 b1 b2 : point) : Prop :=
  (IsDouble (fl (-2 * a2.x)) ∧ IsDouble (fl (-2 * a2.y)) ∧ IsDouble (fl (2 * b2.x)) ∧
    IsDouble (fl (2 * b2.y))) ∧
  (TwoProductExact a2.x a2.x ∧ TwoProductExact (fl (-2 * a2.x)) a1.x ∧
    TwoProductExact a1.x a1.x ∧ TwoProductExact a2.y a2.y ∧
    TwoProductExact (fl (-2 * a2.y)) a1.y ∧ TwoProductExact a1.y a1.y) ∧
  (TwoProductExact (-b2.x) b2.x ∧ TwoProductExact (fl (2 * b2.x)) b1.x ∧
    TwoProductExact (-b1.x) b1.x ∧ TwoProductExact (-b2.y) b2.y ∧
    TwoProductExact (fl (2 * b2.y)) b1.y ∧ TwoProductExact (-b1.y) b1.y) ∧
  |a2.x * a2.x| + |fl (-2 * a2.x) * a1.x| + |a1.x * a1.x| + |a2.y * a2.y|
    + |fl (-2 * a2.y) * a1.y| + |a1.y * a1.y| + |-b2.x * b2.x| + |fl (2 * b2.x) * b1.x|
    + |-b1.x * b1.x| + |-b2.y * b2.y| + |fl (2 * b2.y) * b1.y| + |-b1.y * b1.y| ≤ DBL_MAX

instance (a1 a2 b1 b2 : point) : Decidable (RobustDistanceExact a1 a2 b1 b2) := by
  unfold RobustDistanceExact; infer_instance

/-- The arithmetic of `left_turn a1 a2 b` stays in range: no operation of the fast path
overflows, neither product of the fast path underflows, and, when the fast path is
inconclusive so that the exact path runs, the exact path can be carried out in double
arithmetic. -/
def TurnInRange (a1 a2 b : point) : Prop :=
  TurnFinite a1 a2 b ∧ TurnNoUnderflow a1 a2 b ∧
    (fast_turn a1 a2 b = 0 → RobustTurnExact a1 a2 b)

instance (a1 a2 b : point) : Decidable (TurnInRange a1 a2 b) := by
  unfold TurnInRange; infer_instance

/-- The arithmetic of `farther_than a1 a2 b c` stays in range: no operation of the fast
path overflows, neither product of the fast path underflows, and, when the fast path is
inconclusive so that the exact path runs, the exact path can be carried out in double
arithmetic. -/
def FartherInRange (a1 a2 b c : point) : Prop :=
  FartherFinite a1 a2 b c ∧ FartherNoUnderflow a1 a2 b c ∧
    (fast_farther_than a1 a2 b c = -1 → RobustFartherExact a1 a2 b c)

instance (a1 a2 b c : point) : Decidable (FartherInRange a1 a2 b c) := by
  unfold FartherInRange; infer_instance

/-- The arithmetic of `compare_distance a1 a2 b1 b2` stays in range: no operation of the
fast path overflows, none of the four squares of the fast path underflows, and, when the
fast path is inconclusive so that the exact path runs, the exact path can be carried out
in double arithmetic. -/
def DistanceInRange (a1 a2 b1 b2 : point) : Prop :=
  DistanceFinite a1 a2 b1 b2 ∧ DistanceNoUnderflow a1 a2 b1 b2 ∧
    (fast_compare_distance a1 a2 b1 b2 = 0 → RobustDistanceExact a1 a2 b1 b2)

instance (a1 a2 b1 b2 : point) : Decidable (DistanceInRange a1 a2 b1 b2) := by
  unfold DistanceInRange; infer_instance

/-- The four points lie on one line: all four orientation determinants used by
`intersect` vanish. -/
def Collinear4 (a1 a2 b1 b2 : point) : Prop :=
  det a1 a2 b1 = 0 ∧ det a1 a2 b2 = 0 ∧ det b1 b2 a1 = 0 ∧ det b1 b2 a2 = 0

instance (a1 a2 b1 b2 : point) : Decidable (Collinear4 a1 a2 b1 b2) := by
  unfold Collinear4; infer_instance

/-- The subnormal grid: integer multiples of `2^-1074`.  Every double lies on it. -/
def OnGrid (x : ℚ) : Prop := ∃ k : ℤ, x = (k : ℚ) * (2 : ℚ) ^ (-1074 : ℤ)

/-- The unit roundoff of binary64: `2^-53`. -/
def u : ℚ := 1 / 2 ^ 53

/-! ## The statements of the exact paths on the scratch array -/

/-- One statement of an exact path acting on the scratch array: a call
`two_product(x, y, result[i], result[j])` or a call
`expansion_sum<m, n>(result + e, result + f)`. -/
inductive Step where
  | two_product (x y : ℚ) (i j : Nat)
  | expansion_sum (m n e f : Nat)

/-- Effect of one statement on the scratch array. -/
def Step.run (A : ExactArith) (r : Buf) : Step → Buf
  | .two_product x y i j => r.set2 i j (A.two_product x y)
  | .expansion_sum m n e f => A.expansion_sum m n r e f

/-- The scratch array after running the statements in order on a fresh array. -/
def runSteps (A : ExactArith) (steps : List Step) : Buf := steps.foldl (Step.run A) Buf.empty

/-- The statements of `robust_turn` (source lines 20-32), in order. -/
def robust_turn_steps (a1 a2 b : point) : List Step :=
  [.two_product a2.x b.y 0 1,
   .two_product (-a2.x) a1.y 2 3,
   .two_product (-a1.x) b.y 4 5,
   .two_product (-a2.y) b.x 6 7,
   .two_product a2.y a1.x 8 9,
   .two_product a1.y b.x 10 11,
   .expansion_sum 2 2 0 2,
   .expansion_sum 2 2 4 6,
   .expansion_sum 2 2 8 10,
   .expansion_sum 4 4 0 4,
   .expansion_sum 8 4 0 8]

/-- The statements of `robust_farther_than` (source lines 75-91), in order. -/
def robust_farther_than_steps (a1 a2 b c : point) : List Step :=
  [.two_product a2.x b.y 0 1,
   .two_product (-a2.x) c.y 2 3,
   .two_product (-a1.x) b.y 4 5,
   .two_product a1.x c.y 6 7,
   .two_product (-a2.y) b.x 8 9,
   .two_product a2.y c.x 10 11,
   .two_product a1.y b.x 12 13,
   .two_product (-a1.y) c.x 14 15,
   .expansion_sum 2 2 0 2,
   .expansion_sum 2 2 4 6,
   .expansion_sum 2 2 8 10,
   .expansion_sum 2 2 12 14,
   .expansion_sum 4 4 0 4,
   .expansion_sum 4 4 8 12,
   .expansion_sum 8 8 0 8]

/-- The statements of `robust_compare_distance` (source lines 129-154), in order. -/
def robust_compare_distance_steps (a1 a2 b1 b2 : point) : List Step :=
  [.two_product a2.x a2.x 0 1,
   .two_product (fl (-2 * a2.x)) a1.x 2 3,
   .two_product a1.x a1.x 4 5,
   .two_product a2.y a2.y 6 7,
   .two_product (fl (-2 * a2.y)) a1.y 8 9,
   .two_product a1.y a1.y 10 11,
   .two_product (-b2.x) b2.x 12 13,
   .two_product (fl (2 * b2.x)) b1.x 14 15,
   .two_product (-b1.x) b1.x 16 17,
   .two_product (-b2.y) b2.y 18 19,
   .two_product (fl (2 * b2.y)) b1.y 20 21,
   .two_product (-b1.y) b1.y 22 23,
   .expansion_sum 2 2 0 2,
   .expansion_sum 2 2 4 6,
   .expansion_sum 2 2 8 10,
   .expansion_sum 2 2 12 14,
   .expansion_sum 2 2 16 18,
   .expansion_sum 2 2 20 22,
   .expansion_sum 4 4 0 4,
   .expansion_sum 4 4 8 12,
   .expansion_sum 4 4 16 20,
   .expansion_sum 8 8 0 8,
   .expansion_sum 16 8 0 16]

/-- Bookkeeping of the scratch array: the indices written so far by `two_product`, and
the expansions currently stored, each as `(start, length)`. -/
structure Scratch where
  written : List Nat
  blocks : List (Nat × Nat)

/-- The statements respect the scratch array of `N` doubles, starting from the
bookkeeping state `st`:
* `two_product` writes two adjacent indices below `N` that were never written before,
  producing a 2-component expansion;
* `expansion_sum<m, n>(e, f)` has `f = e + m` and `e + m + n ≤ N`, and its two operands
  (adjacent, hence disjoint) are expansions produced by earlier statements; it replaces
  them by one expansion of `m + n` components at `e`;
* at the end exactly one expansion is left and it occupies `[0, N)`. -/
def ScratchSafe (N : Nat) : Scratch → List Step → Prop
  | st, [] => st.blocks = [(0, N)]
  | st, .two_product _ _ i j :: rest =>
      i < N ∧ j < N ∧ j = i + 1 ∧ i ∉ st.written ∧ j ∉ st.written ∧
        ScratchSafe N ⟨j :: i :: st.written, (i, 2) :: st.blocks⟩ rest
  | st, .expansion_sum m n e f :: rest =>
      f = e + m ∧ e + m + n ≤ N ∧ (e, m) ∈ st.blocks ∧ (f, n) ∈ st.blocks ∧
        ScratchSafe N ⟨st.written, (e, m + n) :: (st.blocks.erase (e, m)).erase (f, n)⟩ rest

instance instDecidableScratchSafe (N : Nat) : (st : Scratch) → (steps : List Step) →
    Decidable (ScratchSafe N st steps)
  | st, [] => inferInstanceAs (Decidable (st.blocks = [(0, N)]))
  | st, .two_product _ _ i j :: rest =>
      have := instDecidableScratchSafe N ⟨j :: i :: st.written, (i, 2) :: st.blocks⟩ rest
      inferInstanceAs (Decidable (i < N ∧ j < N ∧ j = i + 1 ∧ i ∉ st.written ∧
        j ∉ st.written ∧ ScratchSafe N ⟨j :: i :: st.written, (i, 2) :: st.blocks⟩ rest))
  | st, .expansion_sum m n e f :: rest =>
      have := instDecidableScratchSafe N
        ⟨st.written, (e, m + n) :: (st.blocks.erase (e, m)).erase (f, n)⟩ rest
      inferInstanceAs (Decidable (f = e + m ∧ e + m + n ≤ N ∧ (e, m) ∈ st.blocks ∧
        (f, n) ∈ st.blocks ∧
        ScratchSafe N ⟨st.written, (e, m + n) :: (st.blocks.erase (e, m)).erase (f, n)⟩ rest))

/-! ## Rounding: basic facts -/

theorem pow2_eq (e : Int) : pow2 e = (2 : ℚ) ^ e := by
  unfold pow2
  split_ifs with h
  · obtain ⟨n, rfl⟩ := Int.eq_ofNat_of_zero_le h
    simp
  · obtain ⟨n, hn⟩ := Int.eq_ofNat_of_zero_le (show 0 ≤ -e by omega)
    have he : e = -(n : Int) := by omega
    subst he
    simp

theorem pow2_pos (e : Int) : 0 < pow2 e := by
  rw [pow2_eq]; positivity

theorem log2F_spec : ∀ fuel n : Nat, 1 ≤ n → n ≤ fuel →
    2 ^ log2F fuel n ≤ n ∧ n < 2 ^ (log2F fuel n + 1) := by
  intro fuel
  induction fuel with
  | zero => intro n h1 h2; omega
  | succ k ih =>
    intro n h1 h2
    unfold log2F
    split_ifs with hn
    · constructor
      · simpa using h1
      · simpa using hn
    · have h := ih (n / 2) (by omega) (by omega)
      constructor
      · have := h.1
        rw [pow_succ]
        omega
      · have := h.2
        rw [pow_succ]
        omega

theorem ilog2_spec (q : ℚ) (hq : q ≠ 0) :
    (2 : ℚ) ^ ilog2 q ≤ |q| ∧ |q| < (2 : ℚ) ^ (ilog2 q + 1) := by
  have hnum : 1 ≤ q.num.natAbs := by
    have : q.num ≠ 0 := Rat.num_ne_zero.mpr hq
    omega
  have hden : 1 ≤ q.den := q.den_pos
  obtain ⟨hn1, hn2⟩ := log2F_spec _ _ hnum le_rfl
  obtain ⟨hd1, hd2⟩ := log2F_spec _ _ hden le_rfl
  have habs : |q| = (q.num.natAbs : ℚ) / (q.den : ℚ) := by
    rw [Rat.abs_def, Rat.divInt_eq_div]
    simp only [Int.cast_natCast]
  have hD : (0 : ℚ) < (q.den : ℚ) := by exact_mod_cast hden
  have hn1' : (2 : ℚ) ^ log2F q.num.natAbs q.num.natAbs ≤ (q.num.natAbs : ℚ) := by
    exact_mod_cast hn1
  have hn2' : (q.num.natAbs : ℚ) < (2 : ℚ) ^ (log2F q.num.natAbs q.num.natAbs + 1) := by
    exact_mod_cast hn2
  have hd1' : (2 : ℚ) ^ log2F q.den q.den ≤ (q.den : ℚ) := by exact_mod_cast hd1
  have hd2' : (q.den : ℚ) < (2 : ℚ) ^ (log2F q.den q.den + 1) := by exact_mod_cast hd2
  unfold ilog2
  simp only [pow2_eq]
  generalize log2F q.num.natAbs q.num.natAbs = ln at *
  generalize log2F q.den q.den = ld at *
  have e1 : (2 : ℚ) ^ ((ln : ℤ) - ld + 1) = (2 : ℚ) ^ (ln + 1) / (2 : ℚ) ^ ld := by
    rw [show ((ln : ℤ) - ld + 1) = ((ln + 1 : ℕ) : ℤ) - ((ld : ℕ) : ℤ) by push_cast; ring,
      zpow_sub₀ two_ne_zero, zpow_natCast, zpow_natCast]
  have e2 : (2 : ℚ) ^ ((ln : ℤ) - ld - 1) = (2 : ℚ) ^ ln / (2 : ℚ) ^ (ld + 1) := by
    rw [show ((ln : ℤ) - ld - 1) = ((ln : ℕ) : ℤ) - ((ld + 1 : ℕ) : ℤ) by push_cast; ring,
      zpow_sub₀ two_ne_zero, zpow_natCast, zpow_natCast]
  have p1 : (0 : ℚ) < (2 : ℚ) ^ ld := by positivity
  have p2 : (0 : ℚ) < (2 : ℚ) ^ (ld + 1) := by positivity
  split_ifs with h
  · refine ⟨h, ?_⟩
    rw [habs, e1, div_lt_div_iff₀ hD p1]
    calc (q.num.natAbs : ℚ) * 2 ^ ld ≤ (q.num.natAbs : ℚ) * q.den :=
          mul_le_mul_of_nonneg_left hd1' (by positivity)
      _ < 2 ^ (ln + 1) * q.den := mul_lt_mul_of_pos_right hn2' hD
  · refine ⟨?_, ?_⟩
    · rw [habs, e2, div_le_div_iff₀ p2 hD]
      calc (2 : ℚ) ^ ln * q.den ≤ (q.num.natAbs : ℚ) * q.den :=
            mul_le_mul_of_nonneg_right hn1' hD.le
        _ ≤ (q.num.natAbs : ℚ) * 2 ^ (ld + 1) :=
            mul_le_mul_of_nonneg_left hd2'.le (by positivity)
    · rw [sub_add_cancel]
      exact not_le.mp h


theorem roundEven_err (y : ℚ) : |(roundEven y : ℚ) - y| ≤ 1 / 2 := by
  have h1 := Int.floor_le y
  have h2 := Int.lt_floor_add_one y
  unfold roundEven
  simp only
  split_ifs with ha hb hc
  · rw [abs_le]; constructor <;> linarith
  · rw [abs_le]; push_cast; constructor <;> linarith
  · rw [abs_le]; constructor <;> linarith
  · rw [abs_le]; push_cast; constructor <;> linarith

theorem roundEven_intCast (n : ℤ) : roundEven (n : ℚ) = n := by
  unfold roundEven
  simp

theorem roundEven_neg (y : ℚ) : roundEven (-y) = -roundEven y := by
  by_cases hint : (⌊y⌋ : ℚ) = y
  · rw [← hint, ← Int.cast_neg, roundEven_intCast, roundEven_intCast]
  · have h1 := Int.floor_le y
    have h2 := Int.lt_floor_add_one y
    have h3 : (⌊y⌋ : ℚ) < y := lt_of_le_of_ne h1 hint
    have hf : ⌊-y⌋ = -⌊y⌋ - 1 := by
      rw [Int.floor_eq_iff]
      push_cast
      constructor <;> linarith
    unfold roundEven
    simp only [hf]
    push_cast
    split_ifs <;> first | omega | (exfalso; linarith)


theorem ilog2_neg (q : ℚ) : ilog2 (-q) = ilog2 q := by
  unfold ilog2
  simp only [Rat.neg_num, Rat.neg_den, Int.natAbs_neg, abs_neg]

theorem ulpExp_neg (x : ℚ) : ulpExp (-x) = ulpExp x := by
  unfold ulpExp
  rw [ilog2_neg]

theorem fl_zero : fl 0 = 0 := by
  unfold fl
  simp

theorem fl_neg (x : ℚ) : fl (-x) = -fl x := by
  unfold fl
  by_cases hx : x = 0
  · simp [hx]
  · have hx' : -x ≠ 0 := neg_ne_zero.mpr hx
    rw [if_neg hx, if_neg hx', ulpExp_neg, neg_div, roundEven_neg]
    push_cast
    ring

theorem ulpExp_ge (x : ℚ) : -1074 ≤ ulpExp x := le_max_right _ _

theorem fl_err_abs (x : ℚ) : |fl x - x| ≤ (2 : ℚ) ^ ulpExp x / 2 := by
  by_cases hx : x = 0
  · subst hx
    rw [fl_zero]
    simp only [sub_self, abs_zero]
    positivity
  · unfold fl
    rw [if_neg hx, pow2_eq]
    have hp : (0 : ℚ) < (2 : ℚ) ^ ulpExp x := by positivity
    have h := roundEven_err (x / (2 : ℚ) ^ ulpExp x)
    have e : (roundEven (x / (2 : ℚ) ^ ulpExp x) : ℚ) * (2 : ℚ) ^ ulpExp x - x
        = ((roundEven (x / (2 : ℚ) ^ ulpExp x) : ℚ) - x / (2 : ℚ) ^ ulpExp x)
          * (2 : ℚ) ^ ulpExp x := by
      field_simp
    rw [e, abs_mul, abs_of_pos hp]
    calc _ ≤ 1 / 2 * (2 : ℚ) ^ ulpExp x := mul_le_mul_of_nonneg_right h hp.le
      _ = _ := by ring

theorem fl_onGrid (x : ℚ) : OnGrid (fl x) := by
  by_cases hx : x = 0
  · exact ⟨0, by rw [hx, fl_zero]; simp⟩
  · unfold fl
    rw [if_neg hx, pow2_eq]
    have hge := ulpExp_ge x
    obtain ⟨n, hn⟩ := Int.eq_ofNat_of_zero_le (show 0 ≤ ulpExp x + 1074 by omega)
    refine ⟨roundEven (x / (2 : ℚ) ^ ulpExp x) * 2 ^ n, ?_⟩
    have he : ulpExp x = (n : ℤ) + (-1074) := by omega
    rw [he, zpow_add₀ two_ne_zero, zpow_natCast]
    push_cast
    ring


theorem ilog2_ge_of_le (x : ℚ) (hx : x ≠ 0) (e : ℤ) (h : (2 : ℚ) ^ e ≤ |x|) : e ≤ ilog2 x := by
  have h2 := (ilog2_spec x hx).2
  have h3 : (2 : ℚ) ^ e < (2 : ℚ) ^ (ilog2 x + 1) := lt_of_le_of_lt h h2
  have h4 := (zpow_lt_zpow_iff_right₀ (by norm_num : (1 : ℚ) < 2)).mp h3
  omega

theorem ilog2_lt_of_lt (x : ℚ) (hx : x ≠ 0) (e : ℤ) (h : |x| < (2 : ℚ) ^ e) : ilog2 x < e := by
  have h1 := (ilog2_spec x hx).1
  have h3 : (2 : ℚ) ^ ilog2 x < (2 : ℚ) ^ e := lt_of_le_of_lt h1 h
  exact (zpow_lt_zpow_iff_right₀ (by norm_num : (1 : ℚ) < 2)).mp h3

theorem fl_rel (x : ℚ) (h : NoUnderflow x) : |fl x - x| ≤ u * |x| := by
  rcases h with h | h
  · subst h
    simp [fl_zero]
  · rw [DBL_MIN, pow2_eq] at h
    have hx : x ≠ 0 := by
      intro h0
      rw [h0, abs_zero] at h
      have : (0 : ℚ) < (2 : ℚ) ^ (-1022 : ℤ) := by positivity
      linarith
    have hl := ilog2_ge_of_le x hx _ h
    have hu : ulpExp x = ilog2 x - 52 := by
      unfold ulpExp
      exact max_eq_left (by omega)
    have h1 := fl_err_abs x
    have h2 := (ilog2_spec x hx).1
    rw [hu, zpow_sub₀ two_ne_zero] at h1
    calc |fl x - x| ≤ (2 : ℚ) ^ ilog2 x / 2 ^ (52 : ℤ) / 2 := h1
      _ = u * (2 : ℚ) ^ ilog2 x := by
          unfold u
          norm_num
          ring
      _ ≤ u * |x| := mul_le_mul_of_nonneg_left h2 (by unfold u; positivity)

theorem fl_exact_grid (z : ℚ) (hg : OnGrid z) (h : |z| < (2 : ℚ) ^ (-1022 : ℤ)) : fl z = z := by
  by_cases hz : z = 0
  · rw [hz, fl_zero]
  · have hl := ilog2_lt_of_lt z hz _ h
    have hu : ulpExp z = -1074 := by
      unfold ulpExp
      exact max_eq_right (by omega)
    obtain ⟨k, hk⟩ := hg
    unfold fl
    rw [if_neg hz, hu, pow2_eq]
    have hp : (2 : ℚ) ^ (-1074 : ℤ) ≠ 0 := by positivity
    have e : z / (2 : ℚ) ^ (-1074 : ℤ) = (k : ℚ) := by
      rw [hk]
      field_simp
    rw [e, roundEven_intCast, ← hk]

theorem fl_rel_grid (z : ℚ) (hg : OnGrid z) : |fl z - z| ≤ u * |z| := by
  by_cases h : |z| < (2 : ℚ) ^ (-1022 : ℤ)
  · rw [fl_exact_grid z hg h]
    simp only [sub_self, abs_zero]
    unfold u
    positivity
  · exact fl_rel z (Or.inr (by rw [DBL_MIN, pow2_eq]; exact not_lt.mp h))

theorem OnGrid.sub {x y : ℚ} (hx : OnGrid x) (hy : OnGrid y) : OnGrid (x - y) := by
  obtain ⟨a, rfl⟩ := hx
  obtain ⟨b, rfl⟩ := hy
  exact ⟨a - b, by push_cast; ring⟩

theorem OnGrid.add {x y : ℚ} (hx : OnGrid x) (hy : OnGrid y) : OnGrid (x + y) := by
  obtain ⟨a, rfl⟩ := hx
  obtain ⟨b, rfl⟩ := hy
  exact ⟨a + b, by push_cast; ring⟩

theorem OnGrid.abs {x : ℚ} (hx : OnGrid x) : OnGrid |x| := by
  obtain ⟨a, rfl⟩ := hx
  refine ⟨|a|, ?_⟩
  rw [abs_mul, abs_of_pos (show (0 : ℚ) < (2 : ℚ) ^ (-1074 : ℤ) by positivity)]
  push_cast
  rfl

theorem IsDouble.onGrid {x : ℚ} (h : IsDouble x) : OnGrid x := by
  have := fl_onGrid x
  rwa [h.1] at this

/-! ## Certified threshold: error analysis of the fast paths -/

theorem u_pos : 0 < u := by unfold u; positivity

theorem c4_eq : fl (4 * DBL_EPSILON) = 8 * u := by decide!

theorem DBL_MIN_pos : 0 < DBL_MIN := pow2_pos _

theorem half_ulp_min : (2 : ℚ) ^ (-1074 : ℤ) / 2 = u * DBL_MIN := by
  rw [DBL_MIN, pow2_eq, show (-1074 : ℤ) = -1022 + -52 by norm_num, zpow_add₀ two_ne_zero]
  unfold u
  norm_num

theorem fl_err_sub (z : ℚ) (h : |z| < DBL_MIN) : |fl z - z| ≤ u * DBL_MIN := by
  by_cases hz : z = 0
  · rw [hz, fl_zero]
    simp only [sub_self, abs_zero]
    exact (mul_pos u_pos DBL_MIN_pos).le
  · rw [DBL_MIN, pow2_eq] at h
    have hl := ilog2_lt_of_lt z hz _ h
    have hu : ulpExp z = -1074 := by
      unfold ulpExp
      exact max_eq_right (by omega)
    have := fl_err_abs z
    rwa [hu, half_ulp_min] at this

theorem fl_lower (z : ℚ) (hz : z = 0 ∨ 4 * u * DBL_MIN ≤ z) : 3 / 4 * z ≤ fl z := by
  have hu := u_pos
  have hm := DBL_MIN_pos
  have hu4 : u ≤ 1 / 4 := by unfold u; norm_num
  rcases hz with hz | hz
  · rw [hz, fl_zero]; norm_num
  · have hz0 : 0 < z := lt_of_lt_of_le (mul_pos (mul_pos (by norm_num) hu) hm) hz
    by_cases h : |z| < DBL_MIN
    · have h1 := fl_err_sub z h
      have h2 := (abs_le.mp h1).1
      linarith
    · have h1 := fl_rel z (Or.inr (not_lt.mp h))
      rw [abs_of_pos hz0] at h1
      have h2 := (abs_le.mp h1).1
      nlinarith


theorem sgn_of_pos {x : ℚ} (h : 0 < x) : sgn x = 1 := by
  unfold sgn; rw [if_pos h]

theorem sgn_of_neg {x : ℚ} (h : x < 0) : sgn x = -1 := by
  unfold sgn; rw [if_neg (not_lt.mpr h.le), if_pos h]

theorem sgn_zero : sgn 0 = 0 := by
  unfold sgn; simp

theorem certify_core (t1 t2 T1 T2 : ℚ) (g1 : OnGrid t1) (g2 : OnGrid t2)
    (e1 : |t1 - T1| ≤ 5 * u * |t1|) (e2 : |t2 - T2| ≤ 5 * u * |t2|)
    (m1 : t1 = 0 ∨ 3 / 4 * DBL_MIN ≤ |t1|) (m2 : t2 = 0 ∨ 3 / 4 * DBL_MIN ≤ |t2|)
    (hc : |fl (t1 - t2)| > fl (fl (4 * DBL_EPSILON) * fl (|t1| + |t2|))) :
    sgn (T1 - T2) = if t1 > t2 then 1 else -1 := by
  have hu := u_pos
  have hm := DBL_MIN_pos
  have hu' : u ≤ 1 / 2 ^ 53 := by unfold u; exact le_rfl
  have hu11 : 11 * u ≤ 1 := by unfold u; norm_num
  have n1 := abs_nonneg t1
  have n2 := abs_nonneg t2
  have hS := abs_le.mp (fl_rel_grid (|t1| + |t2|) (g1.abs.add g2.abs))
  rw [abs_of_nonneg (add_nonneg n1 n2)] at hS
  have hd := fl_rel_grid (t1 - t2) (g1.sub g2)
  have hd' : |fl (t1 - t2)| ≤ (1 + u) * |t1 - t2| := by
    have := abs_sub_abs_le_abs_sub (fl (t1 - t2)) (t1 - t2)
    linarith
  have hz : 8 * u * fl (|t1| + |t2|) = 0 ∨ 4 * u * DBL_MIN ≤ 8 * u * fl (|t1| + |t2|) := by
    by_cases h0 : |t1| + |t2| = 0
    · left
      rw [h0, fl_zero, mul_zero]
    · right
      have hSum : 3 / 4 * DBL_MIN ≤ |t1| + |t2| := by
        rcases m1 with m1 | m1
        · rcases m2 with m2 | m2
          · exfalso; apply h0; rw [m1, m2]; simp
          · linarith
        · linarith
      have h1 : DBL_MIN / 2 ≤ fl (|t1| + |t2|) := by nlinarith [hS.1]
      nlinarith
  have hthr := fl_lower _ hz
  rw [c4_eq] at hc
  have hE : |(t1 - T1) - (t2 - T2)| ≤ 5 * u * (|t1| + |t2|) := by
    have := abs_sub (t1 - T1) (t2 - T2)
    linarith
  have key : 5 * u * (|t1| + |t2|) < |t1 - t2| := by
    have h1 : 6 * u * ((1 - u) * (|t1| + |t2|)) < (1 + u) * |t1 - t2| := by nlinarith [hS.1]
    have h2 : (1 + u) * (5 * u * (|t1| + |t2|)) ≤ 6 * u * ((1 - u) * (|t1| + |t2|)) := by
      have : 0 ≤ u * (|t1| + |t2|) * (1 - 11 * u) :=
        mul_nonneg (mul_nonneg hu.le (add_nonneg n1 n2)) (by linarith)
      nlinarith
    have h3 : (1 + u) * (5 * u * (|t1| + |t2|)) < (1 + u) * |t1 - t2| := lt_of_le_of_lt h2 h1
    exact lt_of_mul_lt_mul_left h3 (by linarith)
  have hE' := abs_le.mp (le_trans hE key.le)
  have hElt := abs_lt.mp (lt_of_le_of_lt hE key)
  split_ifs with h
  · apply sgn_of_pos
    rw [abs_of_pos (by linarith : 0 < t1 - t2)] at hElt
    linarith [hElt.2]
  · apply sgn_of_neg
    have hne : t1 - t2 ≠ 0 := by
      intro h0
      rw [h0, abs_zero] at key
      have : 0 ≤ 5 * u * (|t1| + |t2|) := by positivity
      linarith
    have hlt : t1 - t2 < 0 := lt_of_le_of_ne (by linarith [not_lt.mp h]) hne
    rw [abs_of_neg hlt] at hElt
    linarith [hElt.1]

theorem rel_mul (x X y Y a b : ℚ) (hx : |x - X| ≤ a * |X|) (hy : |y - Y| ≤ b * |Y|)
    (ha : 0 ≤ a) : |x * y - X * Y| ≤ (a + b + a * b) * |X * Y| := by
  have e : x * y - X * Y = (x - X) * Y + X * (y - Y) + (x - X) * (y - Y) := by ring
  rw [e, abs_mul X Y]
  have nX := abs_nonneg X
  have nY := abs_nonneg Y
  have t1 : |(x - X) * Y| ≤ a * |X| * |Y| := by
    rw [abs_mul]; exact mul_le_mul_of_nonneg_right hx nY
  have t2 : |X * (y - Y)| ≤ |X| * (b * |Y|) := by
    rw [abs_mul]; exact mul_le_mul_of_nonneg_left hy nX
  have t3 : |(x - X) * (y - Y)| ≤ (a * |X|) * (b * |Y|) := by
    rw [abs_mul]; exact mul_le_mul hx hy (abs_nonneg _) (mul_nonneg ha nX)
  have := abs_add_three ((x - X) * Y) (X * (y - Y)) ((x - X) * (y - Y))
  nlinarith

theorem prod_err (X Y : ℚ) (gX : OnGrid X) (gY : OnGrid Y) (h : NoUnderflow (fl X * fl Y)) :
    |fl (fl X * fl Y) - X * Y| ≤ 7 / 2 * u * |fl (fl X * fl Y)| ∧
      (fl (fl X * fl Y) = 0 ∨ (1 - u) * DBL_MIN ≤ |fl (fl X * fl Y)|) := by
  have hu := u_pos
  have hm := DBL_MIN_pos
  have hp := rel_mul _ _ _ _ u u (fl_rel_grid X gX) (fl_rel_grid Y gY) hu.le
  have ht := fl_rel _ h
  have a1 := abs_sub_abs_le_abs_sub (X * Y) (fl X * fl Y)
  rw [abs_sub_comm] at a1
  have a2 := abs_sub_abs_le_abs_sub (fl X * fl Y) (fl (fl X * fl Y))
  rw [abs_sub_comm] at a2
  have a3 := abs_sub_le (fl (fl X * fl Y)) (fl X * fl Y) (X * Y)
  have a4 := abs_sub_abs_le_abs_sub (fl X * fl Y) (fl (fl X * fl Y))
  rw [abs_sub_comm] at a4
  have n1 := abs_nonneg (X * Y)
  have n2 := abs_nonneg (fl X * fl Y)
  have n3 := abs_nonneg (fl (fl X * fl Y))
  constructor
  · unfold u at *
    norm_num at hp ht ⊢
    linarith
  · rcases h with h | h
    · left; rw [h, fl_zero]
    · right
      have h1 : (1 - u) * DBL_MIN ≤ (1 - u) * |fl X * fl Y| :=
        mul_le_mul_of_nonneg_left h (by unfold u; norm_num)
      linarith

theorem cross_core (X1 Y1 X2 Y2 : ℚ) (gX1 : OnGrid X1) (gY1 : OnGrid Y1) (gX2 : OnGrid X2)
    (gY2 : OnGrid Y2) (n1 : NoUnderflow (fl X1 * fl Y1)) (n2 : NoUnderflow (fl X2 * fl Y2))
    (hc : |fl (fl (fl X1 * fl Y1) - fl (fl X2 * fl Y2))| >
      fl (fl (4 * DBL_EPSILON) * fl (|fl (fl X1 * fl Y1)| + |fl (fl X2 * fl Y2)|))) :
    sgn (X1 * Y1 - X2 * Y2) = if fl (fl X1 * fl Y1) > fl (fl X2 * fl Y2) then 1 else -1 := by
  obtain ⟨e1, m1⟩ := prod_err X1 Y1 gX1 gY1 n1
  obtain ⟨e2, m2⟩ := prod_err X2 Y2 gX2 gY2 n2
  have hu := u_pos
  have hm := DBL_MIN_pos
  have hq : 3 / 4 * DBL_MIN ≤ (1 - u) * DBL_MIN :=
    mul_le_mul_of_nonneg_right (by unfold u; norm_num) hm.le
  refine certify_core _ _ _ _ (fl_onGrid _) (fl_onGrid _) (le_trans e1 ?_) (le_trans e2 ?_)
    (m1.imp_right (le_trans hq)) (m2.imp_right (le_trans hq)) hc
  · exact mul_le_mul_of_nonneg_right (by linarith) (abs_nonneg _)
  · exact mul_le_mul_of_nonneg_right (by linarith) (abs_nonneg _)

/-! ## The exact paths -/

theorem Buf.sum_congr (r r' : Buf) (off : Nat) : ∀ len : Nat,
    (∀ i, i < len → r (off + i) = r' (off + i)) → Buf.sum r off len = Buf.sum r' off len := by
  intro len
  induction len with
  | zero => intro _; rfl
  | succ k ih =>
    intro h
    rw [Buf.sum, Buf.sum, ih (fun i hi => h i (by omega)), h k (by omega)]

theorem Buf.sum_split (r : Buf) (off m : Nat) : ∀ n : Nat,
    Buf.sum r off (m + n) = Buf.sum r off m + Buf.sum r (off + m) n := by
  intro n
  induction n with
  | zero => simp [Buf.sum]
  | succ k ih =>
    rw [← Nat.add_assoc, Buf.sum, ih, Buf.sum, Nat.add_assoc off m k]
    ring

theorem Buf.sum_window (r : Buf) (e len k : Nat) :
    Buf.sum r 0 (e + len + k) = Buf.sum r 0 e + Buf.sum r e len + Buf.sum r (e + len) k := by
  rw [Buf.sum_split, Buf.sum_split r 0 e]
  simp only [Nat.zero_add]

theorem es_total (A : ExactArith) (m n : Nat) (r : Buf) (e f N : Nat) (hf : f = e + m)
    (h : e + (m + n) ≤ N) :
    Buf.sum (A.expansion_sum m n r e f) 0 N = Buf.sum r 0 N := by
  subst hf
  obtain ⟨k, rfl⟩ := Nat.exists_eq_add_of_le h
  rw [Buf.sum_window, Buf.sum_window, A.expansion_sum_exact,
    Buf.sum_congr _ r 0 e (fun i hi => A.expansion_sum_frame m n r e _ (Or.inl (by omega))),
    Buf.sum_congr _ r (e + (m + n)) k
      (fun i _ => A.expansion_sum_frame m n r e _ (Or.inr (by omega)))]

theorem robust_turn_eq (A : ExactArith) (a1 a2 b : point) :
    robust_turn A a1 a2 b =
      sgn (a2.x * b.y - a2.x * a1.y - a1.x * b.y - a2.y * b.x + a2.y * a1.x + a1.y * b.x) := by
  unfold robust_turn
  simp only []
  rw [A.sign_exact, es_total A _ _ _ _ _ _ rfl (by norm_num), es_total A _ _ _ _ _ _ rfl (by norm_num),
    es_total A _ _ _ _ _ _ rfl (by norm_num), es_total A _ _ _ _ _ _ rfl (by norm_num),
    es_total A _ _ _ _ _ _ rfl (by norm_num)]
  congr 1
  simp only [Buf.sum, Buf.set2, Buf.set, Buf.empty]
  norm_num
  linear_combination A.two_product_exact a2.x b.y + A.two_product_exact (-a2.x) a1.y
    + A.two_product_exact (-a1.x) b.y + A.two_product_exact (-a2.y) b.x
    + A.two_product_exact a2.y a1.x + A.two_product_exact a1.y b.x

theorem robust_turn_det (A : ExactArith) (a1 a2 b : point) :
    robust_turn A a1 a2 b = sgn (det a1 a2 b) := by
  rw [robust_turn_eq]
  congr 1
  unfold det
  ring

theorem ilog2_unique (x : ℚ) (hx : x ≠ 0) (k : ℤ) (h1 : (2 : ℚ) ^ k ≤ |x|)
    (h2 : |x| < (2 : ℚ) ^ (k + 1)) : ilog2 x = k := by
  have a := ilog2_ge_of_le x hx k h1
  have b := ilog2_lt_of_lt x hx (k + 1) h2
  omega

theorem fl_two_mul (x : ℚ) (h : fl x = x) : fl (2 * x) = 2 * x := by
  by_cases hx : x = 0
  · rw [hx, mul_zero, fl_zero]
  · have hx2 : 2 * x ≠ 0 := mul_ne_zero two_ne_zero hx
    obtain ⟨s1, s2⟩ := ilog2_spec x hx
    have hl : ilog2 (2 * x) = ilog2 x + 1 := by
      apply ilog2_unique _ hx2
      · rw [abs_mul, abs_two, zpow_add₀ two_ne_zero, zpow_one]
        linarith
      · rw [abs_mul, abs_two, zpow_add₀ two_ne_zero (ilog2 x + 1), zpow_one]
        linarith
    have hge := ulpExp_ge x
    obtain ⟨j, hj⟩ : ∃ j : ℕ, ulpExp x + 1 = ulpExp (2 * x) + j := by
      refine ⟨(ulpExp x + 1 - ulpExp (2 * x)).toNat, ?_⟩
      have : ulpExp (2 * x) ≤ ulpExp x + 1 := by
        unfold ulpExp
        rw [hl]
        rcases max_cases (ilog2 x - 52) (-1074) with ⟨e1, _⟩ | ⟨e1, _⟩ <;>
          rcases max_cases (ilog2 x + 1 - 52) (-1074) with ⟨e2, _⟩ | ⟨e2, _⟩ <;>
          rw [e1, e2] <;> omega
      omega
    have hxe : x = (roundEven (x / pow2 (ulpExp x)) : ℚ) * pow2 (ulpExp x) := by
      have := h
      unfold fl at this
      rw [if_neg hx] at this
      exact this.symm
    have hp : pow2 (ulpExp (2 * x)) ≠ 0 := (pow2_pos _).ne'
    have key : 2 * x / pow2 (ulpExp (2 * x))
        = ((roundEven (x / pow2 (ulpExp x)) * 2 ^ j : ℤ) : ℚ) := by
      rw [div_eq_iff hp]
      have e2 : (2 : ℚ) * pow2 (ulpExp x) = 2 ^ j * pow2 (ulpExp (2 * x)) := by
        rw [pow2_eq, pow2_eq, ← zpow_natCast, ← zpow_add₀ two_ne_zero,
          ← zpow_one_add₀ two_ne_zero]
        congr 1
        omega
      push_cast
      calc 2 * x = (roundEven (x / pow2 (ulpExp x)) : ℚ) * (2 * pow2 (ulpExp x)) := by
            nth_rewrite 1 [hxe]; ring
        _ = _ := by rw [e2]; ring
    unfold fl
    rw [if_neg hx2, key, roundEven_intCast, ← key, div_mul_cancel₀ _ hp]

theorem fl_neg_two_mul (x : ℚ) (h : fl x = x) : fl (-2 * x) = -2 * x := by
  rw [show -2 * x = -(2 * x) by ring, fl_neg, fl_two_mul x h]

theorem robust_farther_than_eq (A : ExactArith) (a1 a2 b c : point) :
    robust_farther_than A a1 a2 b c = decide (0 < cross a1 a2 b c) := by
  unfold robust_farther_than
  simp only []
  rw [A.sign_exact, es_total A _ _ _ _ _ _ rfl (by norm_num), es_total A _ _ _ _ _ _ rfl (by norm_num),
    es_total A _ _ _ _ _ _ rfl (by norm_num), es_total A _ _ _ _ _ _ rfl (by norm_num),
    es_total A _ _ _ _ _ _ rfl (by norm_num), es_total A _ _ _ _ _ _ rfl (by norm_num),
    es_total A _ _ _ _ _ _ rfl (by norm_num)]
  have e : Buf.sum ((((((((Buf.empty.set2 0 1 (A.two_product a2.x b.y)).set2 2 3
      (A.two_product (-a2.x) c.y)).set2 4 5 (A.two_product (-a1.x) b.y)).set2 6 7
      (A.two_product a1.x c.y)).set2 8 9 (A.two_product (-a2.y) b.x)).set2 10 11
      (A.two_product a2.y c.x)).set2 12 13 (A.two_product a1.y b.x)).set2 14 15
      (A.two_product (-a1.y) c.x)) 0 16 = cross a1 a2 b c := by
    simp only [Buf.sum, Buf.set2, Buf.set, Buf.empty]
    norm_num
    unfold cross
    linear_combination A.two_product_exact a2.x b.y + A.two_product_exact (-a2.x) c.y
      + A.two_product_exact (-a1.x) b.y + A.two_product_exact a1.x c.y
      + A.two_product_exact (-a2.y) b.x + A.two_product_exact a2.y c.x
      + A.two_product_exact a1.y b.x + A.two_product_exact (-a1.y) c.x
  rw [e]
  unfold sgn
  by_cases h : 0 < cross a1 a2 b c
  · simp [h]
  · by_cases h2 : cross a1 a2 b c < 0 <;> simp [h, h2]

theorem robust_compare_distance_eq (A : ExactArith) (a1 a2 b1 b2 : point) :
    robust_compare_distance A a1 a2 b1 b2 =
      sgn (a2.x * a2.x + fl (-2 * a2.x) * a1.x + a1.x * a1.x + a2.y * a2.y
        + fl (-2 * a2.y) * a1.y + a1.y * a1.y + -b2.x * b2.x + fl (2 * b2.x) * b1.x
        + -b1.x * b1.x + -b2.y * b2.y + fl (2 * b2.y) * b1.y + -b1.y * b1.y) := by
  unfold robust_compare_distance
  simp only []
  rw [A.sign_exact, es_total A _ _ _ _ _ _ rfl (by norm_num), es_total A _ _ _ _ _ _ rfl (by norm_num),
    es_total A _ _ _ _ _ _ rfl (by norm_num), es_total A _ _ _ _ _ _ rfl (by norm_num),
    es_total A _ _ _ _ _ _ rfl (by norm_num), es_total A _ _ _ _ _ _ rfl (by norm_num),
    es_total A _ _ _ _ _ _ rfl (by norm_num), es_total A _ _ _ _ _ _ rfl (by norm_num),
    es_total A _ _ _ _ _ _ rfl (by norm_num), es_total A _ _ _ _ _ _ rfl (by norm_num),
    es_total A _ _ _ _ _ _ rfl (by norm_num)]
  congr 1
  simp only [Buf.sum, Buf.set2, Buf.set, Buf.empty, Nat.zero_add, Nat.reduceEqDiff, ↓reduceIte,
    OfNat.ofNat_ne_zero, OfNat.zero_ne_ofNat, OfNat.ofNat_ne_one, OfNat.one_ne_ofNat,
    zero_ne_one, one_ne_zero, zero_add]
  linear_combination A.two_product_exact a2.x a2.x + A.two_product_exact (fl (-2 * a2.x)) a1.x
    + A.two_product_exact a1.x a1.x + A.two_product_exact a2.y a2.y
    + A.two_product_exact (fl (-2 * a2.y)) a1.y + A.two_product_exact a1.y a1.y
    + A.two_product_exact (-b2.x) b2.x + A.two_product_exact (fl (2 * b2.x)) b1.x
    + A.two_product_exact (-b1.x) b1.x + A.two_product_exact (-b2.y) b2.y
    + A.two_product_exact (fl (2 * b2.y)) b1.y + A.two_product_exact (-b1.y) b1.y

theorem robust_compare_distance_dist (A : ExactArith) (a1 a2 b1 b2 : point)
    (hax : fl a2.x = a2.x) (hay : fl a2.y = a2.y) (hbx : fl b2.x = b2.x)
    (hby : fl b2.y = b2.y) :
    robust_compare_distance A a1 a2 b1 b2 = sgn (dist2 a1 a2 - dist2 b1 b2) := by
  rw [robust_compare_distance_eq, fl_neg_two_mul _ hax, fl_neg_two_mul _ hay,
    fl_two_mul _ hbx, fl_two_mul _ hby]
  congr 1
  unfold dist2
  ring

theorem sq_sum_err (X Y : ℚ) (gX : OnGrid X) (gY : OnGrid Y)
    (nX : NoUnderflow (fl X * fl X)) (nY : NoUnderflow (fl Y * fl Y)) :
    |fl (fl (fl X * fl X) + fl (fl Y * fl Y)) - (X * X + Y * Y)|
        ≤ 5 * u * |fl (fl (fl X * fl X) + fl (fl Y * fl Y))| ∧
      (fl (fl (fl X * fl X) + fl (fl Y * fl Y)) = 0 ∨
        3 / 4 * DBL_MIN ≤ |fl (fl (fl X * fl X) + fl (fl Y * fl Y))|) ∧
      0 ≤ fl (fl (fl X * fl X) + fl (fl Y * fl Y)) := by
  have hu := u_pos
  have hm := DBL_MIN_pos
  obtain ⟨e1, m1⟩ := prod_err X X gX gX nX
  obtain ⟨e2, m2⟩ := prod_err Y Y gY gY nY
  have p1 : 0 ≤ fl X * fl X := mul_self_nonneg _
  have p2 : 0 ≤ fl Y * fl Y := mul_self_nonneg _
  have r1 := abs_le.mp (fl_rel _ nX)
  have r2 := abs_le.mp (fl_rel _ nY)
  rw [abs_of_nonneg p1] at r1
  rw [abs_of_nonneg p2] at r2
  have hu1 : u ≤ 1 / 2 ^ 53 := by unfold u; exact le_rfl
  have q1 : 0 ≤ fl (fl X * fl X) := by nlinarith [r1.1]
  have q2 : 0 ≤ fl (fl Y * fl Y) := by nlinarith [r2.1]
  rw [abs_of_nonneg q1] at e1 m1
  rw [abs_of_nonneg q2] at e2 m2
  have e1' := abs_le.mp e1
  have e2' := abs_le.mp e2
  have hs := abs_le.mp (fl_rel_grid _ ((fl_onGrid (fl X * fl X)).add (fl_onGrid (fl Y * fl Y))))
  rw [abs_of_nonneg (add_nonneg q1 q2)] at hs
  have qa : 0 ≤ fl (fl (fl X * fl X) + fl (fl Y * fl Y)) := by nlinarith [hs.1]
  rw [abs_of_nonneg qa]
  refine ⟨?_, ?_, qa⟩
  · rw [abs_le]
    unfold u at *
    norm_num at e1' e2' hs ⊢
    constructor <;> linarith [e1'.1, e1'.2, e2'.1, e2'.2, hs.1, hs.2]
  · by_cases h0 : fl (fl X * fl X) + fl (fl Y * fl Y) = 0
    · left; rw [h0, fl_zero]
    · right
      have hsum : (1 - u) * DBL_MIN ≤ fl (fl X * fl X) + fl (fl Y * fl Y) := by
        rcases m1 with m1 | m1
        · rcases m2 with m2 | m2
          · exfalso; apply h0; rw [m1, m2]; simp
          · linarith
        · linarith
      have hq : 3 / 4 ≤ (1 - u) * (1 - u) := by unfold u; norm_num
      have h1 : (1 - u) * ((1 - u) * DBL_MIN) ≤ fl (fl (fl X * fl X) + fl (fl Y * fl Y)) := by
        have := mul_le_mul_of_nonneg_left hsum (show (0 : ℚ) ≤ 1 - u by unfold u; norm_num)
        linarith [hs.1]
      have h2 : 3 / 4 * DBL_MIN ≤ (1 - u) * ((1 - u) * DBL_MIN) := by
        rw [← mul_assoc]
        exact mul_le_mul_of_nonneg_right hq hm.le
      linarith

/-! ## Soundness of the fast paths and exactness of the predicates -/

theorem fast_turn_sound (a1 a2 b : point) (h1 : a1.IsDouble) (h2 : a2.IsDouble)
    (hb : b.IsDouble)
    (n1 : NoUnderflow (fl (a2.x - a1.x) * fl (b.y - a1.y)))
    (n2 : NoUnderflow (fl (a2.y - a1.y) * fl (b.x - a1.x)))
    (hne : fast_turn a1 a2 b ≠ 0) : fast_turn a1 a2 b = sgn (det a1 a2 b) := by
  unfold fast_turn at hne ⊢
  simp only [] at hne ⊢
  by_cases hc : |fl (fl (fl (a2.x - a1.x) * fl (b.y - a1.y))
      - fl (fl (a2.y - a1.y) * fl (b.x - a1.x)))| >
      fl (fl (4 * DBL_EPSILON) * fl (|fl (fl (a2.x - a1.x) * fl (b.y - a1.y))|
        + |fl (fl (a2.y - a1.y) * fl (b.x - a1.x))|))
  · rw [if_pos hc]
    exact (cross_core _ _ _ _ (h2.1.onGrid.sub h1.1.onGrid) (hb.2.onGrid.sub h1.2.onGrid)
      (h2.2.onGrid.sub h1.2.onGrid) (hb.1.onGrid.sub h1.1.onGrid) n1 n2 hc).symm
  · rw [if_neg hc] at hne
    exact absurd rfl hne

theorem left_turn_exact (A : ExactArith) (a1 a2 b : point) (h1 : a1.IsDouble)
    (h2 : a2.IsDouble) (hb : b.IsDouble)
    (n1 : NoUnderflow (fl (a2.x - a1.x) * fl (b.y - a1.y)))
    (n2 : NoUnderflow (fl (a2.y - a1.y) * fl (b.x - a1.x))) :
    left_turn A a1 a2 b = sgn (det a1 a2 b) := by
  unfold left_turn
  simp only []
  split_ifs with h
  · exact robust_turn_det A a1 a2 b
  · exact fast_turn_sound a1 a2 b h1 h2 hb n1 n2 h

theorem sgn_eq_one_iff (x : ℚ) : sgn x = 1 ↔ 0 < x := by
  unfold sgn
  split_ifs with h1 h2 <;> simp [h1]

theorem fast_farther_than_sound (a1 a2 b c : point) (h1 : a1.IsDouble) (h2 : a2.IsDouble)
    (hb : b.IsDouble) (hc : c.IsDouble)
    (n1 : NoUnderflow (fl (a2.x - a1.x) * fl (b.y - c.y)))
    (n2 : NoUnderflow (fl (a2.y - a1.y) * fl (b.x - c.x)))
    (hne : fast_farther_than a1 a2 b c ≠ -1) :
    fast_farther_than a1 a2 b c = if 0 < cross a1 a2 b c then 1 else 0 := by
  unfold fast_farther_than at hne ⊢
  simp only [] at hne ⊢
  by_cases hcert : |fl (fl (fl (a2.x - a1.x) * fl (b.y - c.y))
      - fl (fl (a2.y - a1.y) * fl (b.x - c.x)))| >
      fl (fl (4 * DBL_EPSILON) * fl (|fl (fl (a2.x - a1.x) * fl (b.y - c.y))|
        + |fl (fl (a2.y - a1.y) * fl (b.x - c.x))|))
  · rw [if_pos hcert]
    have key := cross_core _ _ _ _ (h2.1.onGrid.sub h1.1.onGrid) (hb.2.onGrid.sub hc.2.onGrid)
      (h2.2.onGrid.sub h1.2.onGrid) (hb.1.onGrid.sub hc.1.onGrid) n1 n2 hcert
    change sgn (cross a1 a2 b c) = _ at key
    by_cases ht : fl (fl (a2.x - a1.x) * fl (b.y - c.y)) > fl (fl (a2.y - a1.y) * fl (b.x - c.x))
    · rw [if_pos ht] at key ⊢
      rw [if_pos ((sgn_eq_one_iff _).mp key)]
    · rw [if_neg ht] at key ⊢
      have : ¬ 0 < cross a1 a2 b c := by
        intro hp
        rw [sgn_of_pos hp] at key
        exact absurd key (by decide)
      rw [if_neg this]
  · rw [if_neg hcert] at hne
    exact absurd rfl hne

theorem farther_than_exact (A : ExactArith) (a1 a2 b c : point) (h1 : a1.IsDouble)
    (h2 : a2.IsDouble) (hb : b.IsDouble) (hc : c.IsDouble)
    (n1 : NoUnderflow (fl (a2.x - a1.x) * fl (b.y - c.y)))
    (n2 : NoUnderflow (fl (a2.y - a1.y) * fl (b.x - c.x))) :
    farther_than A a1 a2 b c = true ↔ 0 < cross a1 a2 b c := by
  unfold farther_than
  simp only []
  by_cases h : fast_farther_than a1 a2 b c = -1
  · rw [if_pos h, robust_farther_than_eq]
    by_cases hp : 0 < cross a1 a2 b c <;> simp [hp]
  · rw [if_neg h, fast_farther_than_sound a1 a2 b c h1 h2 hb hc n1 n2 h]
    by_cases hp : 0 < cross a1 a2 b c <;> simp [hp]

theorem fast_compare_distance_sound (a1 a2 b1 b2 : point) (h1 : a1.IsDouble)
    (h2 : a2.IsDouble) (h3 : b1.IsDouble) (h4 : b2.IsDouble)
    (n1 : NoUnderflow (fl (a2.x - a1.x) * fl (a2.x - a1.x)))
    (n2 : NoUnderflow (fl (a2.y - a1.y) * fl (a2.y - a1.y)))
    (n3 : NoUnderflow (fl (b2.x - b1.x) * fl (b2.x - b1.x)))
    (n4 : NoUnderflow (fl (b2.y - b1.y) * fl (b2.y - b1.y)))
    (hne : fast_compare_distance a1 a2 b1 b2 ≠ 0) :
    fast_compare_distance a1 a2 b1 b2 = sgn (dist2 a1 a2 - dist2 b1 b2) := by
  obtain ⟨ea, ma, pa⟩ := sq_sum_err _ _ (h2.1.onGrid.sub h1.1.onGrid)
    (h2.2.onGrid.sub h1.2.onGrid) n1 n2
  obtain ⟨eb, mb, pb⟩ := sq_sum_err _ _ (h4.1.onGrid.sub h3.1.onGrid)
    (h4.2.onGrid.sub h3.2.onGrid) n3 n4
  unfold fast_compare_distance at hne ⊢
  simp only [] at hne ⊢
  by_cases hc : |fl (fl (fl (fl (a2.x - a1.x) * fl (a2.x - a1.x))
        + fl (fl (a2.y - a1.y) * fl (a2.y - a1.y)))
      - fl (fl (fl (b2.x - b1.x) * fl (b2.x - b1.x))
        + fl (fl (b2.y - b1.y) * fl (b2.y - b1.y))))| >
      fl (fl (4 * DBL_EPSILON) * fl (fl (fl (fl (a2.x - a1.x) * fl (a2.x - a1.x))
        + fl (fl (a2.y - a1.y) * fl (a2.y - a1.y)))
      + fl (fl (fl (b2.x - b1.x) * fl (b2.x - b1.x))
        + fl (fl (b2.y - b1.y) * fl (b2.y - b1.y)))))
  · rw [if_pos hc]
    have hc' := hc
    nth_rewrite 2 [← abs_of_nonneg pa] at hc'
    nth_rewrite 2 [← abs_of_nonneg pb] at hc'
    have key := certify_core _ _ _ _ (fl_onGrid _) (fl_onGrid _) ea eb ma mb hc'
    rw [← key]
    congr 1
    unfold dist2
    ring
  · rw [if_neg hc] at hne
    exact absurd rfl hne

theorem compare_distance_exact (A : ExactArith) (a1 a2 b1 b2 : point) (h1 : a1.IsDouble)
    (h2 : a2.IsDouble) (h3 : b1.IsDouble) (h4 : b2.IsDouble)
    (n1 : NoUnderflow (fl (a2.x - a1.x) * fl (a2.x - a1.x)))
    (n2 : NoUnderflow (fl (a2.y - a1.y) * fl (a2.y - a1.y)))
    (n3 : NoUnderflow (fl (b2.x - b1.x) * fl (b2.x - b1.x)))
    (n4 : NoUnderflow (fl (b2.y - b1.y) * fl (b2.y - b1.y))) :
    compare_distance A a1 a2 b1 b2 = sgn (dist2 a1 a2 - dist2 b1 b2) := by
  unfold compare_distance
  simp only []
  split_ifs with h
  · exact robust_compare_distance_dist A a1 a2 b1 b2 h2.1.1 h2.2.1 h4.1.1 h4.2.1
  · exact fast_compare_distance_sound a1 a2 b1 b2 h1 h2 h3 h4 n1 n2 n3 n4 h

/-! ## Segment geometry -/

theorem on_seg (qx qy rx ry px py : ℚ) (hne : qx ≠ rx)
    (hd : (rx - qx) * (py - qy) - (ry - qy) * (px - qx) = 0)
    (hr : (qx ≤ px ∧ px ≤ rx) ∨ (rx ≤ px ∧ px ≤ qx)) :
    ∃ t : ℚ, 0 ≤ t ∧ t ≤ 1 ∧ px = qx + t * (rx - qx) ∧ py = qy + t * (ry - qy) := by
  have hc : rx - qx ≠ 0 := sub_ne_zero.mpr (Ne.symm hne)
  have ht : (px - qx) / (rx - qx) * (rx - qx) = px - qx := div_mul_cancel₀ _ hc
  refine ⟨(px - qx) / (rx - qx), ?_, ?_, by linarith, ?_⟩
  · rcases lt_or_gt_of_ne hne with h | h
    · apply div_nonneg <;> rcases hr with hr | hr <;> linarith [hr.1, hr.2]
    · apply div_nonneg_of_nonpos <;> rcases hr with hr | hr <;> linarith [hr.1, hr.2]
  · rcases lt_or_gt_of_ne hne with h | h
    · rw [div_le_one (by linarith)]
      rcases hr with hr | hr <;> linarith [hr.1, hr.2]
    · rw [div_le_one_of_neg (by linarith)]
      rcases hr with hr | hr <;> linarith [hr.1, hr.2]
  · have : (rx - qx) * (py - qy) = (rx - qx) * ((px - qx) / (rx - qx) * (ry - qy)) := by
      rw [← mul_assoc, mul_comm (rx - qx) ((px - qx) / (rx - qx)), ht]
      linarith
    have := mul_left_cancel₀ hc this
    linarith

/-- Collinear configuration, first segment not vertical: overlapping `x`-ranges give a
common point. -/
theorem collinear_meet (a1x a1y a2x a2y b1x b1y b2x b2y : ℚ) (hne : a1x ≠ a2x)
    (d1 : (a2x - a1x) * (b1y - a1y) - (a2y - a1y) * (b1x - a1x) = 0)
    (d2 : (a2x - a1x) * (b2y - a1y) - (a2y - a1y) * (b2x - a1x) = 0)
    (d3 : (b2x - b1x) * (a1y - b1y) - (b2y - b1y) * (a1x - b1x) = 0)
    (o1 : min a1x a2x ≤ max b1x b2x) (o2 : min b1x b2x ≤ max a1x a2x) :
    ∃ s t : ℚ, 0 ≤ s ∧ s ≤ 1 ∧ 0 ≤ t ∧ t ≤ 1 ∧
      a1x + s * (a2x - a1x) = b1x + t * (b2x - b1x) ∧
      a1y + s * (a2y - a1y) = b1y + t * (b2y - b1y) := by
  by_cases hb1 : (a1x ≤ b1x ∧ b1x ≤ a2x) ∨ (a2x ≤ b1x ∧ b1x ≤ a1x)
  · obtain ⟨s, s0, s1, ex, ey⟩ := on_seg a1x a1y a2x a2y b1x b1y hne d1 hb1
    exact ⟨s, 0, s0, s1, le_rfl, zero_le_one, by linarith, by linarith⟩
  by_cases hb2 : (a1x ≤ b2x ∧ b2x ≤ a2x) ∨ (a2x ≤ b2x ∧ b2x ≤ a1x)
  · obtain ⟨s, s0, s1, ex, ey⟩ := on_seg a1x a1y a2x a2y b2x b2y hne d2 hb2
    exact ⟨s, 1, s0, s1, zero_le_one, le_rfl, by linarith, by linarith⟩
  have key : ((b1x ≤ a1x ∧ a1x ≤ b2x) ∨ (b2x ≤ a1x ∧ a1x ≤ b1x)) ∧ b1x ≠ b2x := by
    simp only [not_or, not_and_or, not_le] at hb1 hb2
    simp only [min_le_iff, le_max_iff] at o1 o2
    rcases lt_or_gt_of_ne hne with h | h
    · rcases hb1 with ⟨p1 | p1, q1 | q1⟩ <;> rcases hb2 with ⟨p2 | p2, q2 | q2⟩ <;>
        first
        | (exfalso; linarith)
        | (exfalso; rcases o1 with (o | o) | (o | o) <;> rcases o2 with (o' | o') | (o' | o') <;>
            linarith)
        | (constructor
           · first | (left; constructor <;> linarith) | (right; constructor <;> linarith)
           · intro e; linarith)
    · rcases hb1 with ⟨p1 | p1, q1 | q1⟩ <;> rcases hb2 with ⟨p2 | p2, q2 | q2⟩ <;>
        first
        | (exfalso; linarith)
        | (exfalso; rcases o1 with (o | o) | (o | o) <;> rcases o2 with (o' | o') | (o' | o') <;>
            linarith)
        | (constructor
           · first | (left; constructor <;> linarith) | (right; constructor <;> linarith)
           · intro e; linarith)
  obtain ⟨t, t0, t1, ex, ey⟩ := on_seg b1x b1y b2x b2y a1x a1y key.2 d3 key.1
  exact ⟨0, t, le_rfl, zero_le_one, t0, t1, by linarith, by linarith⟩

theorem div_mem_unit (a c : ℚ) (hc : c ≠ 0) (h0 : 0 ≤ a * c) (h1 : 0 ≤ (c - a) * c) :
    0 ≤ a / c ∧ a / c ≤ 1 := by
  have hc2 : 0 < c * c := mul_self_pos.mpr hc
  have e1 : a / c = a * c / (c * c) := by field_simp; ring
  have e2 : 1 - a / c = (c - a) * c / (c * c) := by field_simp; ring
  constructor
  · rw [e1]; exact div_nonneg h0 hc2.le
  · have : 0 ≤ 1 - a / c := by rw [e2]; exact div_nonneg h1 hc2.le
    linarith

/-- Straddling tests on non-parallel segments: the lines cross in a point of both
segments (Cramer's rule). -/
theorem cross_meet_raw (a1x a1y a2x a2y b1x b1y b2x b2y : ℚ)
    (h12 : ((a2x - a1x) * (b1y - a1y) - (a2y - a1y) * (b1x - a1x))
      * ((a2x - a1x) * (b2y - a1y) - (a2y - a1y) * (b2x - a1x)) ≤ 0)
    (h34 : ((b2x - b1x) * (a1y - b1y) - (b2y - b1y) * (a1x - b1x))
      * ((b2x - b1x) * (a2y - b1y) - (b2y - b1y) * (a2x - b1x)) ≤ 0)
    (hΔ : (a2x - a1x) * (b2y - b1y) - (a2y - a1y) * (b2x - b1x) ≠ 0) :
    ∃ s t : ℚ, 0 ≤ s ∧ s ≤ 1 ∧ 0 ≤ t ∧ t ≤ 1 ∧
      a1x + s * (a2x - a1x) = b1x + t * (b2x - b1x) ∧
      a1y + s * (a2y - a1y) = b1y + t * (b2y - b1y) := by
  generalize hD1 : (a2x - a1x) * (b1y - a1y) - (a2y - a1y) * (b1x - a1x) = D1 at h12
  generalize hD2 : (a2x - a1x) * (b2y - a1y) - (a2y - a1y) * (b2x - a1x) = D2 at h12
  generalize hD3 : (b2x - b1x) * (a1y - b1y) - (b2y - b1y) * (a1x - b1x) = D3 at h34
  generalize hD4 : (b2x - b1x) * (a2y - b1y) - (b2y - b1y) * (a2x - b1x) = D4 at h34
  have e12 : D2 - D1 = (a2x - a1x) * (b2y - b1y) - (a2y - a1y) * (b2x - b1x) := by
    rw [← hD1, ← hD2]; ring
  have e34 : D3 - D4 = (a2x - a1x) * (b2y - b1y) - (a2y - a1y) * (b2x - b1x) := by
    rw [← hD3, ← hD4]; ring
  generalize hΔ' : (a2x - a1x) * (b2y - b1y) - (a2y - a1y) * (b2x - b1x) = Δ at *
  have q1 : D3 * Δ = D3 * D3 - D3 * D4 := by rw [← e34]; ring
  have q2 : (Δ - D3) * Δ = D4 * D4 - D3 * D4 := by rw [← e34]; ring
  have q3 : -D1 * Δ = D1 * D1 - D1 * D2 := by rw [← e12]; ring
  have q4 : (Δ - -D1) * Δ = D2 * D2 - D1 * D2 := by rw [← e12]; ring
  have hs := div_mem_unit D3 Δ hΔ (by linarith [mul_self_nonneg D3])
    (by linarith [mul_self_nonneg D4])
  have ht := div_mem_unit (-D1) Δ hΔ (by linarith [mul_self_nonneg D1])
    (by linarith [mul_self_nonneg D2])
  refine ⟨D3 / Δ, -D1 / Δ, hs.1, hs.2, ht.1, ht.2, ?_, ?_⟩
  · field_simp
    rw [← hD3, ← hD1, ← hΔ']
    ring
  · field_simp
    rw [← hD3, ← hD1, ← hΔ']
    ring

/-- Straddling tests on parallel segments force all four orientation determinants to
vanish: the four points are collinear. -/
theorem parallel_all_zero (a1x a1y a2x a2y b1x b1y b2x b2y : ℚ)
    (h12 : ((a2x - a1x) * (b1y - a1y) - (a2y - a1y) * (b1x - a1x))
      * ((a2x - a1x) * (b2y - a1y) - (a2y - a1y) * (b2x - a1x)) ≤ 0)
    (h34 : ((b2x - b1x) * (a1y - b1y) - (b2y - b1y) * (a1x - b1x))
      * ((b2x - b1x) * (a2y - b1y) - (b2y - b1y) * (a2x - b1x)) ≤ 0)
    (hΔ : (a2x - a1x) * (b2y - b1y) - (a2y - a1y) * (b2x - b1x) = 0) :
    (a2x - a1x) * (b1y - a1y) - (a2y - a1y) * (b1x - a1x) = 0 ∧
    (a2x - a1x) * (b2y - a1y) - (a2y - a1y) * (b2x - a1x) = 0 ∧
    (b2x - b1x) * (a1y - b1y) - (b2y - b1y) * (a1x - b1x) = 0 ∧
    (b2x - b1x) * (a2y - b1y) - (b2y - b1y) * (a2x - b1x) = 0 := by
  generalize hD1 : (a2x - a1x) * (b1y - a1y) - (a2y - a1y) * (b1x - a1x) = D1 at h12 ⊢
  generalize hD2 : (a2x - a1x) * (b2y - a1y) - (a2y - a1y) * (b2x - a1x) = D2 at h12 ⊢
  generalize hD3 : (b2x - b1x) * (a1y - b1y) - (b2y - b1y) * (a1x - b1x) = D3 at h34 ⊢
  generalize hD4 : (b2x - b1x) * (a2y - b1y) - (b2y - b1y) * (a2x - b1x) = D4 at h34 ⊢
  have e12 : D2 - D1 = (a2x - a1x) * (b2y - b1y) - (a2y - a1y) * (b2x - b1x) := by
    rw [← hD1, ← hD2]; ring
  have e34 : D3 - D4 = (a2x - a1x) * (b2y - b1y) - (a2y - a1y) * (b2x - b1x) := by
    rw [← hD3, ← hD4]; ring
  have z1 : D1 = 0 := by
    have : D2 = D1 := by linarith
    rw [this] at h12
    exact mul_self_eq_zero.mp (le_antisymm h12 (mul_self_nonneg D1))
  have z3 : D3 = 0 := by
    have : D4 = D3 := by linarith
    rw [this] at h34
    exact mul_self_eq_zero.mp (le_antisymm h34 (mul_self_nonneg D3))
  exact ⟨z1, by linarith, z3, by linarith⟩

theorem meet_of_tests_raw (a1x a1y a2x a2y b1x b1y b2x b2y : ℚ)
    (ox1 : min a1x a2x ≤ max b1x b2x) (ox2 : min b1x b2x ≤ max a1x a2x)
    (oy1 : min a1y a2y ≤ max b1y b2y) (oy2 : min b1y b2y ≤ max a1y a2y)
    (h12 : ((a2x - a1x) * (b1y - a1y) - (a2y - a1y) * (b1x - a1x))
      * ((a2x - a1x) * (b2y - a1y) - (a2y - a1y) * (b2x - a1x)) ≤ 0)
    (h34 : ((b2x - b1x) * (a1y - b1y) - (b2y - b1y) * (a1x - b1x))
      * ((b2x - b1x) * (a2y - b1y) - (b2y - b1y) * (a2x - b1x)) ≤ 0) :
    ∃ s t : ℚ, 0 ≤ s ∧ s ≤ 1 ∧ 0 ≤ t ∧ t ≤ 1 ∧
      a1x + s * (a2x - a1x) = b1x + t * (b2x - b1x) ∧
      a1y + s * (a2y - a1y) = b1y + t * (b2y - b1y) := by
  by_cases hΔ : (a2x - a1x) * (b2y - b1y) - (a2y - a1y) * (b2x - b1x) = 0
  swap
  · exact cross_meet_raw _ _ _ _ _ _ _ _ h12 h34 hΔ
  obtain ⟨hD1, hD2, hD3, hD4⟩ := parallel_all_zero _ _ _ _ _ _ _ _ h12 h34 hΔ
  by_cases hx : a1x = a2x
  swap
  · exact collinear_meet _ _ _ _ _ _ _ _ hx hD1 hD2 hD3 ox1 ox2
  by_cases hy : a1y = a2y
  swap
  · obtain ⟨s, t, s0, s1, t0, t1, ey, ex⟩ := collinear_meet a1y a1x a2y a2x b1y b1x b2y b2x hy
      (by linarith) (by linarith) (by linarith) oy1 oy2
    exact ⟨s, t, s0, s1, t0, t1, ex, ey⟩
  subst hx hy
  simp only [min_self, max_self] at ox1 ox2 oy1 oy2
  by_cases hbx : b1x = b2x
  swap
  · have hr : (b1x ≤ a1x ∧ a1x ≤ b2x) ∨ (b2x ≤ a1x ∧ a1x ≤ b1x) := by
      rcases le_total b1x b2x with h | h
      · rw [max_eq_right h] at ox1; rw [min_eq_left h] at ox2; exact Or.inl ⟨ox2, ox1⟩
      · rw [max_eq_left h] at ox1; rw [min_eq_right h] at ox2; exact Or.inr ⟨ox2, ox1⟩
    obtain ⟨t, t0, t1, ex, ey⟩ := on_seg b1x b1y b2x b2y a1x a1y hbx hD3 hr
    exact ⟨0, t, le_rfl, zero_le_one, t0, t1, by linarith, by linarith⟩
  by_cases hby : b1y = b2y
  swap
  · have hr : (b1y ≤ a1y ∧ a1y ≤ b2y) ∨ (b2y ≤ a1y ∧ a1y ≤ b1y) := by
      rcases le_total b1y b2y with h | h
      · rw [max_eq_right h] at oy1; rw [min_eq_left h] at oy2; exact Or.inl ⟨oy2, oy1⟩
      · rw [max_eq_left h] at oy1; rw [min_eq_right h] at oy2; exact Or.inr ⟨oy2, oy1⟩
    obtain ⟨t, t0, t1, ey, ex⟩ := on_seg b1y b1x b2y b2x a1y a1x hby (by linarith) hr
    exact ⟨0, t, le_rfl, zero_le_one, t0, t1, by linarith, by linarith⟩
  subst hbx hby
  simp only [min_self, max_self] at ox1 ox2 oy1 oy2
  exact ⟨0, 0, le_rfl, zero_le_one, le_rfl, zero_le_one, by linarith, by linarith⟩

theorem min_le_convex (p q s : ℝ) (h0 : 0 ≤ s) (h1 : s ≤ 1) : min p q ≤ p + s * (q - p) := by
  rcases le_total p q with h | h
  · rw [min_eq_left h]
    have := mul_nonneg h0 (sub_nonneg.mpr h)
    linarith
  · rw [min_eq_right h]
    have := mul_nonneg (sub_nonneg.mpr h1) (sub_nonneg.mpr h)
    linarith

theorem convex_le_max (p q s : ℝ) (h0 : 0 ≤ s) (h1 : s ≤ 1) : p + s * (q - p) ≤ max p q := by
  rcases le_total p q with h | h
  · rw [max_eq_right h]
    have := mul_nonneg (sub_nonneg.mpr h1) (sub_nonneg.mpr h)
    linarith
  · rw [max_eq_left h]
    have := mul_nonneg h0 (sub_nonneg.mpr h)
    linarith

theorem range_overlap (a1 a2 b1 b2 : ℚ) (s t : ℝ) (s0 : 0 ≤ s) (s1 : s ≤ 1) (t0 : 0 ≤ t)
    (t1 : t ≤ 1) (h : (a1 : ℝ) + s * ((a2 : ℝ) - a1) = (b1 : ℝ) + t * ((b2 : ℝ) - b1)) :
    min a1 a2 ≤ max b1 b2 ∧ min b1 b2 ≤ max a1 a2 := by
  have h1 := min_le_convex a1 a2 s s0 s1
  have h2 := convex_le_max a1 a2 s s0 s1
  have h3 := min_le_convex b1 b2 t t0 t1
  have h4 := convex_le_max b1 b2 t t0 t1
  constructor
  · have : min (a1 : ℝ) a2 ≤ max (b1 : ℝ) b2 := by linarith
    exact_mod_cast this
  · have : min (b1 : ℝ) b2 ≤ max (a1 : ℝ) a2 := by linarith
    exact_mod_cast this

theorem check_bounding_box_iff (a1 a2 b1 b2 : point) :
    check_bounding_box a1 a2 b1 b2 = true ↔
      (min a1.x a2.x ≤ max b1.x b2.x ∧ min b1.x b2.x ≤ max a1.x a2.x) ∧
      (min a1.y a2.y ≤ max b1.y b2.y ∧ min b1.y b2.y ≤ max a1.y a2.y) := by
  unfold check_bounding_box
  simp only [Bool.and_eq_true, Bool.not_eq_true', Bool.or_eq_false_iff, decide_eq_false_iff_not,
    not_lt]

theorem straddle_of_meet (px py qx qy r1x r1y r2x r2y s t : ℝ) (t0 : 0 ≤ t) (t1 : t ≤ 1)
    (hx : px + s * (qx - px) = r1x + t * (r2x - r1x))
    (hy : py + s * (qy - py) = r1y + t * (r2y - r1y)) :
    ((qx - px) * (r1y - py) - (qy - py) * (r1x - px))
      * ((qx - px) * (r2y - py) - (qy - py) * (r2x - px)) ≤ 0 := by
  generalize hD1 : (qx - px) * (r1y - py) - (qy - py) * (r1x - px) = D1
  generalize hD2 : (qx - px) * (r2y - py) - (qy - py) * (r2x - px) = D2
  have key : (1 - t) * D1 + t * D2 = 0 := by
    rw [← hD1, ← hD2]
    linear_combination (qy - py) * hx - (qx - px) * hy
  have e : D1 * D2 = -(t * (D2 * D2) + (1 - t) * (D1 * D1)) := by
    linear_combination (D2 + D1) * key
  rw [e]
  have := mul_nonneg t0 (mul_self_nonneg D2)
  have := mul_nonneg (sub_nonneg.mpr t1) (mul_self_nonneg D1)
  linarith

theorem tests_of_meet (a1 a2 b1 b2 : point) (h : SegmentsMeet a1 a2 b1 b2) :
    check_bounding_box a1 a2 b1 b2 = true ∧ det a1 a2 b1 * det a1 a2 b2 ≤ 0 ∧
      det b1 b2 a1 * det b1 b2 a2 ≤ 0 := by
  obtain ⟨s, t, s0, s1, t0, t1, hx, hy⟩ := h
  refine ⟨?_, ?_, ?_⟩
  · rw [check_bounding_box_iff]
    exact ⟨range_overlap _ _ _ _ s t s0 s1 t0 t1 hx, range_overlap _ _ _ _ s t s0 s1 t0 t1 hy⟩
  · have := straddle_of_meet a1.x a1.y a2.x a2.y b1.x b1.y b2.x b2.y s t t0 t1 hx hy
    unfold det
    exact_mod_cast this
  · have := straddle_of_meet b1.x b1.y b2.x b2.y a1.x a1.y a2.x a2.y t s s0 s1 hx.symm hy.symm
    unfold det
    exact_mod_cast this

theorem meet_of_tests (a1 a2 b1 b2 : point) (hb : check_bounding_box a1 a2 b1 b2 = true)
    (h12 : det a1 a2 b1 * det a1 a2 b2 ≤ 0) (h34 : det b1 b2 a1 * det b1 b2 a2 ≤ 0) :
    SegmentsMeet a1 a2 b1 b2 := by
  rw [check_bounding_box_iff] at hb
  obtain ⟨s, t, s0, s1, t0, t1, hx, hy⟩ := meet_of_tests_raw a1.x a1.y a2.x a2.y b1.x b1.y
    b2.x b2.y hb.1.1 hb.1.2 hb.2.1 hb.2.2 h12 h34
  refine ⟨s, t, by exact_mod_cast s0, by exact_mod_cast s1, by exact_mod_cast t0,
    by exact_mod_cast t1, by exact_mod_cast hx, by exact_mod_cast hy⟩

theorem sgn_mul_nonpos_iff (x y : ℚ) : sgn x * sgn y ≤ 0 ↔ x * y ≤ 0 := by
  unfold sgn
  rcases lt_trichotomy x 0 with hx | hx | hx <;> rcases lt_trichotomy y 0 with hy | hy | hy
  · simp [hx, hy, not_lt.mpr hx.le, not_lt.mpr hy.le, mul_pos_of_neg_of_neg hx hy]
  · simp [hx, hy, not_lt.mpr hx.le]
  · simp [hx, hy, not_lt.mpr hx.le, not_lt.mpr hy.le, (mul_neg_of_neg_of_pos hx hy).le]
  · simp [hx, hy, not_lt.mpr hy.le]
  · simp [hx, hy]
  · simp [hx, hy, not_lt.mpr hy.le]
  · simp [hx, hy, not_lt.mpr hx.le, not_lt.mpr hy.le, (mul_neg_of_pos_of_neg hx hy).le]
  · simp [hx, hy, not_lt.mpr hx.le]
  · simp [hx, hy, not_lt.mpr hx.le, not_lt.mpr hy.le, mul_pos hx hy]

/-! ## The intersection test -/

theorem intersect_eq_true_iff (A : ExactArith) (a1 a2 b1 b2 : point) :
    intersect A a1 a2 b1 b2 = true ↔
      check_bounding_box a1 a2 b1 b2 = true ∧
      left_turn A a1 a2 b1 * left_turn A a1 a2 b2 ≤ 0 ∧
      left_turn A b1 b2 a1 * left_turn A b1 b2 a2 ≤ 0 := by
  unfold intersect
  simp only [Bool.and_eq_true, decide_eq_true_eq, if_true_left, Bool.if_false_right,
    Bool.and_true, and_assoc]

theorem intersect_iff_meet (A : ExactArith) (a1 a2 b1 b2 : point)
    (h1 : left_turn A a1 a2 b1 = sgn (det a1 a2 b1))
    (h2 : left_turn A a1 a2 b2 = sgn (det a1 a2 b2))
    (h3 : left_turn A b1 b2 a1 = sgn (det b1 b2 a1))
    (h4 : left_turn A b1 b2 a2 = sgn (det b1 b2 a2)) :
    intersect A a1 a2 b1 b2 = true ↔ SegmentsMeet a1 a2 b1 b2 := by
  rw [intersect_eq_true_iff, h1, h2, h3, h4, sgn_mul_nonpos_iff, sgn_mul_nonpos_iff]
  constructor
  · rintro ⟨hb, h12, h34⟩
    exact meet_of_tests a1 a2 b1 b2 hb h12 h34
  · exact tests_of_meet a1 a2 b1 b2

theorem intersect_false_of_bbox (A : ExactArith) (a1 a2 b1 b2 : point)
    (h : check_bounding_box a1 a2 b1 b2 = false) : intersect A a1 a2 b1 b2 = false := by
  unfold intersect
  rw [h]
  rfl

/-! ## Symmetries -/

theorem roundEven_nonneg (y : ℚ) (h : 0 ≤ y) : 0 ≤ roundEven y := by
  have hf : 0 ≤ ⌊y⌋ := Int.floor_nonneg.mpr h
  unfold roundEven
  simp only
  split_ifs <;> omega

theorem fl_nonneg (z : ℚ) (h : 0 ≤ z) : 0 ≤ fl z := by
  unfold fl
  split_ifs with h0
  · exact le_rfl
  · have hp := pow2_pos (ulpExp z)
    have := roundEven_nonneg (z / pow2 (ulpExp z)) (div_nonneg h hp.le)
    exact mul_nonneg (by exact_mod_cast this) hp.le

theorem sgn_neg (x : ℚ) : sgn (-x) = -sgn x := by
  unfold sgn
  rcases lt_trichotomy x 0 with h | h | h
  · simp [h, not_lt.mpr h.le]
  · simp [h]
  · simp [h, not_lt.mpr h.le]

theorem fast_compare_distance_antisymm (a1 a2 b1 b2 : point) :
    fast_compare_distance a1 a2 b1 b2 = -fast_compare_distance b1 b2 a1 a2 := by
  unfold fast_compare_distance
  simp only []
  have pa : 0 ≤ fl (fl (fl (a2.x - a1.x) * fl (a2.x - a1.x))
      + fl (fl (a2.y - a1.y) * fl (a2.y - a1.y))) :=
    fl_nonneg _ (add_nonneg (fl_nonneg _ (mul_self_nonneg _)) (fl_nonneg _ (mul_self_nonneg _)))
  have pb : 0 ≤ fl (fl (fl (b2.x - b1.x) * fl (b2.x - b1.x))
      + fl (fl (b2.y - b1.y) * fl (b2.y - b1.y))) :=
    fl_nonneg _ (add_nonneg (fl_nonneg _ (mul_self_nonneg _)) (fl_nonneg _ (mul_self_nonneg _)))
  generalize fl (fl (fl (a2.x - a1.x) * fl (a2.x - a1.x))
    + fl (fl (a2.y - a1.y) * fl (a2.y - a1.y))) = a at pa ⊢
  generalize fl (fl (fl (b2.x - b1.x) * fl (b2.x - b1.x))
    + fl (fl (b2.y - b1.y) * fl (b2.y - b1.y))) = b at pb ⊢
  have e1 : |fl (b - a)| = |fl (a - b)| := by
    rw [show b - a = -(a - b) by ring, fl_neg, abs_neg]
  rw [e1, add_comm b a]
  by_cases hc : |fl (a - b)| > fl (fl (4 * DBL_EPSILON) * fl (a + b))
  · rw [if_pos hc, if_pos hc]
    have hne : a ≠ b := by
      intro h
      rw [h, sub_self, fl_zero, abs_zero, c4_eq] at hc
      have := fl_nonneg _ (mul_nonneg (mul_nonneg (by norm_num : (0 : ℚ) ≤ 8) u_pos.le)
        (fl_nonneg _ (add_nonneg pb pb)))
      linarith
    rcases lt_or_gt_of_ne hne with h | h
    · rw [if_neg (not_lt.mpr h.le), if_pos h]
    · rw [if_pos h, if_neg (not_lt.mpr h.le)]
      rfl
  · rw [if_neg hc, if_neg hc]
    rfl

theorem robust_compare_distance_antisymm (A : ExactArith) (a1 a2 b1 b2 : point) :
    robust_compare_distance A a1 a2 b1 b2 = -robust_compare_distance A b1 b2 a1 a2 := by
  rw [robust_compare_distance_eq, robust_compare_distance_eq, ← sgn_neg]
  congr 1
  rw [show -2 * a2.x = -(2 * a2.x) by ring, show -2 * a2.y = -(2 * a2.y) by ring,
    show -2 * b2.x = -(2 * b2.x) by ring, show -2 * b2.y = -(2 * b2.y) by ring,
    fl_neg, fl_neg, fl_neg, fl_neg]
  ring

theorem compare_distance_antisymm_aux (A : ExactArith) (a1 a2 b1 b2 : point) :
    compare_distance A a1 a2 b1 b2 = -compare_distance A b1 b2 a1 a2 := by
  unfold compare_distance
  simp only []
  rw [fast_compare_distance_antisymm a1 a2 b1 b2]
  by_cases h : fast_compare_distance b1 b2 a1 a2 = 0
  · rw [if_pos h, if_pos (by rw [h]; rfl)]
    exact robust_compare_distance_antisymm A a1 a2 b1 b2
  · rw [if_neg h, if_neg (by intro h'; exact h (neg_eq_zero.mp h'))]

theorem det_swap (a1 a2 b : point) : det a2 a1 b = -det a1 a2 b := by
  unfold det; ring

theorem left_turn_antisymm_aux (A : ExactArith) (a1 a2 b : point) (h1 : a1.IsDouble)
    (h2 : a2.IsDouble) (hb : b.IsDouble) (n : TurnNoUnderflow a1 a2 b)
    (n' : TurnNoUnderflow a2 a1 b) : left_turn A a1 a2 b = -left_turn A a2 a1 b := by
  rw [left_turn_exact A a1 a2 b h1 h2 hb n.1 n.2, left_turn_exact A a2 a1 b h2 h1 hb n'.1 n'.2,
    det_swap a1 a2 b, sgn_neg, neg_neg]

theorem check_bounding_box_swap (a1 a2 b1 b2 : point) :
    check_bounding_box a1 a2 b1 b2 = check_bounding_box b1 b2 a1 a2 := by
  rw [Bool.eq_iff_iff, check_bounding_box_iff, check_bounding_box_iff]
  tauto

theorem check_bounding_box_reverse (a1 a2 b1 b2 : point) :
    check_bounding_box a1 a2 b1 b2 = check_bounding_box a2 a1 b1 b2 := by
  rw [Bool.eq_iff_iff, check_bounding_box_iff, check_bounding_box_iff, min_comm a1.x,
    max_comm a1.x, min_comm a1.y, max_comm a1.y]

theorem intersect_swap (A : ExactArith) (a1 a2 b1 b2 : point) :
    intersect A a1 a2 b1 b2 = intersect A b1 b2 a1 a2 := by
  rw [Bool.eq_iff_iff, intersect_eq_true_iff, intersect_eq_true_iff,
    check_bounding_box_swap a1 a2 b1 b2]
  tauto

theorem intersect_reverse (A : ExactArith) (a1 a2 b1 b2 : point)
    (hb1 : left_turn A a1 a2 b1 = -left_turn A a2 a1 b1)
    (hb2 : left_turn A a1 a2 b2 = -left_turn A a2 a1 b2) :
    intersect A a1 a2 b1 b2 = intersect A a2 a1 b1 b2 := by
  rw [Bool.eq_iff_iff, intersect_eq_true_iff, intersect_eq_true_iff,
    check_bounding_box_reverse a1 a2 b1 b2, hb1, hb2, neg_mul_neg,
    mul_comm (left_turn A b1 b2 a1)]

theorem meet_of_straddle (a1 a2 b1 b2 : point)
    (h12 : det a1 a2 b1 * det a1 a2 b2 ≤ 0) (h34 : det b1 b2 a1 * det b1 b2 a2 ≤ 0)
    (hnc : ¬ Collinear4 a1 a2 b1 b2) : SegmentsMeet a1 a2 b1 b2 := by
  have hΔ : (a2.x - a1.x) * (b2.y - b1.y) - (a2.y - a1.y) * (b2.x - b1.x) ≠ 0 := by
    intro h0
    exact hnc (parallel_all_zero _ _ _ _ _ _ _ _ h12 h34 h0)
  obtain ⟨s, t, s0, s1, t0, t1, hx, hy⟩ := cross_meet_raw a1.x a1.y a2.x a2.y b1.x b1.y
    b2.x b2.y h12 h34 hΔ
  exact ⟨s, t, by exact_mod_cast s0, by exact_mod_cast s1, by exact_mod_cast t0,
    by exact_mod_cast t1, by exact_mod_cast hx, by exact_mod_cast hy⟩

theorem intersect_eq_tests_of_not_collinear (A : ExactArith) (a1 a2 b1 b2 : point)
    (h1 : left_turn A a1 a2 b1 = sgn (det a1 a2 b1))
    (h2 : left_turn A a1 a2 b2 = sgn (det a1 a2 b2))
    (h3 : left_turn A b1 b2 a1 = sgn (det b1 b2 a1))
    (h4 : left_turn A b1 b2 a2 = sgn (det b1 b2 a2))
    (hnc : ¬ Collinear4 a1 a2 b1 b2) :
    intersect A a1 a2 b1 b2 =
      (decide (left_turn A a1 a2 b1 * left_turn A a1 a2 b2 ≤ 0)
        && decide (left_turn A b1 b2 a1 * left_turn A b1 b2 a2 ≤ 0)) := by
  rw [Bool.eq_iff_iff, intersect_eq_true_iff, Bool.and_eq_true, decide_eq_true_eq,
    decide_eq_true_eq]
  constructor
  · exact fun h => h.2
  · intro h
    refine ⟨?_, h⟩
    rw [h1, h2, h3, h4, sgn_mul_nonpos_iff, sgn_mul_nonpos_iff] at h
    exact (tests_of_meet a1 a2 b1 b2 (meet_of_straddle a1 a2 b1 b2 h.1 h.2 hnc)).1

theorem sgn_eq_neg_one_iff (x : ℚ) : sgn x = -1 ↔ x < 0 := by
  unfold sgn
  rcases lt_trichotomy x 0 with h | h | h
  · simp [h, not_lt.mpr h.le]
  · simp [h]
  · simp [h, not_lt.mpr h.le]

theorem sgn_eq_zero_iff (x : ℚ) : sgn x = 0 ↔ x = 0 := by
  unfold sgn
  rcases lt_trichotomy x 0 with h | h | h
  · simp [h, not_lt.mpr h.le, h.ne]
  · simp [h]
  · simp [h, h.ne']

theorem intersect_eq_bbox_of_collinear (A : ExactArith) (a1 a2 b1 b2 : point)
    (h1 : left_turn A a1 a2 b1 = sgn (det a1 a2 b1))
    (h3 : left_turn A b1 b2 a1 = sgn (det b1 b2 a1))
    (hc : Collinear4 a1 a2 b1 b2) :
    intersect A a1 a2 b1 b2 = check_bounding_box a1 a2 b1 b2 := by
  rw [Bool.eq_iff_iff, intersect_eq_true_iff, h1, h3, hc.1, hc.2.2.1, sgn_zero]
  simp

/-! ## Degenerate inputs -/

theorem c4_nonneg : 0 ≤ fl (4 * DBL_EPSILON) := by
  rw [c4_eq]
  exact mul_nonneg (by norm_num) u_pos.le

theorem threshold_nonneg (s : ℚ) (hs : 0 ≤ s) : 0 ≤ fl (fl (4 * DBL_EPSILON) * fl s) :=
  fl_nonneg _ (mul_nonneg c4_nonneg (fl_nonneg _ hs))

/-- Equal products are never certified: the computed difference is `0` and the threshold
is nonnegative. -/
theorem not_certified_of_eq (t : ℚ) :
    ¬ (|fl (t - t)| > fl (fl (4 * DBL_EPSILON) * fl (|t| + |t|))) := by
  rw [sub_self, fl_zero, abs_zero]
  exact not_lt.mpr (threshold_nonneg _ (add_nonneg (abs_nonneg t) (abs_nonneg t)))

theorem fast_turn_first_eq (p q : point) : fast_turn p p q = 0 := by
  unfold fast_turn
  simp only [sub_self, fl_zero, zero_mul]
  have h := not_certified_of_eq 0
  rw [sub_self, fl_zero] at h
  rw [if_neg h]

theorem fast_turn_third_eq_first (p q : point) : fast_turn p q p = 0 := by
  unfold fast_turn
  simp only [sub_self, fl_zero, mul_zero]
  have h := not_certified_of_eq 0
  rw [sub_self, fl_zero] at h
  rw [if_neg h]

theorem fast_turn_third_eq_second (p q : point) : fast_turn p q q = 0 := by
  unfold fast_turn
  simp only []
  rw [mul_comm (fl (q.y - p.y)) (fl (q.x - p.x)), if_neg (not_certified_of_eq _)]

theorem det_first_eq (p q : point) : det p p q = 0 := by unfold det; ring

theorem det_third_eq_first (p q : point) : det p q p = 0 := by unfold det; ring

theorem det_third_eq_second (p q : point) : det p q q = 0 := by unfold det; ring

theorem left_turn_of_fast_zero (A : ExactArith) (a1 a2 b : point) (h : fast_turn a1 a2 b = 0) :
    left_turn A a1 a2 b = robust_turn A a1 a2 b := by
  unfold left_turn
  simp only [h, if_true]

theorem left_turn_first_eq (A : ExactArith) (p q : point) : left_turn A p p q = 0 := by
  rw [left_turn_of_fast_zero A p p q (fast_turn_first_eq p q), robust_turn_det, det_first_eq,
    sgn_zero]

theorem left_turn_third_eq_first (A : ExactArith) (p q : point) : left_turn A p q p = 0 := by
  rw [left_turn_of_fast_zero A p q p (fast_turn_third_eq_first p q), robust_turn_det,
    det_third_eq_first, sgn_zero]

theorem left_turn_third_eq_second (A : ExactArith) (p q : point) : left_turn A p q q = 0 := by
  rw [left_turn_of_fast_zero A p q q (fast_turn_third_eq_second p q), robust_turn_det,
    det_third_eq_second, sgn_zero]

theorem check_bounding_box_shared (a1 a2 b2 : point) :
    check_bounding_box a1 a2 a2 b2 = true := by
  rw [check_bounding_box_iff]
  refine ⟨⟨?_, ?_⟩, ?_, ?_⟩
  · exact le_trans (min_le_right _ _) (le_max_left _ _)
  · exact le_trans (min_le_left _ _) (le_max_right _ _)
  · exact le_trans (min_le_right _ _) (le_max_left _ _)
  · exact le_trans (min_le_left _ _) (le_max_right _ _)

theorem intersect_shared_endpoint (A : ExactArith) (a1 a2 b2 : point) :
    intersect A a1 a2 a2 b2 = true := by
  rw [intersect_eq_true_iff, left_turn_third_eq_second, left_turn_third_eq_first]
  exact ⟨check_bounding_box_shared a1 a2 b2, by simp, by simp⟩

/-! ## Dispatch of `farther_than` and orientation independence -/

theorem fast_farther_than_range (a1 a2 b c : point) :
    fast_farther_than a1 a2 b c = -1 ∨ fast_farther_than a1 a2 b c = 0 ∨
      fast_farther_than a1 a2 b c = 1 := by
  unfold fast_farther_than
  simp only []
  split_ifs
  · exact Or.inr (Or.inr rfl)
  · exact Or.inr (Or.inl rfl)
  · exact Or.inl rfl

theorem farther_than_of_inconclusive (A : ExactArith) (a1 a2 b c : point)
    (h : fast_farther_than a1 a2 b c = -1) :
    farther_than A a1 a2 b c = robust_farther_than A a1 a2 b c := by
  unfold farther_than
  simp only [h, if_true]
  cases robust_farther_than A a1 a2 b c <;> rfl

theorem farther_than_of_certified (A : ExactArith) (a1 a2 b c : point)
    (h : fast_farther_than a1 a2 b c ≠ -1) :
    farther_than A a1 a2 b c = decide (fast_farther_than a1 a2 b c = 1) := by
  unfold farther_than
  simp only [if_neg h]
  rcases fast_farther_than_range a1 a2 b c with h' | h' | h'
  · exact absurd h' h
  · rw [h']; rfl
  · rw [h']; rfl

/-- With `c = a1` the fast path of `farther_than` is the fast path of `left_turn`
with `-1` (right turn) mapped to `0` and `0` (inconclusive) mapped to `-1`. -/
theorem fast_farther_than_pivot (a1 a2 b : point) :
    fast_farther_than a1 a2 b a1 =
      if fast_turn a1 a2 b = 0 then -1 else if fast_turn a1 a2 b = 1 then 1 else 0 := by
  unfold fast_farther_than fast_turn
  simp only []
  by_cases hc : |fl (fl (fl (a2.x - a1.x) * fl (b.y - a1.y))
      - fl (fl (a2.y - a1.y) * fl (b.x - a1.x)))| >
      fl (fl (4 * DBL_EPSILON) * fl (|fl (fl (a2.x - a1.x) * fl (b.y - a1.y))|
        + |fl (fl (a2.y - a1.y) * fl (b.x - a1.x))|))
  · rw [if_pos hc, if_pos hc]
    by_cases ht : fl (fl (a2.x - a1.x) * fl (b.y - a1.y))
        > fl (fl (a2.y - a1.y) * fl (b.x - a1.x))
    · simp only [if_pos ht]; rfl
    · simp only [if_neg ht]; rfl
  · rw [if_neg hc, if_neg hc]; rfl

theorem cross_pivot (a1 a2 b : point) : cross a1 a2 b a1 = det a1 a2 b := rfl

theorem farther_than_pivot (A : ExactArith) (a1 a2 b : point) :
    farther_than A a1 a2 b a1 = decide (left_turn A a1 a2 b = 1) := by
  by_cases h : fast_turn a1 a2 b = 0
  · have hf : fast_farther_than a1 a2 b a1 = -1 := by
      rw [fast_farther_than_pivot, if_pos h]
    rw [farther_than_of_inconclusive A _ _ _ _ hf, robust_farther_than_eq, cross_pivot,
      left_turn_of_fast_zero A _ _ _ h, robust_turn_det]
    by_cases hp : 0 < det a1 a2 b
    · simp [hp, sgn_of_pos hp]
    · have : sgn (det a1 a2 b) ≠ 1 := fun h1 => hp ((sgn_eq_one_iff _).mp h1)
      simp [hp, this]
  · have hf : fast_farther_than a1 a2 b a1 ≠ -1 := by
      rw [fast_farther_than_pivot, if_neg h]
      split_ifs <;> decide
    have hl : left_turn A a1 a2 b = fast_turn a1 a2 b := by
      unfold left_turn
      simp only [if_neg h]
    rw [farther_than_of_certified A _ _ _ _ hf, hl, fast_farther_than_pivot, if_neg h]
    by_cases h1 : fast_turn a1 a2 b = 1 <;> simp [h1]

theorem fl_mul_fl_sub_swap (X p q : ℚ) : fl (X * fl (q - p)) = -fl (X * fl (p - q)) := by
  rw [show q - p = -(p - q) by ring, fl_neg, mul_neg, fl_neg]

/-- Swapping `b` and `c` negates both products of the fast path, hence keeps the
certificate and reverses the comparison. -/
theorem fast_farther_than_swap (a1 a2 b c : point) :
    fast_farther_than a1 a2 c b =
      if |fl (fl (fl (a2.x - a1.x) * fl (b.y - c.y)) - fl (fl (a2.y - a1.y) * fl (b.x - c.x)))| >
          fl (fl (4 * DBL_EPSILON) * fl (|fl (fl (a2.x - a1.x) * fl (b.y - c.y))|
            + |fl (fl (a2.y - a1.y) * fl (b.x - c.x))|)) then
        (if fl (fl (a2.x - a1.x) * fl (b.y - c.y)) < fl (fl (a2.y - a1.y) * fl (b.x - c.x))
          then 1 else 0)
      else -1 := by
  unfold fast_farther_than
  simp only []
  rw [fl_mul_fl_sub_swap _ b.y c.y, fl_mul_fl_sub_swap _ b.x c.x]
  generalize fl (fl (a2.x - a1.x) * fl (b.y - c.y)) = t1
  generalize fl (fl (a2.y - a1.y) * fl (b.x - c.x)) = t2
  rw [show -t1 - -t2 = -(t1 - t2) by ring, fl_neg, abs_neg, abs_neg, abs_neg]
  simp only [gt_iff_lt, neg_lt_neg_iff]

theorem cross_swap (a1 a2 b c : point) : cross a1 a2 c b = -cross a1 a2 b c := by
  unfold cross; ring

theorem farther_than_not_both (A : ExactArith) (a1 a2 b c : point) :
    ¬ (farther_than A a1 a2 b c = true ∧ farther_than A a1 a2 c b = true) := by
  rintro ⟨h1, h2⟩
  by_cases hc : |fl (fl (fl (a2.x - a1.x) * fl (b.y - c.y))
      - fl (fl (a2.y - a1.y) * fl (b.x - c.x)))| >
      fl (fl (4 * DBL_EPSILON) * fl (|fl (fl (a2.x - a1.x) * fl (b.y - c.y))|
        + |fl (fl (a2.y - a1.y) * fl (b.x - c.x))|))
  · have e1 : fast_farther_than a1 a2 b c =
        if fl (fl (a2.x - a1.x) * fl (b.y - c.y)) > fl (fl (a2.y - a1.y) * fl (b.x - c.x))
          then 1 else 0 := by
      unfold fast_farther_than
      simp only [if_pos hc]
    have e2 := fast_farther_than_swap a1 a2 b c
    rw [if_pos hc] at e2
    have n1 : fast_farther_than a1 a2 b c ≠ -1 := by rw [e1]; split_ifs <;> decide
    have n2 : fast_farther_than a1 a2 c b ≠ -1 := by rw [e2]; split_ifs <;> decide
    rw [farther_than_of_certified A _ _ _ _ n1, decide_eq_true_eq, e1] at h1
    rw [farther_than_of_certified A _ _ _ _ n2, decide_eq_true_eq, e2] at h2
    by_cases ht : fl (fl (a2.x - a1.x) * fl (b.y - c.y))
        > fl (fl (a2.y - a1.y) * fl (b.x - c.x))
    · rw [if_neg (not_lt.mpr ht.le)] at h2
      exact absurd h2 (by decide)
    · rw [if_neg ht] at h1
      exact absurd h1 (by decide)
  · have e1 : fast_farther_than a1 a2 b c = -1 := by
      unfold fast_farther_than
      simp only [if_neg hc]
    have e2 := fast_farther_than_swap a1 a2 b c
    rw [if_neg hc] at e2
    rw [farther_than_of_inconclusive A _ _ _ _ e1, robust_farther_than_eq,
      decide_eq_true_eq] at h1
    rw [farther_than_of_inconclusive A _ _ _ _ e2, robust_farther_than_eq,
      decide_eq_true_eq, cross_swap] at h2
    linarith

theorem farther_than_same (A : ExactArith) (a1 a2 b : point) :
    farther_than A a1 a2 b b = false := by
  have e : fast_farther_than a1 a2 b b = -1 := by
    unfold fast_farther_than
    simp only [sub_self, fl_zero, mul_zero]
    have h := not_certified_of_eq 0
    rw [sub_self, fl_zero] at h
    rw [if_neg h]
  rw [farther_than_of_inconclusive A _ _ _ _ e, robust_farther_than_eq]
  have : cross a1 a2 b b = 0 := by unfold cross; ring
  rw [this]
  simp

theorem fl_sq_swap (p q : ℚ) : fl (fl (p - q) * fl (p - q)) = fl (fl (q - p) * fl (q - p)) := by
  rw [show p - q = -(q - p) by ring, fl_neg, neg_mul_neg]

theorem fast_compare_distance_reverse_left (a1 a2 b1 b2 : point) :
    fast_compare_distance a2 a1 b1 b2 = fast_compare_distance a1 a2 b1 b2 := by
  unfold fast_compare_distance
  simp only []
  rw [fl_sq_swap a1.x a2.x, fl_sq_swap a1.y a2.y]

theorem fast_compare_distance_reverse_right (a1 a2 b1 b2 : point) :
    fast_compare_distance a1 a2 b2 b1 = fast_compare_distance a1 a2 b1 b2 := by
  unfold fast_compare_distance
  simp only []
  rw [fl_sq_swap b1.x b2.x, fl_sq_swap b1.y b2.y]

theorem dist2_comm (p q : point) : dist2 q p = dist2 p q := by
  unfold dist2; ring

theorem compare_distance_reverse_left (A : ExactArith) (a1 a2 b1 b2 : point)
    (h1 : a1.IsDouble) (h2 : a2.IsDouble) (h4 : b2.IsDouble) :
    compare_distance A a2 a1 b1 b2 = compare_distance A a1 a2 b1 b2 := by
  unfold compare_distance
  simp only []
  rw [fast_compare_distance_reverse_left,
    robust_compare_distance_dist A a2 a1 b1 b2 h1.1.1 h1.2.1 h4.1.1 h4.2.1,
    robust_compare_distance_dist A a1 a2 b1 b2 h2.1.1 h2.2.1 h4.1.1 h4.2.1, dist2_comm a1 a2]

theorem compare_distance_reverse_right (A : ExactArith) (a1 a2 b1 b2 : point)
    (h2 : a2.IsDouble) (h3 : b1.IsDouble) (h4 : b2.IsDouble) :
    compare_distance A a1 a2 b2 b1 = compare_distance A a1 a2 b1 b2 := by
  unfold compare_distance
  simp only []
  rw [fast_compare_distance_reverse_right,
    robust_compare_distance_dist A a1 a2 b2 b1 h2.1.1 h2.2.1 h3.1.1 h3.2.1,
    robust_compare_distance_dist A a1 a2 b1 b2 h2.1.1 h2.2.1 h4.1.1 h4.2.1, dist2_comm b1 b2]

theorem compare_distance_reversed_self (A : ExactArith) (a1 a2 : point)
    (h1 : a1.IsDouble) (h2 : a2.IsDouble) : compare_distance A a1 a2 a2 a1 = 0 := by
  have hf : fast_compare_distance a1 a2 a2 a1 = 0 := by
    unfold fast_compare_distance
    simp only []
    rw [fl_sq_swap a1.x a2.x, fl_sq_swap a1.y a2.y]
    have pa : 0 ≤ fl (fl (fl (a2.x - a1.x) * fl (a2.x - a1.x))
        + fl (fl (a2.y - a1.y) * fl (a2.y - a1.y))) :=
      fl_nonneg _ (add_nonneg (fl_nonneg _ (mul_self_nonneg _))
        (fl_nonneg _ (mul_self_nonneg _)))
    generalize fl (fl (fl (a2.x - a1.x) * fl (a2.x - a1.x))
        + fl (fl (a2.y - a1.y) * fl (a2.y - a1.y))) = a at pa ⊢
    have h := not_certified_of_eq a
    rw [abs_of_nonneg pa] at h
    rw [if_neg h]
  unfold compare_distance
  simp only [hf, if_true]
  rw [robust_compare_distance_dist A a1 a2 a2 a1 h2.1.1 h2.2.1 h1.1.1 h1.2.1, dist2_comm a1 a2,
    sub_self, sgn_zero]

/-! ## Scratch-array discipline of the exact paths -/

theorem robust_turn_eq_run (A : ExactArith) (a1 a2 b : point) :
    robust_turn A a1 a2 b = A.sign 12 (runSteps A (robust_turn_steps a1 a2 b)) := rfl

theorem robust_farther_than_eq_run (A : ExactArith) (a1 a2 b c : point) :
    robust_farther_than A a1 a2 b c =
      (A.sign 16 (runSteps A (robust_farther_than_steps a1 a2 b c)) == 1) := rfl

theorem robust_compare_distance_eq_run (A : ExactArith) (a1 a2 b1 b2 : point) :
    robust_compare_distance A a1 a2 b1 b2 =
      A.sign 24 (runSteps A (robust_compare_distance_steps a1 a2 b1 b2)) := rfl

theorem robust_turn_safe (a1 a2 b : point) :
    ScratchSafe 12 ⟨[], []⟩ (robust_turn_steps a1 a2 b) := by
  exact of_decide_eq_true rfl

theorem robust_farther_than_safe (a1 a2 b c : point) :
    ScratchSafe 16 ⟨[], []⟩ (robust_farther_than_steps a1 a2 b c) := by
  exact of_decide_eq_true rfl

theorem robust_compare_distance_safe (a1 a2 b1 b2 : point) :
    ScratchSafe 24 ⟨[], []⟩ (robust_compare_distance_steps a1 a2 b1 b2) := by
  exact of_decide_eq_true rfl

/-- The bookkeeping is not vacuous: the statements of `robust_turn` do not fit a scratch
array of 11 doubles. -/
theorem robust_turn_unsafe_on_short_buffer (a1 a2 b : point) :
    ¬ ScratchSafe 11 ⟨[], []⟩ (robust_turn_steps a1 a2 b) := by
  exact of_decide_eq_false rfl

theorem robust_turn_sum (A : ExactArith) (a1 a2 b : point) :
    Buf.sum (runSteps A (robust_turn_steps a1 a2 b)) 0 12 =
      a2.x * b.y + -a2.x * a1.y + -a1.x * b.y + -a2.y * b.x + a2.y * a1.x + a1.y * b.x := by
  simp only [runSteps, robust_turn_steps, List.foldl, Step.run]
  rw [es_total A _ _ _ _ _ _ rfl (by norm_num), es_total A _ _ _ _ _ _ rfl (by norm_num),
    es_total A _ _ _ _ _ _ rfl (by norm_num), es_total A _ _ _ _ _ _ rfl (by norm_num),
    es_total A _ _ _ _ _ _ rfl (by norm_num)]
  simp only [Buf.sum, Buf.set2, Buf.set, Buf.empty, Nat.zero_add, Nat.reduceEqDiff, ↓reduceIte,
    OfNat.ofNat_ne_zero, OfNat.zero_ne_ofNat, OfNat.ofNat_ne_one, OfNat.one_ne_ofNat,
    zero_ne_one, one_ne_zero, zero_add]
  linear_combination A.two_product_exact a2.x b.y + A.two_product_exact (-a2.x) a1.y
    + A.two_product_exact (-a1.x) b.y + A.two_product_exact (-a2.y) b.x
    + A.two_product_exact a2.y a1.x + A.two_product_exact a1.y b.x

theorem robust_compare_distance_sum (A : ExactArith) (a1 a2 b1 b2 : point) :
    Buf.sum (runSteps A (robust_compare_distance_steps a1 a2 b1 b2)) 0 24 =
      a2.x * a2.x + fl (-2 * a2.x) * a1.x + a1.x * a1.x + a2.y * a2.y
        + fl (-2 * a2.y) * a1.y + a1.y * a1.y + -b2.x * b2.x + fl (2 * b2.x) * b1.x
        + -b1.x * b1.x + -b2.y * b2.y + fl (2 * b2.y) * b1.y + -b1.y * b1.y := by
  simp only [runSteps, robust_compare_distance_steps, List.foldl, Step.run]
  rw [es_total A _ _ _ _ _ _ rfl (by norm_num), es_total A _ _ _ _ _ _ rfl (by norm_num),
    es_total A _ _ _ _ _ _ rfl (by norm_num), es_total A _ _ _ _ _ _ rfl (by norm_num),
    es_total A _ _ _ _ _ _ rfl (by norm_num), es_total A _ _ _ _ _ _ rfl (by norm_num),
    es_total A _ _ _ _ _ _ rfl (by norm_num), es_total A _ _ _ _ _ _ rfl (by norm_num),
    es_total A _ _ _ _ _ _ rfl (by norm_num), es_total A _ _ _ _ _ _ rfl (by norm_num),
    es_total A _ _ _ _ _ _ rfl (by norm_num)]
  simp only [Buf.sum, Buf.set2, Buf.set, Buf.empty, Nat.zero_add, Nat.reduceEqDiff, ↓reduceIte,
    OfNat.ofNat_ne_zero, OfNat.zero_ne_ofNat, OfNat.ofNat_ne_one, OfNat.one_ne_ofNat,
    zero_ne_one, one_ne_zero, zero_add]
  linear_combination A.two_product_exact a2.x a2.x + A.two_product_exact (fl (-2 * a2.x)) a1.x
    + A.two_product_exact a1.x a1.x + A.two_product_exact a2.y a2.y
    + A.two_product_exact (fl (-2 * a2.y)) a1.y + A.two_product_exact a1.y a1.y
    + A.two_product_exact (-b2.x) b2.x + A.two_product_exact (fl (2 * b2.x)) b1.x
    + A.two_product_exact (-b1.x) b1.x + A.two_product_exact (-b2.y) b2.y
    + A.two_product_exact (fl (2 * b2.y)) b1.y + A.two_product_exact (-b1.y) b1.y

/-! ## Error-free products in double arithmetic -/

/-- `TwoProductExact x y` holds exactly when two finite doubles `p`, `e` meet the
contract of `two_product` for `x * y`: `p` is the correctly rounded product and
`p + e = x * y`. -/
theorem twoProductExact_iff (x y : ℚ) :
    TwoProductExact x y ↔
      ∃ p e : ℚ, IsDouble p ∧ IsDouble e ∧ p = fl (x * y) ∧ p + e = x * y := by
  constructor
  · intro h
    exact ⟨fl (x * y), x * y - fl (x * y), h.1, h.2, rfl, by ring⟩
  · rintro ⟨p, e, hp, he, hpf, hsum⟩
    have hE : e = x * y - fl (x * y) := by rw [← hpf]; linarith
    exact ⟨hpf ▸ hp, hE ▸ he⟩

/-- The components returned by `refArith.two_product` are finite doubles exactly when
`TwoProductExact` holds. -/
theorem refArith_two_product_isDouble (x y : ℚ) :
    TwoProductExact x y ↔
      IsDouble (refArith.two_product x y).1 ∧ IsDouble (refArith.two_product x y).2 :=
  Iff.rfl

/-! ## The claims -/

/-- C1, counterexample.  On the finite doubles `a1 = (0, 7 * 2^-594)`,
`a2 = (2^-538, 7505999378950827 * 2^-590)`, `b = (3 * 2^-537, 5 * 2^-537)` no operation of
the fast path overflows, the two products round to the subnormals `2 * 2^-1074` and
`3 * 2^-1074`, the threshold underflows to zero, and `left_turn` returns `-1` although the
exact determinant is positive. -/
theorem left_turn_wrong_sign_on_underflow :
    (⟨0, 7 * pow2 (-594)⟩ : point).IsDouble ∧
    (⟨pow2 (-538), 7505999378950827 * pow2 (-590)⟩ : point).IsDouble ∧
    (⟨3 * pow2 (-537), 5 * pow2 (-537)⟩ : point).IsDouble ∧
    TurnFinite ⟨0, 7 * pow2 (-594)⟩ ⟨pow2 (-538), 7505999378950827 * pow2 (-590)⟩
      ⟨3 * pow2 (-537), 5 * pow2 (-537)⟩ ∧
    left_turn refArith ⟨0, 7 * pow2 (-594)⟩ ⟨pow2 (-538), 7505999378950827 * pow2 (-590)⟩
      ⟨3 * pow2 (-537), 5 * pow2 (-537)⟩ = -1 ∧
    sgn (det ⟨0, 7 * pow2 (-594)⟩ ⟨pow2 (-538), 7505999378950827 * pow2 (-590)⟩
      ⟨3 * pow2 (-537), 5 * pow2 (-537)⟩) = 1 := by
  decide!

/-- C1, amended.  For points with finite double coordinates whose arithmetic stays in
range (no operation of the fast path overflows, neither product of the fast path
underflows, and, whenever the exact path runs, its six error-free products exist in
double arithmetic and their magnitudes sum to at most `DBL_MAX`), `left_turn a1 a2 b` is
the sign of the exact determinant
`(a2.x - a1.x) * (b.y - a1.y) - (a2.y - a1.y) * (b.x - a1.x)`: `1` exactly when it is
positive, `-1` exactly when it is negative, `0` exactly when the points are collinear. -/
theorem left_turn_exact_sign (A : ExactArith) (a1 a2 b : point) (h1 : a1.IsDouble)
    (h2 : a2.IsDouble) (hb : b.IsDouble) (hr : TurnInRange a1 a2 b) :
    left_turn A a1 a2 b = sgn (det a1 a2 b) ∧
      (left_turn A a1 a2 b = 1 ↔ 0 < det a1 a2 b) ∧
      (left_turn A a1 a2 b = -1 ↔ det a1 a2 b < 0) ∧
      (left_turn A a1 a2 b = 0 ↔ det a1 a2 b = 0) := by
  rw [left_turn_exact A a1 a2 b h1 h2 hb hr.2.1.1 hr.2.1.2]
  exact ⟨rfl, sgn_eq_one_iff _, sgn_eq_neg_one_iff _, sgn_eq_zero_iff _⟩

/-- C1, witness: the three scenarios of the specification; the third one is decided by
the exact path. -/
theorem left_turn_exact_sign_witness :
    ((⟨0, 0⟩ : point).IsDouble ∧ (⟨1, 0⟩ : point).IsDouble ∧ (⟨0, 1⟩ : point).IsDouble ∧
      TurnInRange ⟨0, 0⟩ ⟨1, 0⟩ ⟨0, 1⟩ ∧ TurnInRange ⟨0, 0⟩ ⟨1, 0⟩ ⟨2, 0⟩ ∧
      fast_turn ⟨0, 0⟩ ⟨1, 0⟩ ⟨2, 0⟩ = 0) ∧
    left_turn refArith ⟨0, 0⟩ ⟨1, 0⟩ ⟨0, 1⟩ = sgn (det ⟨0, 0⟩ ⟨1, 0⟩ ⟨0, 1⟩) ∧
    left_turn refArith ⟨0, 0⟩ ⟨1, 0⟩ ⟨0, 1⟩ = 1 ∧
    left_turn refArith ⟨0, 0⟩ ⟨1, 0⟩ ⟨0, -1⟩ = -1 ∧
    left_turn refArith ⟨0, 0⟩ ⟨1, 0⟩ ⟨2, 0⟩ = 0 :=
  ⟨by decide!,
    (left_turn_exact_sign refArith ⟨0, 0⟩ ⟨1, 0⟩ ⟨0, 1⟩ (by decide!) (by decide!) (by decide!)
      (by decide!)).1,
    (left_turn_exact_sign refArith ⟨0, 0⟩ ⟨1, 0⟩ ⟨0, 1⟩ (by decide!) (by decide!) (by decide!)
      (by decide!)).2.1.mpr (by norm_num [det]),
    (left_turn_exact_sign refArith ⟨0, 0⟩ ⟨1, 0⟩ ⟨0, -1⟩ (by decide!) (by decide!) (by decide!)
      (by decide!)).2.2.1.mpr (by norm_num [det]),
    (left_turn_exact_sign refArith ⟨0, 0⟩ ⟨1, 0⟩ ⟨2, 0⟩ (by decide!) (by decide!) (by decide!)
      (by decide!)).2.2.2.mpr (by norm_num [det])⟩

/-- C2.  With `left_turn` returning the exact orientation sign on the four triples it is
called on, `intersect a1 a2 b1 b2` is true exactly when the closed segments `[a1, a2]` and
`[b1, b2]` have a common point (proper crossing, touching, collinear overlap and
zero-length segments included). -/
theorem intersect_iff_segments_meet (A : ExactArith) (a1 a2 b1 b2 : point)
    (h1 : left_turn A a1 a2 b1 = sgn (det a1 a2 b1))
    (h2 : left_turn A a1 a2 b2 = sgn (det a1 a2 b2))
    (h3 : left_turn A b1 b2 a1 = sgn (det b1 b2 a1))
    (h4 : left_turn A b1 b2 a2 = sgn (det b1 b2 a2)) :
    intersect A a1 a2 b1 b2 = true ↔ SegmentsMeet a1 a2 b1 b2 :=
  intersect_iff_meet A a1 a2 b1 b2 h1 h2 h3 h4

/-- C2, witness: the crossing diagonals of the unit square intersect, the disjoint
collinear segments `[(0,0),(1,0)]` and `[(2,0),(3,0)]` do not. -/
theorem intersect_iff_segments_meet_witness :
    (left_turn refArith ⟨0, 0⟩ ⟨1, 1⟩ ⟨0, 1⟩ = sgn (det ⟨0, 0⟩ ⟨1, 1⟩ ⟨0, 1⟩) ∧
      left_turn refArith ⟨0, 0⟩ ⟨1, 1⟩ ⟨1, 0⟩ = sgn (det ⟨0, 0⟩ ⟨1, 1⟩ ⟨1, 0⟩) ∧
      left_turn refArith ⟨0, 1⟩ ⟨1, 0⟩ ⟨0, 0⟩ = sgn (det ⟨0, 1⟩ ⟨1, 0⟩ ⟨0, 0⟩) ∧
      left_turn refArith ⟨0, 1⟩ ⟨1, 0⟩ ⟨1, 1⟩ = sgn (det ⟨0, 1⟩ ⟨1, 0⟩ ⟨1, 1⟩)) ∧
    (intersect refArith ⟨0, 0⟩ ⟨1, 1⟩ ⟨0, 1⟩ ⟨1, 0⟩ = true ↔
      SegmentsMeet ⟨0, 0⟩ ⟨1, 1⟩ ⟨0, 1⟩ ⟨1, 0⟩) ∧
    intersect refArith ⟨0, 0⟩ ⟨1, 1⟩ ⟨0, 1⟩ ⟨1, 0⟩ = true ∧
    (intersect refArith ⟨0, 0⟩ ⟨1, 0⟩ ⟨2, 0⟩ ⟨3, 0⟩ = true ↔
      SegmentsMeet ⟨0, 0⟩ ⟨1, 0⟩ ⟨2, 0⟩ ⟨3, 0⟩) ∧
    intersect refArith ⟨0, 0⟩ ⟨1, 0⟩ ⟨2, 0⟩ ⟨3, 0⟩ = false :=
  ⟨by decide!,
    intersect_iff_segments_meet refArith ⟨0, 0⟩ ⟨1, 1⟩ ⟨0, 1⟩ ⟨1, 0⟩ (by decide!) (by decide!)
      (by decide!) (by decide!),
    by decide!,
    intersect_iff_segments_meet refArith ⟨0, 0⟩ ⟨1, 0⟩ ⟨2, 0⟩ ⟨3, 0⟩ (by decide!) (by decide!)
      (by decide!) (by decide!),
    by decide!⟩

/-- C3, counterexample.  With `s = 2^-537`, on `a1 = (0, 0)`, `a2 = (13/8 * s, 0)`,
`b1 = (0, 0)`, `b2 = (19/16 * s, 19/16 * s)` no operation overflows, the squares round to
the subnormals `3 * 2^-1074` and `1 * 2^-1074 + 1 * 2^-1074`, and `compare_distance`
returns `1` although the first segment is strictly shorter. -/
theorem compare_distance_wrong_sign_on_underflow :
    (⟨0, 0⟩ : point).IsDouble ∧ (⟨13 * pow2 (-540), 0⟩ : point).IsDouble ∧
    (⟨19 * pow2 (-541), 19 * pow2 (-541)⟩ : point).IsDouble ∧
    DistanceFinite ⟨0, 0⟩ ⟨13 * pow2 (-540), 0⟩ ⟨0, 0⟩ ⟨19 * pow2 (-541), 19 * pow2 (-541)⟩ ∧
    compare_distance refArith ⟨0, 0⟩ ⟨13 * pow2 (-540), 0⟩ ⟨0, 0⟩
      ⟨19 * pow2 (-541), 19 * pow2 (-541)⟩ = 1 ∧
    sgn (dist2 ⟨0, 0⟩ ⟨13 * pow2 (-540), 0⟩
      - dist2 ⟨0, 0⟩ ⟨19 * pow2 (-541), 19 * pow2 (-541)⟩) = -1 := by
  decide!

/-- C3, amended.  For points with finite double coordinates whose arithmetic stays in
range (no operation of the fast path overflows, none of the four squares of the fast path
underflows, and, whenever the exact path runs, its doublings do not overflow, its twelve
error-free products exist in double arithmetic and their magnitudes sum to at most
`DBL_MAX`), `compare_distance a1 a2 b1 b2` is the sign of the exact difference of the
squared lengths of `a1 a2` and `b1 b2`. -/
theorem compare_distance_exact_sign (A : ExactArith) (a1 a2 b1 b2 : point)
    (h1 : a1.IsDouble) (h2 : a2.IsDouble) (h3 : b1.IsDouble) (h4 : b2.IsDouble)
    (hr : DistanceInRange a1 a2 b1 b2) :
    compare_distance A a1 a2 b1 b2 =
        sgn (((a2.x - a1.x) ^ 2 + (a2.y - a1.y) ^ 2)
          - ((b2.x - b1.x) ^ 2 + (b2.y - b1.y) ^ 2)) ∧
      (compare_distance A a1 a2 b1 b2 = 1 ↔ dist2 b1 b2 < dist2 a1 a2) ∧
      (compare_distance A a1 a2 b1 b2 = -1 ↔ dist2 a1 a2 < dist2 b1 b2) ∧
      (compare_distance A a1 a2 b1 b2 = 0 ↔ dist2 a1 a2 = dist2 b1 b2) := by
  rw [compare_distance_exact A a1 a2 b1 b2 h1 h2 h3 h4 hr.2.1.1 hr.2.1.2.1 hr.2.1.2.2.1
    hr.2.1.2.2.2]
  refine ⟨rfl, ?_, ?_, ?_⟩
  · rw [sgn_eq_one_iff, sub_pos]
  · rw [sgn_eq_neg_one_iff, sub_neg]
  · rw [sgn_eq_zero_iff, sub_eq_zero]

/-- C3, witness: length 1 against length 2 (decided by the fast path), and two segments
of length 1 (decided by the exact path). -/
theorem compare_distance_exact_sign_witness :
    ((⟨0, 0⟩ : point).IsDouble ∧ (⟨1, 0⟩ : point).IsDouble ∧ (⟨0, 2⟩ : point).IsDouble ∧
      (⟨0, 1⟩ : point).IsDouble ∧
      DistanceInRange ⟨0, 0⟩ ⟨1, 0⟩ ⟨0, 0⟩ ⟨0, 2⟩ ∧
      DistanceInRange ⟨0, 0⟩ ⟨1, 0⟩ ⟨0, 0⟩ ⟨0, 1⟩ ∧
      fast_compare_distance ⟨0, 0⟩ ⟨1, 0⟩ ⟨0, 0⟩ ⟨0, 1⟩ = 0) ∧
    compare_distance refArith ⟨0, 0⟩ ⟨1, 0⟩ ⟨0, 0⟩ ⟨0, 2⟩ = -1 ∧
    compare_distance refArith ⟨0, 0⟩ ⟨1, 0⟩ ⟨0, 0⟩ ⟨0, 1⟩ = 0 :=
  ⟨by decide!,
    (compare_distance_exact_sign refArith ⟨0, 0⟩ ⟨1, 0⟩ ⟨0, 0⟩ ⟨0, 2⟩ (by decide!) (by decide!)
      (by decide!) (by decide!) (by decide!)).2.2.1.mpr (by norm_num [dist2]),
    (compare_distance_exact_sign refArith ⟨0, 0⟩ ⟨1, 0⟩ ⟨0, 0⟩ ⟨0, 1⟩ (by decide!) (by decide!)
      (by decide!) (by decide!) (by decide!)).2.2.2.mpr (by norm_num [dist2])⟩

/-- C4, counterexample.  On `a1 = c = (0, -7 * 2^-595)`,
`a2 = (8 * 2^-537, 7505999378950827 * 2^-590)`, `b = (3 * 2^-537, 5 * 2^-541)` no
operation overflows, the products round to the subnormals `2 * 2^-1074` and
`3 * 2^-1074`, and `farther_than` returns false although the exact cross expression is
strictly positive. -/
theorem farther_than_wrong_on_underflow :
    (⟨0, -7 * pow2 (-595)⟩ : point).IsDouble ∧
    (⟨8 * pow2 (-537), 7505999378950827 * pow2 (-590)⟩ : point).IsDouble ∧
    (⟨3 * pow2 (-537), 5 * pow2 (-541)⟩ : point).IsDouble ∧
    FartherFinite ⟨0, -7 * pow2 (-595)⟩ ⟨8 * pow2 (-537), 7505999378950827 * pow2 (-590)⟩
      ⟨3 * pow2 (-537), 5 * pow2 (-541)⟩ ⟨0, -7 * pow2 (-595)⟩ ∧
    farther_than refArith ⟨0, -7 * pow2 (-595)⟩
      ⟨8 * pow2 (-537), 7505999378950827 * pow2 (-590)⟩
      ⟨3 * pow2 (-537), 5 * pow2 (-541)⟩ ⟨0, -7 * pow2 (-595)⟩ = false ∧
    0 < cross ⟨0, -7 * pow2 (-595)⟩ ⟨8 * pow2 (-537), 7505999378950827 * pow2 (-590)⟩
      ⟨3 * pow2 (-537), 5 * pow2 (-541)⟩ ⟨0, -7 * pow2 (-595)⟩ := by
  decide!

/-- C4, amended.  For points with finite double coordinates whose arithmetic stays in
range (no operation of the fast path overflows, neither product of the fast path
underflows, and, whenever the exact path runs, its eight error-free products exist in
double arithmetic and their magnitudes sum to at most `DBL_MAX`), `farther_than a1 a2 b c`
is true exactly when
`(a2.x - a1.x) * (b.y - c.y) - (a2.y - a1.y) * (b.x - c.x)` is strictly positive, and
false when it is zero or negative. -/
theorem farther_than_iff_cross_pos (A : ExactArith) (a1 a2 b c : point) (h1 : a1.IsDouble)
    (h2 : a2.IsDouble) (hb : b.IsDouble) (hc : c.IsDouble)
    (hr : FartherInRange a1 a2 b c) :
    (farther_than A a1 a2 b c = true ↔
        0 < (a2.x - a1.x) * (b.y - c.y) - (a2.y - a1.y) * (b.x - c.x)) ∧
      ((a2.x - a1.x) * (b.y - c.y) - (a2.y - a1.y) * (b.x - c.x) ≤ 0 →
        farther_than A a1 a2 b c = false) := by
  have h := farther_than_exact A a1 a2 b c h1 h2 hb hc hr.2.1.1 hr.2.1.2
  refine ⟨h, fun hle => ?_⟩
  rw [← Bool.not_eq_true, h]
  exact not_lt.mpr hle

/-- C4, witness: two inputs decided by the fast path and one (`b = c`) decided by the
exact path. -/
theorem farther_than_iff_cross_pos_witness :
    ((⟨0, 0⟩ : point).IsDouble ∧ (⟨1, 0⟩ : point).IsDouble ∧ (⟨0, 1⟩ : point).IsDouble ∧
      FartherInRange ⟨0, 0⟩ ⟨1, 0⟩ ⟨0, 1⟩ ⟨0, 0⟩ ∧ FartherInRange ⟨0, 0⟩ ⟨1, 0⟩ ⟨0, 0⟩ ⟨0, 1⟩ ∧
      FartherInRange ⟨0, 0⟩ ⟨1, 0⟩ ⟨0, 1⟩ ⟨0, 1⟩ ∧
      fast_farther_than ⟨0, 0⟩ ⟨1, 0⟩ ⟨0, 1⟩ ⟨0, 1⟩ = -1) ∧
    farther_than refArith ⟨0, 0⟩ ⟨1, 0⟩ ⟨0, 1⟩ ⟨0, 0⟩ = true ∧
    farther_than refArith ⟨0, 0⟩ ⟨1, 0⟩ ⟨0, 0⟩ ⟨0, 1⟩ = false ∧
    farther_than refArith ⟨0, 0⟩ ⟨1, 0⟩ ⟨0, 1⟩ ⟨0, 1⟩ = false :=
  ⟨by decide!,
    (farther_than_iff_cross_pos refArith ⟨0, 0⟩ ⟨1, 0⟩ ⟨0, 1⟩ ⟨0, 0⟩ (by decide!) (by decide!)
      (by decide!) (by decide!) (by decide!)).1.mpr (by norm_num),
    (farther_than_iff_cross_pos refArith ⟨0, 0⟩ ⟨1, 0⟩ ⟨0, 0⟩ ⟨0, 1⟩ (by decide!) (by decide!)
      (by decide!) (by decide!) (by decide!)).2 (by norm_num),
    (farther_than_iff_cross_pos refArith ⟨0, 0⟩ ⟨1, 0⟩ ⟨0, 1⟩ ⟨0, 1⟩ (by decide!) (by decide!)
      (by decide!) (by decide!) (by decide!)).2 (by norm_num)⟩

/-- C5, counterexample.  On the finite doubles `a1 = (0, 0)`,
`a2 = (74905 * 2^-548, 7 * 2^-545)`,
`b = (4503599631278665 * 2^-542, 26935620249821 * 2^-545)` no operation of either fast
path overflows and both calls are decided by the fast path alone, on underflowed
products: `fast_turn a1 a2 b = 1` and `fast_turn a2 a1 b = 1`.  So `left_turn a1 a2 b`
and `left_turn a2 a1 b` are both `1` instead of opposite, whatever the exact path does. -/
theorem left_turn_not_antisymm_on_underflow :
    (⟨0, 0⟩ : point).IsDouble ∧
    (⟨74905 * pow2 (-548), 7 * pow2 (-545)⟩ : point).IsDouble ∧
    (⟨4503599631278665 * pow2 (-542), 26935620249821 * pow2 (-545)⟩ : point).IsDouble ∧
    TurnFinite ⟨0, 0⟩ ⟨74905 * pow2 (-548), 7 * pow2 (-545)⟩
      ⟨4503599631278665 * pow2 (-542), 26935620249821 * pow2 (-545)⟩ ∧
    TurnFinite ⟨74905 * pow2 (-548), 7 * pow2 (-545)⟩ ⟨0, 0⟩
      ⟨4503599631278665 * pow2 (-542), 26935620249821 * pow2 (-545)⟩ ∧
    fast_turn ⟨0, 0⟩ ⟨74905 * pow2 (-548), 7 * pow2 (-545)⟩
      ⟨4503599631278665 * pow2 (-542), 26935620249821 * pow2 (-545)⟩ = 1 ∧
    fast_turn ⟨74905 * pow2 (-548), 7 * pow2 (-545)⟩ ⟨0, 0⟩
      ⟨4503599631278665 * pow2 (-542), 26935620249821 * pow2 (-545)⟩ = 1 ∧
    left_turn refArith ⟨0, 0⟩ ⟨74905 * pow2 (-548), 7 * pow2 (-545)⟩
      ⟨4503599631278665 * pow2 (-542), 26935620249821 * pow2 (-545)⟩ = 1 ∧
    left_turn refArith ⟨74905 * pow2 (-548), 7 * pow2 (-545)⟩ ⟨0, 0⟩
      ⟨4503599631278665 * pow2 (-542), 26935620249821 * pow2 (-545)⟩ = 1 ∧
    left_turn refArith ⟨0, 0⟩ ⟨74905 * pow2 (-548), 7 * pow2 (-545)⟩
      ⟨4503599631278665 * pow2 (-542), 26935620249821 * pow2 (-545)⟩ ≠
    -left_turn refArith ⟨74905 * pow2 (-548), 7 * pow2 (-545)⟩ ⟨0, 0⟩
      ⟨4503599631278665 * pow2 (-542), 26935620249821 * pow2 (-545)⟩ := by
  decide!

/-- C5, amended.  For points with finite double coordinates such that the arithmetic of
both calls stays in range (around the pivot `a1` and around the pivot `a2`: no operation
of the fast path overflows, neither product of the fast path underflows, and, whenever
the exact path runs, its six error-free products exist in double arithmetic and their
magnitudes sum to at most `DBL_MAX`), `left_turn a1 a2 b = -left_turn a2 a1 b`. -/
theorem left_turn_antisymm (A : ExactArith) (a1 a2 b : point) (h1 : a1.IsDouble)
    (h2 : a2.IsDouble) (hb : b.IsDouble) (hr : TurnInRange a1 a2 b)
    (hr' : TurnInRange a2 a1 b) : left_turn A a1 a2 b = -left_turn A a2 a1 b :=
  left_turn_antisymm_aux A a1 a2 b h1 h2 hb hr.2.1 hr'.2.1

/-- C5, witness: one triple decided by the fast path in both calls and one collinear
triple decided by the exact path in both calls. -/
theorem left_turn_antisymm_witness :
    ((⟨0, 0⟩ : point).IsDouble ∧ (⟨1, 0⟩ : point).IsDouble ∧ (⟨0, 1⟩ : point).IsDouble ∧
      (⟨2, 0⟩ : point).IsDouble ∧
      TurnInRange ⟨0, 0⟩ ⟨1, 0⟩ ⟨0, 1⟩ ∧ TurnInRange ⟨1, 0⟩ ⟨0, 0⟩ ⟨0, 1⟩ ∧
      TurnInRange ⟨0, 0⟩ ⟨1, 0⟩ ⟨2, 0⟩ ∧ TurnInRange ⟨1, 0⟩ ⟨0, 0⟩ ⟨2, 0⟩ ∧
      fast_turn ⟨0, 0⟩ ⟨1, 0⟩ ⟨2, 0⟩ = 0 ∧ fast_turn ⟨1, 0⟩ ⟨0, 0⟩ ⟨2, 0⟩ = 0) ∧
    left_turn refArith ⟨0, 0⟩ ⟨1, 0⟩ ⟨0, 1⟩ = -left_turn refArith ⟨1, 0⟩ ⟨0, 0⟩ ⟨0, 1⟩ ∧
    left_turn refArith ⟨0, 0⟩ ⟨1, 0⟩ ⟨2, 0⟩ = -left_turn refArith ⟨1, 0⟩ ⟨0, 0⟩ ⟨2, 0⟩ :=
  ⟨by decide!,
    left_turn_antisymm refArith ⟨0, 0⟩ ⟨1, 0⟩ ⟨0, 1⟩ (by decide!) (by decide!) (by decide!)
      (by decide!) (by decide!),
    left_turn_antisymm refArith ⟨0, 0⟩ ⟨1, 0⟩ ⟨2, 0⟩ (by decide!) (by decide!) (by decide!)
      (by decide!) (by decide!)⟩

/-- C6, counterexample.  On the finite doubles `a1 = (-11 * 2^-536, 0)`,
`a2 = (8128968564187135 * 2^-532, 77 * 2^-555)`,
`b1 = (1768314590261487 * 2^-531, 67 * 2^-556)`, `b2 = (1768314590261487 * 2^-531, 0)`
no operation overflows and all six orientation calls are decided by the fast path alone
(`fast_turn` is nonzero on each); `fast_turn a1 a2 b1` and `fast_turn a2 a1 b1` are both
`1`, on underflowed products.  Reversing the first segment changes the answer:
`intersect a1 a2 b1 b2` is true and `intersect a2 a1 b1 b2` is false. -/
theorem intersect_reverse_differs_on_underflow :
    (⟨-11 * pow2 (-536), 0⟩ : point).IsDouble ∧
    (⟨8128968564187135 * pow2 (-532), 77 * pow2 (-555)⟩ : point).IsDouble ∧
    (⟨1768314590261487 * pow2 (-531), 67 * pow2 (-556)⟩ : point).IsDouble ∧
    (⟨1768314590261487 * pow2 (-531), 0⟩ : point).IsDouble ∧
    (TurnFinite ⟨-11 * pow2 (-536), 0⟩ ⟨8128968564187135 * pow2 (-532), 77 * pow2 (-555)⟩
        ⟨1768314590261487 * pow2 (-531), 67 * pow2 (-556)⟩ ∧
      fast_turn ⟨-11 * pow2 (-536), 0⟩ ⟨8128968564187135 * pow2 (-532), 77 * pow2 (-555)⟩
        ⟨1768314590261487 * pow2 (-531), 67 * pow2 (-556)⟩ = 1) ∧
    (TurnFinite ⟨-11 * pow2 (-536), 0⟩ ⟨8128968564187135 * pow2 (-532), 77 * pow2 (-555)⟩
        ⟨1768314590261487 * pow2 (-531), 0⟩ ∧
      fast_turn ⟨-11 * pow2 (-536), 0⟩ ⟨8128968564187135 * pow2 (-532), 77 * pow2 (-555)⟩
        ⟨1768314590261487 * pow2 (-531), 0⟩ = -1) ∧
    (TurnFinite ⟨1768314590261487 * pow2 (-531), 67 * pow2 (-556)⟩
        ⟨1768314590261487 * pow2 (-531), 0⟩ ⟨-11 * pow2 (-536), 0⟩ ∧
      fast_turn ⟨1768314590261487 * pow2 (-531), 67 * pow2 (-556)⟩
        ⟨1768314590261487 * pow2 (-531), 0⟩ ⟨-11 * pow2 (-536), 0⟩ = -1) ∧
    (TurnFinite ⟨1768314590261487 * pow2 (-531), 67 * pow2 (-556)⟩
        ⟨1768314590261487 * pow2 (-531), 0⟩
        ⟨8128968564187135 * pow2 (-532), 77 * pow2 (-555)⟩ ∧
      fast_turn ⟨1768314590261487 * pow2 (-531), 67 * pow2 (-556)⟩
        ⟨1768314590261487 * pow2 (-531), 0⟩
        ⟨8128968564187135 * pow2 (-532), 77 * pow2 (-555)⟩ = 1) ∧
    (TurnFinite ⟨8128968564187135 * pow2 (-532), 77 * pow2 (-555)⟩ ⟨-11 * pow2 (-536), 0⟩
        ⟨1768314590261487 * pow2 (-531), 67 * pow2 (-556)⟩ ∧
      fast_turn ⟨8128968564187135 * pow2 (-532), 77 * pow2 (-555)⟩ ⟨-11 * pow2 (-536), 0⟩
        ⟨1768314590261487 * pow2 (-531), 67 * pow2 (-556)⟩ = 1) ∧
    (TurnFinite ⟨8128968564187135 * pow2 (-532), 77 * pow2 (-555)⟩ ⟨-11 * pow2 (-536), 0⟩
        ⟨1768314590261487 * pow2 (-531), 0⟩ ∧
      fast_turn ⟨8128968564187135 * pow2 (-532), 77 * pow2 (-555)⟩ ⟨-11 * pow2 (-536), 0⟩
        ⟨1768314590261487 * pow2 (-531), 0⟩ = 1) ∧
    intersect refArith ⟨-11 * pow2 (-536), 0⟩
      ⟨8128968564187135 * pow2 (-532), 77 * pow2 (-555)⟩
      ⟨1768314590261487 * pow2 (-531), 67 * pow2 (-556)⟩
      ⟨1768314590261487 * pow2 (-531), 0⟩ = true ∧
    intersect refArith ⟨8128968564187135 * pow2 (-532), 77 * pow2 (-555)⟩
      ⟨-11 * pow2 (-536), 0⟩
      ⟨1768314590261487 * pow2 (-531), 67 * pow2 (-556)⟩
      ⟨1768314590261487 * pow2 (-531), 0⟩ = false := by
  decide!

/-- C6, amended.  Swapping the two segments never changes `intersect`; reversing the first
segment does not change it for points with finite double coordinates such that the
arithmetic of the four orientation evaluations of `b1` and `b2` against `a1 -> a2` and
against `a2 -> a1` stays in range (no operation of the fast path overflows, neither
product of the fast path underflows, and, whenever the exact path runs, its six
error-free products exist in double arithmetic and their magnitudes sum to at most
`DBL_MAX`). -/
theorem intersect_symm (A : ExactArith) (a1 a2 b1 b2 : point) :
    intersect A a1 a2 b1 b2 = intersect A b1 b2 a1 a2 ∧
    (a1.IsDouble → a2.IsDouble → b1.IsDouble → b2.IsDouble →
      TurnInRange a1 a2 b1 → TurnInRange a1 a2 b2 →
      TurnInRange a2 a1 b1 → TurnInRange a2 a1 b2 →
      intersect A a1 a2 b1 b2 = intersect A a2 a1 b1 b2) :=
  ⟨intersect_swap A a1 a2 b1 b2, fun h1 h2 h3 h4 r1 r2 r1' r2' =>
    intersect_reverse A a1 a2 b1 b2
      (left_turn_antisymm_aux A a1 a2 b1 h1 h2 h3 r1.2.1 r1'.2.1)
      (left_turn_antisymm_aux A a1 a2 b2 h1 h2 h4 r2.2.1 r2'.2.1)⟩

/-- C6, witness: the crossing diagonals of the unit square. -/
theorem intersect_symm_witness :
    ((⟨0, 0⟩ : point).IsDouble ∧ (⟨1, 1⟩ : point).IsDouble ∧ (⟨0, 1⟩ : point).IsDouble ∧
      (⟨1, 0⟩ : point).IsDouble ∧
      TurnInRange ⟨0, 0⟩ ⟨1, 1⟩ ⟨0, 1⟩ ∧ TurnInRange ⟨0, 0⟩ ⟨1, 1⟩ ⟨1, 0⟩ ∧
      TurnInRange ⟨1, 1⟩ ⟨0, 0⟩ ⟨0, 1⟩ ∧ TurnInRange ⟨1, 1⟩ ⟨0, 0⟩ ⟨1, 0⟩) ∧
    intersect refArith ⟨0, 0⟩ ⟨1, 1⟩ ⟨0, 1⟩ ⟨1, 0⟩
      = intersect refArith ⟨0, 1⟩ ⟨1, 0⟩ ⟨0, 0⟩ ⟨1, 1⟩ ∧
    intersect refArith ⟨0, 0⟩ ⟨1, 1⟩ ⟨0, 1⟩ ⟨1, 0⟩
      = intersect refArith ⟨1, 1⟩ ⟨0, 0⟩ ⟨0, 1⟩ ⟨1, 0⟩ :=
  ⟨by decide!,
    (intersect_symm refArith ⟨0, 0⟩ ⟨1, 1⟩ ⟨0, 1⟩ ⟨1, 0⟩).1,
    (intersect_symm refArith ⟨0, 0⟩ ⟨1, 1⟩ ⟨0, 1⟩ ⟨1, 0⟩).2 (by decide!) (by decide!)
      (by decide!) (by decide!) (by decide!) (by decide!) (by decide!) (by decide!)⟩

/-- C7.  `compare_distance a1 a2 b1 b2 = -compare_distance b1 b2 a1 a2` for all points,
whichever of the fast or the exact path decides each call: the two fast paths compute the
same two squared lengths in swapped roles, rounding is symmetric under negation, and the
exact sums are opposite. -/
theorem compare_distance_antisymm (A : ExactArith) (a1 a2 b1 b2 : point) :
    compare_distance A a1 a2 b1 b2 = -compare_distance A b1 b2 a1 a2 :=
  compare_distance_antisymm_aux A a1 a2 b1 b2

/-- C8, counterexample.  The finite doubles `a1 = (99 * 2^-545, 331 * 2^-545)`,
`a2 = (297 * 2^-498, 993 * 2^-498)`, `b = (0, 0)` are collinear.  No operation of the fast
path overflows, and the six products of the exact path are themselves doubles (four are
zero and the other two are `98307 * 2^-1043` and its opposite), so the exact path returns
`0` in double arithmetic.  `fast_turn` returns the certified result `-1`: for underflowed
products the threshold does not bound the rounding error. -/
theorem fast_turn_disagrees_on_underflow :
    (⟨99 * pow2 (-545), 331 * pow2 (-545)⟩ : point).IsDouble ∧
    (⟨297 * pow2 (-498), 993 * pow2 (-498)⟩ : point).IsDouble ∧
    (⟨0, 0⟩ : point).IsDouble ∧
    TurnFinite ⟨99 * pow2 (-545), 331 * pow2 (-545)⟩ ⟨297 * pow2 (-498), 993 * pow2 (-498)⟩
      ⟨0, 0⟩ ∧
    RobustTurnExact ⟨99 * pow2 (-545), 331 * pow2 (-545)⟩
      ⟨297 * pow2 (-498), 993 * pow2 (-498)⟩ ⟨0, 0⟩ ∧
    (IsDouble (-(297 * pow2 (-498)) * (331 * pow2 (-545))) ∧
      IsDouble (993 * pow2 (-498) * (99 * pow2 (-545))) ∧
      -(297 * pow2 (-498)) * (331 * pow2 (-545)) + 993 * pow2 (-498) * (99 * pow2 (-545))
        = 0) ∧
    fast_turn ⟨99 * pow2 (-545), 331 * pow2 (-545)⟩ ⟨297 * pow2 (-498), 993 * pow2 (-498)⟩
      ⟨0, 0⟩ = -1 ∧
    robust_turn refArith ⟨99 * pow2 (-545), 331 * pow2 (-545)⟩
      ⟨297 * pow2 (-498), 993 * pow2 (-498)⟩ ⟨0, 0⟩ = 0 ∧
    det ⟨99 * pow2 (-545), 331 * pow2 (-545)⟩ ⟨297 * pow2 (-498), 993 * pow2 (-498)⟩
      ⟨0, 0⟩ = 0 := by
  decide!

/-- C8, amended.  For inputs with finite double coordinates on which no operation of the
fast path overflows, no product of the fast path underflows, and the exact path can be
carried out in double arithmetic (its error-free products exist in double arithmetic and
their magnitudes sum to at most `DBL_MAX`), a certified fast result equals the exact
result: `fast_turn ≠ 0` implies `fast_turn = robust_turn`; `fast_farther_than ≠ -1`
implies `(fast_farther_than = 1) = robust_farther_than`; `fast_compare_distance ≠ 0`
implies `fast_compare_distance = robust_compare_distance`. -/
theorem fast_paths_agree_with_exact (A : ExactArith) :
    (∀ a1 a2 b : point, a1.IsDouble → a2.IsDouble → b.IsDouble →
      TurnFinite a1 a2 b → TurnNoUnderflow a1 a2 b → RobustTurnExact a1 a2 b →
      fast_turn a1 a2 b ≠ 0 → fast_turn a1 a2 b = robust_turn A a1 a2 b) ∧
    (∀ a1 a2 b c : point, a1.IsDouble → a2.IsDouble → b.IsDouble → c.IsDouble →
      FartherFinite a1 a2 b c → FartherNoUnderflow a1 a2 b c → RobustFartherExact a1 a2 b c →
      fast_farther_than a1 a2 b c ≠ -1 →
      decide (fast_farther_than a1 a2 b c = 1) = robust_farther_than A a1 a2 b c) ∧
    (∀ a1 a2 b1 b2 : point, a1.IsDouble → a2.IsDouble → b1.IsDouble → b2.IsDouble →
      DistanceFinite a1 a2 b1 b2 → DistanceNoUnderflow a1 a2 b1 b2 →
      RobustDistanceExact a1 a2 b1 b2 → fast_compare_distance a1 a2 b1 b2 ≠ 0 →
      fast_compare_distance a1 a2 b1 b2 = robust_compare_distance A a1 a2 b1 b2) := by
  refine ⟨?_, ?_, ?_⟩
  · intro a1 a2 b h1 h2 hb _ hn _ hne
    rw [robust_turn_det]
    exact fast_turn_sound a1 a2 b h1 h2 hb hn.1 hn.2 hne
  · intro a1 a2 b c h1 h2 hb hc _ hn _ hne
    rw [robust_farther_than_eq, fast_farther_than_sound a1 a2 b c h1 h2 hb hc hn.1 hn.2 hne]
    by_cases hp : 0 < cross a1 a2 b c <;> simp [hp]
  · intro a1 a2 b1 b2 h1 h2 h3 h4 _ hn _ hne
    rw [robust_compare_distance_dist A a1 a2 b1 b2 h2.1.1 h2.2.1 h4.1.1 h4.2.1]
    exact fast_compare_distance_sound a1 a2 b1 b2 h1 h2 h3 h4 hn.1 hn.2.1 hn.2.2.1 hn.2.2.2 hne

/-- C8, witness: three inputs on which the fast paths certify. -/
theorem fast_paths_agree_with_exact_witness :
    ((⟨0, 0⟩ : point).IsDouble ∧ (⟨1, 0⟩ : point).IsDouble ∧ (⟨0, 1⟩ : point).IsDouble ∧
      (⟨0, 2⟩ : point).IsDouble ∧
      (TurnFinite ⟨0, 0⟩ ⟨1, 0⟩ ⟨0, 1⟩ ∧ TurnNoUnderflow ⟨0, 0⟩ ⟨1, 0⟩ ⟨0, 1⟩ ∧
        RobustTurnExact ⟨0, 0⟩ ⟨1, 0⟩ ⟨0, 1⟩) ∧
      (FartherFinite ⟨0, 0⟩ ⟨1, 0⟩ ⟨0, 1⟩ ⟨0, 0⟩ ∧ FartherNoUnderflow ⟨0, 0⟩ ⟨1, 0⟩ ⟨0, 1⟩ ⟨0, 0⟩ ∧
        RobustFartherExact ⟨0, 0⟩ ⟨1, 0⟩ ⟨0, 1⟩ ⟨0, 0⟩) ∧
      (DistanceFinite ⟨0, 0⟩ ⟨1, 0⟩ ⟨0, 0⟩ ⟨0, 2⟩ ∧
        DistanceNoUnderflow ⟨0, 0⟩ ⟨1, 0⟩ ⟨0, 0⟩ ⟨0, 2⟩ ∧
        RobustDistanceExact ⟨0, 0⟩ ⟨1, 0⟩ ⟨0, 0⟩ ⟨0, 2⟩) ∧
      fast_turn ⟨0, 0⟩ ⟨1, 0⟩ ⟨0, 1⟩ ≠ 0 ∧
      fast_farther_than ⟨0, 0⟩ ⟨1, 0⟩ ⟨0, 1⟩ ⟨0, 0⟩ ≠ -1 ∧
      fast_compare_distance ⟨0, 0⟩ ⟨1, 0⟩ ⟨0, 0⟩ ⟨0, 2⟩ ≠ 0) ∧
    fast_turn ⟨0, 0⟩ ⟨1, 0⟩ ⟨0, 1⟩ = robust_turn refArith ⟨0, 0⟩ ⟨1, 0⟩ ⟨0, 1⟩ ∧
    decide (fast_farther_than ⟨0, 0⟩ ⟨1, 0⟩ ⟨0, 1⟩ ⟨0, 0⟩ = 1)
      = robust_farther_than refArith ⟨0, 0⟩ ⟨1, 0⟩ ⟨0, 1⟩ ⟨0, 0⟩ ∧
    fast_compare_distance ⟨0, 0⟩ ⟨1, 0⟩ ⟨0, 0⟩ ⟨0, 2⟩
      = robust_compare_distance refArith ⟨0, 0⟩ ⟨1, 0⟩ ⟨0, 0⟩ ⟨0, 2⟩ :=
  ⟨by decide!,
    (fast_paths_agree_with_exact refArith).1 ⟨0, 0⟩ ⟨1, 0⟩ ⟨0, 1⟩ (by decide!) (by decide!)
      (by decide!) (by decide!) (by decide!) (by decide!) (by decide!),
    (fast_paths_agree_with_exact refArith).2.1 ⟨0, 0⟩ ⟨1, 0⟩ ⟨0, 1⟩ ⟨0, 0⟩ (by decide!)
      (by decide!) (by decide!) (by decide!) (by decide!) (by decide!) (by decide!)
      (by decide!),
    (fast_paths_agree_with_exact refArith).2.2 ⟨0, 0⟩ ⟨1, 0⟩ ⟨0, 0⟩ ⟨0, 2⟩ (by decide!)
      (by decide!) (by decide!) (by decide!) (by decide!) (by decide!) (by decide!)
      (by decide!)⟩

/-- C9.  The bounding-box rejection never produces a false negative: if the closed
segments `[a1, a2]` and `[b1, b2]` share a point then `check_bounding_box` returns true;
equivalently, whenever `check_bounding_box` returns false, `intersect` returns false and
the two segments are disjoint. -/
theorem check_bounding_box_no_false_negative (A : ExactArith) (a1 a2 b1 b2 : point) :
    (SegmentsMeet a1 a2 b1 b2 → check_bounding_box a1 a2 b1 b2 = true) ∧
    (check_bounding_box a1 a2 b1 b2 = false →
      intersect A a1 a2 b1 b2 = false ∧ ¬ SegmentsMeet a1 a2 b1 b2) := by
  refine ⟨fun h => (tests_of_meet a1 a2 b1 b2 h).1, fun h => ⟨intersect_false_of_bbox A _ _ _ _ h, ?_⟩⟩
  intro hm
  rw [(tests_of_meet a1 a2 b1 b2 hm).1] at h
  exact absurd h (by decide)

/-- C9, witness: crossing diagonals pass the check, the disjoint collinear segments
`[(0,0),(1,0)]` and `[(2,0),(3,0)]` are rejected. -/
theorem check_bounding_box_no_false_negative_witness :
    (SegmentsMeet ⟨0, 0⟩ ⟨1, 1⟩ ⟨0, 1⟩ ⟨1, 0⟩ ∧
      check_bounding_box ⟨0, 0⟩ ⟨1, 1⟩ ⟨0, 1⟩ ⟨1, 0⟩ = true) ∧
    (check_bounding_box ⟨0, 0⟩ ⟨1, 0⟩ ⟨2, 0⟩ ⟨3, 0⟩ = false ∧
      intersect refArith ⟨0, 0⟩ ⟨1, 0⟩ ⟨2, 0⟩ ⟨3, 0⟩ = false ∧
      ¬ SegmentsMeet ⟨0, 0⟩ ⟨1, 0⟩ ⟨2, 0⟩ ⟨3, 0⟩) :=
  have hm : SegmentsMeet ⟨0, 0⟩ ⟨1, 1⟩ ⟨0, 1⟩ ⟨1, 0⟩ :=
    ⟨1 / 2, 1 / 2, by norm_num, by norm_num, by norm_num, by norm_num, by norm_num,
      by norm_num⟩
  have hb : check_bounding_box ⟨0, 0⟩ ⟨1, 0⟩ ⟨2, 0⟩ ⟨3, 0⟩ = false := by decide!
  ⟨⟨hm, (check_bounding_box_no_false_negative refArith _ _ _ _).1 hm⟩,
    hb, (check_bounding_box_no_false_negative refArith _ _ _ _).2 hb⟩

/-- C10, counterexample: the disjoint collinear segments `[(0,0),(1,0)]` and
`[(2,0),(3,0)]`.  All four orientations are `0`, so the two-sided orientation test alone
is true, while `intersect` is false because the bounding boxes are disjoint: removing
`check_bounding_box` would change the returned value. -/
theorem intersect_ne_orientation_tests_collinear :
    intersect refArith ⟨0, 0⟩ ⟨1, 0⟩ ⟨2, 0⟩ ⟨3, 0⟩ = false ∧
    (decide (left_turn refArith ⟨0, 0⟩ ⟨1, 0⟩ ⟨2, 0⟩ * left_turn refArith ⟨0, 0⟩ ⟨1, 0⟩ ⟨3, 0⟩ ≤ 0)
      && decide (left_turn refArith ⟨2, 0⟩ ⟨3, 0⟩ ⟨0, 0⟩
        * left_turn refArith ⟨2, 0⟩ ⟨3, 0⟩ ⟨1, 0⟩ ≤ 0)) = true := by
  decide!

/-- C10, amended.  With `left_turn` returning the exact orientation sign on the four
triples it is called on: when the four points are not all on one line, `intersect` equals
the two-sided orientation test alone (the bounding-box check is then redundant); when they
are all on one line, both orientation tests pass trivially and `intersect` equals
`check_bounding_box`, which alone decides. -/
theorem intersect_eq_orientation_tests_or_bounding_box (A : ExactArith)
    (a1 a2 b1 b2 : point)
    (h1 : left_turn A a1 a2 b1 = sgn (det a1 a2 b1))
    (h2 : left_turn A a1 a2 b2 = sgn (det a1 a2 b2))
    (h3 : left_turn A b1 b2 a1 = sgn (det b1 b2 a1))
    (h4 : left_turn A b1 b2 a2 = sgn (det b1 b2 a2)) :
    (¬ Collinear4 a1 a2 b1 b2 →
      intersect A a1 a2 b1 b2 =
        (decide (left_turn A a1 a2 b1 * left_turn A a1 a2 b2 ≤ 0)
          && decide (left_turn A b1 b2 a1 * left_turn A b1 b2 a2 ≤ 0))) ∧
    (Collinear4 a1 a2 b1 b2 →
      intersect A a1 a2 b1 b2 = check_bounding_box a1 a2 b1 b2) :=
  ⟨intersect_eq_tests_of_not_collinear A a1 a2 b1 b2 h1 h2 h3 h4,
    intersect_eq_bbox_of_collinear A a1 a2 b1 b2 h1 h3⟩

/-- C10, witness: the crossing diagonals of the unit square (not collinear) and the
disjoint collinear segments of the counterexample. -/
theorem intersect_eq_orientation_tests_or_bounding_box_witness :
    (¬ Collinear4 ⟨0, 0⟩ ⟨1, 1⟩ ⟨0, 1⟩ ⟨1, 0⟩ ∧ Collinear4 ⟨0, 0⟩ ⟨1, 0⟩ ⟨2, 0⟩ ⟨3, 0⟩) ∧
    intersect refArith ⟨0, 0⟩ ⟨1, 1⟩ ⟨0, 1⟩ ⟨1, 0⟩ =
      (decide (left_turn refArith ⟨0, 0⟩ ⟨1, 1⟩ ⟨0, 1⟩
          * left_turn refArith ⟨0, 0⟩ ⟨1, 1⟩ ⟨1, 0⟩ ≤ 0)
        && decide (left_turn refArith ⟨0, 1⟩ ⟨1, 0⟩ ⟨0, 0⟩
          * left_turn refArith ⟨0, 1⟩ ⟨1, 0⟩ ⟨1, 1⟩ ≤ 0)) ∧
    intersect refArith ⟨0, 0⟩ ⟨1, 0⟩ ⟨2, 0⟩ ⟨3, 0⟩
      = check_bounding_box ⟨0, 0⟩ ⟨1, 0⟩ ⟨2, 0⟩ ⟨3, 0⟩ :=
  ⟨by decide!,
    (intersect_eq_orientation_tests_or_bounding_box refArith ⟨0, 0⟩ ⟨1, 1⟩ ⟨0, 1⟩ ⟨1, 0⟩
      (by decide!) (by decide!) (by decide!) (by decide!)).1 (by decide!),
    (intersect_eq_orientation_tests_or_bounding_box refArith ⟨0, 0⟩ ⟨1, 0⟩ ⟨2, 0⟩ ⟨3, 0⟩
      (by decide!) (by decide!) (by decide!) (by decide!)).2 (by decide!)⟩

/-- C11.  Touching counts as intersecting: `intersect a1 a2 a2 b2` is true for all points
(two segments sharing the endpoint `a2`), zero-length segments included; in particular
`intersect p p p p` is true for every point `p`. -/
theorem intersect_touching (A : ExactArith) (a1 a2 b2 p : point) :
    intersect A a1 a2 a2 b2 = true ∧ intersect A p p p p = true :=
  ⟨intersect_shared_endpoint A a1 a2 b2, intersect_shared_endpoint A p p p⟩

/-- C12.  Degenerate orientation inputs are accepted and resolve to `0` through the exact
path: for all points `p`, `q`, each of `left_turn p p q`, `left_turn p q p` and
`left_turn p q q` has `fast_turn` returning `0` (inconclusive), so the result is the one of
`robust_turn`, and that result is `0`. -/
theorem left_turn_degenerate (A : ExactArith) (p q : point) :
    (fast_turn p p q = 0 ∧ left_turn A p p q = robust_turn A p p q ∧ left_turn A p p q = 0) ∧
    (fast_turn p q p = 0 ∧ left_turn A p q p = robust_turn A p q p ∧ left_turn A p q p = 0) ∧
    (fast_turn p q q = 0 ∧ left_turn A p q q = robust_turn A p q q ∧ left_turn A p q q = 0) :=
  ⟨⟨fast_turn_first_eq p q, left_turn_of_fast_zero A _ _ _ (fast_turn_first_eq p q),
      left_turn_first_eq A p q⟩,
    ⟨fast_turn_third_eq_first p q,
      left_turn_of_fast_zero A _ _ _ (fast_turn_third_eq_first p q),
      left_turn_third_eq_first A p q⟩,
    ⟨fast_turn_third_eq_second p q,
      left_turn_of_fast_zero A _ _ _ (fast_turn_third_eq_second p q),
      left_turn_third_eq_second A p q⟩⟩

/-- C13.  No inconclusive result is surfaced by `farther_than`: `fast_farther_than`
returns only `-1`, `0` or `1`; `farther_than` equals `robust_farther_than` when the fast
result is `-1` and equals `(fast_farther_than = 1)` otherwise; the integer that is
converted to the returned boolean is `0` or `1`, never the inconclusive code `-1`. -/
theorem farther_than_never_inconclusive (A : ExactArith) (a1 a2 b c : point) :
    (fast_farther_than a1 a2 b c = -1 ∨ fast_farther_than a1 a2 b c = 0 ∨
      fast_farther_than a1 a2 b c = 1) ∧
    (fast_farther_than a1 a2 b c = -1 →
      farther_than A a1 a2 b c = robust_farther_than A a1 a2 b c) ∧
    (fast_farther_than a1 a2 b c ≠ -1 →
      farther_than A a1 a2 b c = decide (fast_farther_than a1 a2 b c = 1)) ∧
    ((if fast_farther_than a1 a2 b c = -1 then
          (if robust_farther_than A a1 a2 b c then (1 : Int) else 0)
        else fast_farther_than a1 a2 b c) ≠ -1 ∧
      farther_than A a1 a2 b c =
        decide ((if fast_farther_than a1 a2 b c = -1 then
            (if robust_farther_than A a1 a2 b c then (1 : Int) else 0)
          else fast_farther_than a1 a2 b c) ≠ 0)) := by
  refine ⟨fast_farther_than_range a1 a2 b c, farther_than_of_inconclusive A a1 a2 b c,
    farther_than_of_certified A a1 a2 b c, ?_, rfl⟩
  by_cases h : fast_farther_than a1 a2 b c = -1
  · rw [if_pos h]
    split_ifs <;> decide
  · rw [if_neg h]
    exact h

/-- C13, witness: one input decided by the fast path and one (`b = c`) decided by the
exact path. -/
theorem farther_than_never_inconclusive_witness :
    (fast_farther_than ⟨0, 0⟩ ⟨1, 0⟩ ⟨0, 1⟩ ⟨0, 0⟩ ≠ -1 ∧
      farther_than refArith ⟨0, 0⟩ ⟨1, 0⟩ ⟨0, 1⟩ ⟨0, 0⟩
        = decide (fast_farther_than ⟨0, 0⟩ ⟨1, 0⟩ ⟨0, 1⟩ ⟨0, 0⟩ = 1)) ∧
    (fast_farther_than ⟨0, 0⟩ ⟨1, 0⟩ ⟨0, 1⟩ ⟨0, 1⟩ = -1 ∧
      farther_than refArith ⟨0, 0⟩ ⟨1, 0⟩ ⟨0, 1⟩ ⟨0, 1⟩
        = robust_farther_than refArith ⟨0, 0⟩ ⟨1, 0⟩ ⟨0, 1⟩ ⟨0, 1⟩) :=
  have h1 : fast_farther_than ⟨0, 0⟩ ⟨1, 0⟩ ⟨0, 1⟩ ⟨0, 0⟩ ≠ -1 := by decide!
  have h2 : fast_farther_than ⟨0, 0⟩ ⟨1, 0⟩ ⟨0, 1⟩ ⟨0, 1⟩ = -1 := by decide!
  ⟨⟨h1, (farther_than_never_inconclusive refArith _ _ _ _).2.2.1 h1⟩,
    h2, (farther_than_never_inconclusive refArith _ _ _ _).2.1 h2⟩

/-- C14.  Exact orientation path.  Under the contract of `two_product`, `expansion_sum`
and `sign`, the 12 components left in the scratch array of `robust_turn` sum to the six
products `a2.x*b.y`, `(-a2.x)*a1.y`, `(-a1.x)*b.y`, `(-a2.y)*b.x`, `a2.y*a1.x`,
`a1.y*b.x`, each entering once; `robust_turn` returns the sign of
`a2.x*b.y - a2.x*a1.y - a1.x*b.y - a2.y*b.x + a2.y*a1.x + a1.y*b.x`; and this polynomial
is identically the determinant `(a2.x - a1.x)*(b.y - a1.y) - (a2.y - a1.y)*(b.x - a1.x)`
that `fast_turn` approximates. -/
theorem robust_turn_exact_path (A : ExactArith) (a1 a2 b : point) :
    Buf.sum (runSteps A (robust_turn_steps a1 a2 b)) 0 12 =
      a2.x * b.y + -a2.x * a1.y + -a1.x * b.y + -a2.y * b.x + a2.y * a1.x + a1.y * b.x ∧
    robust_turn A a1 a2 b = A.sign 12 (runSteps A (robust_turn_steps a1 a2 b)) ∧
    robust_turn A a1 a2 b =
      sgn (a2.x * b.y - a2.x * a1.y - a1.x * b.y - a2.y * b.x + a2.y * a1.x + a1.y * b.x) ∧
    a2.x * b.y - a2.x * a1.y - a1.x * b.y - a2.y * b.x + a2.y * a1.x + a1.y * b.x =
      (a2.x - a1.x) * (b.y - a1.y) - (a2.y - a1.y) * (b.x - a1.x) :=
  ⟨robust_turn_sum A a1 a2 b, robust_turn_eq_run A a1 a2 b, robust_turn_eq A a1 a2 b, by ring⟩

/-- C15.  Exact distance path.  Under the contract of `two_product`, `expansion_sum` and
`sign`, the 24 components left in the scratch array of `robust_compare_distance` sum to
its twelve products, each entering once; for double coordinates (so that `-2 * x` and
`2 * x` are exact) `robust_compare_distance` returns the sign of
`a2.x^2 - 2*a2.x*a1.x + a1.x^2 + a2.y^2 - 2*a2.y*a1.y + a1.y^2 - b2.x^2 + 2*b2.x*b1.x
  - b1.x^2 - b2.y^2 + 2*b2.y*b1.y - b1.y^2`; and this sum is identically
`((a2.x-a1.x)^2 + (a2.y-a1.y)^2) - ((b2.x-b1.x)^2 + (b2.y-b1.y)^2)`, the difference that
`fast_compare_distance` approximates. -/
theorem robust_compare_distance_exact_path (A : ExactArith) (a1 a2 b1 b2 : point)
    (h2 : a2.IsDouble) (h4 : b2.IsDouble) :
    Buf.sum (runSteps A (robust_compare_distance_steps a1 a2 b1 b2)) 0 24 =
      a2.x * a2.x + (-2 * a2.x) * a1.x + a1.x * a1.x + a2.y * a2.y
        + (-2 * a2.y) * a1.y + a1.y * a1.y + -b2.x * b2.x + (2 * b2.x) * b1.x
        + -b1.x * b1.x + -b2.y * b2.y + (2 * b2.y) * b1.y + -b1.y * b1.y ∧
    robust_compare_distance A a1 a2 b1 b2 =
      A.sign 24 (runSteps A (robust_compare_distance_steps a1 a2 b1 b2)) ∧
    robust_compare_distance A a1 a2 b1 b2 =
      sgn (a2.x ^ 2 - 2 * a2.x * a1.x + a1.x ^ 2 + a2.y ^ 2 - 2 * a2.y * a1.y + a1.y ^ 2
        - b2.x ^ 2 + 2 * b2.x * b1.x - b1.x ^ 2 - b2.y ^ 2 + 2 * b2.y * b1.y - b1.y ^ 2) ∧
    a2.x ^ 2 - 2 * a2.x * a1.x + a1.x ^ 2 + a2.y ^ 2 - 2 * a2.y * a1.y + a1.y ^ 2
        - b2.x ^ 2 + 2 * b2.x * b1.x - b1.x ^ 2 - b2.y ^ 2 + 2 * b2.y * b1.y - b1.y ^ 2 =
      ((a2.x - a1.x) ^ 2 + (a2.y - a1.y) ^ 2) - ((b2.x - b1.x) ^ 2 + (b2.y - b1.y) ^ 2) := by
  refine ⟨?_, robust_compare_distance_eq_run A a1 a2 b1 b2, ?_, by ring⟩
  · rw [robust_compare_distance_sum, fl_neg_two_mul _ h2.1.1, fl_neg_two_mul _ h2.2.1,
      fl_two_mul _ h4.1.1, fl_two_mul _ h4.2.1]
  · rw [robust_compare_distance_dist A a1 a2 b1 b2 h2.1.1 h2.2.1 h4.1.1 h4.2.1]
    congr 1
    unfold dist2
    ring

/-- C15, witness: the segments `(0,0)-(1,0)` and `(0,0)-(0,2)`. -/
theorem robust_compare_distance_exact_path_witness :
    ((⟨1, 0⟩ : point).IsDouble ∧ (⟨0, 2⟩ : point).IsDouble) ∧
    robust_compare_distance refArith ⟨0, 0⟩ ⟨1, 0⟩ ⟨0, 0⟩ ⟨0, 2⟩ = -1 :=
  ⟨by decide!,
    (robust_compare_distance_exact_path refArith ⟨0, 0⟩ ⟨1, 0⟩ ⟨0, 0⟩ ⟨0, 2⟩ (by decide!)
      (by decide!)).2.2.1.trans (by norm_num [sgn])⟩

/-- C16.  Scratch-buffer safety of the exact paths.  `robust_turn`, `robust_farther_than`
and `robust_compare_distance` run exactly the listed statements on arrays of 12, 16 and
24 doubles and pass the result to `sign<12>`, `sign<16>`, `sign<24>`; in each, every
index written by `two_product` is below the array size and written once, every
`expansion_sum<m, n>(e, f)` has `f = e + m` and `e + m + n` within the array with both
operands being expansions produced by earlier statements, and the last call leaves one
expansion occupying exactly `[0, N)`. -/
theorem exact_paths_scratch_safe (A : ExactArith) (a1 a2 b c : point) :
    (robust_turn A a1 a2 b = A.sign 12 (runSteps A (robust_turn_steps a1 a2 b)) ∧
      ScratchSafe 12 ⟨[], []⟩ (robust_turn_steps a1 a2 b)) ∧
    (robust_farther_than A a1 a2 b c =
        (A.sign 16 (runSteps A (robust_farther_than_steps a1 a2 b c)) == 1) ∧
      ScratchSafe 16 ⟨[], []⟩ (robust_farther_than_steps a1 a2 b c)) ∧
    (robust_compare_distance A a1 a2 b c =
        A.sign 24 (runSteps A (robust_compare_distance_steps a1 a2 b c)) ∧
      ScratchSafe 24 ⟨[], []⟩ (robust_compare_distance_steps a1 a2 b c)) :=
  ⟨⟨robust_turn_eq_run A a1 a2 b, robust_turn_safe a1 a2 b⟩,
    ⟨robust_farther_than_eq_run A a1 a2 b c, robust_farther_than_safe a1 a2 b c⟩,
    ⟨robust_compare_distance_eq_run A a1 a2 b c, robust_compare_distance_safe a1 a2 b c⟩⟩

/-- C17.  `farther_than` specialises to the orientation test: for all points,
`farther_than a1 a2 b a1 = (left_turn a1 a2 b = 1)`.  With `c = a1` the two fast paths
compute the same products and threshold, and the two exact paths sum to the same
value. -/
theorem farther_than_specialises_to_left_turn (A : ExactArith) (a1 a2 b : point) :
    farther_than A a1 a2 b a1 = decide (left_turn A a1 a2 b = 1) :=
  farther_than_pivot A a1 a2 b

/-- C18.  `farther_than` is asymmetric in its last two arguments: for all points,
`farther_than a1 a2 b c` and `farther_than a1 a2 c b` are never both true, and
`farther_than a1 a2 b b` is false. -/
theorem farther_than_asymm (A : ExactArith) (a1 a2 b c : point) :
    ¬ (farther_than A a1 a2 b c = true ∧ farther_than A a1 a2 c b = true) ∧
      farther_than A a1 a2 b b = false :=
  ⟨farther_than_not_both A a1 a2 b c, farther_than_same A a1 a2 b⟩

/-- C19.  `compare_distance` does not depend on the orientation of either segment: for
points with finite double coordinates, `compare_distance a1 a2 b1 b2
= compare_distance a2 a1 b1 b2 = compare_distance a1 a2 b2 b1`, and
`compare_distance a1 a2 a2 a1 = 0`. -/
theorem compare_distance_orientation_independent (A : ExactArith) (a1 a2 b1 b2 : point)
    (h1 : a1.IsDouble) (h2 : a2.IsDouble) (h3 : b1.IsDouble) (h4 : b2.IsDouble) :
    compare_distance A a1 a2 b1 b2 = compare_distance A a2 a1 b1 b2 ∧
      compare_distance A a2 a1 b1 b2 = compare_distance A a1 a2 b2 b1 ∧
      compare_distance A a1 a2 a2 a1 = 0 :=
  ⟨(compare_distance_reverse_left A a1 a2 b1 b2 h1 h2 h4).symm,
    (compare_distance_reverse_left A a1 a2 b1 b2 h1 h2 h4).trans
      (compare_distance_reverse_right A a1 a2 b1 b2 h2 h3 h4).symm,
    compare_distance_reversed_self A a1 a2 h1 h2⟩

/-- C19, witness: the segments `(0,0)-(1,0)` and `(0,0)-(0,2)`. -/
theorem compare_distance_orientation_independent_witness :
    ((⟨0, 0⟩ : point).IsDouble ∧ (⟨1, 0⟩ : point).IsDouble ∧ (⟨0, 2⟩ : point).IsDouble) ∧
    compare_distance refArith ⟨0, 0⟩ ⟨1, 0⟩ ⟨0, 0⟩ ⟨0, 2⟩
      = compare_distance refArith ⟨1, 0⟩ ⟨0, 0⟩ ⟨0, 0⟩ ⟨0, 2⟩ ∧
    compare_distance refArith ⟨1, 0⟩ ⟨0, 0⟩ ⟨0, 0⟩ ⟨0, 2⟩
      = compare_distance refArith ⟨0, 0⟩ ⟨1, 0⟩ ⟨0, 2⟩ ⟨0, 0⟩ ∧
    compare_distance refArith ⟨0, 0⟩ ⟨1, 0⟩ ⟨1, 0⟩ ⟨0, 0⟩ = 0 :=
  ⟨by decide!,
    compare_distance_orientation_independent refArith ⟨0, 0⟩ ⟨1, 0⟩ ⟨0, 0⟩ ⟨0, 2⟩ (by decide!)
      (by decide!) (by decide!) (by decide!)⟩

end Geometry
